import Mathlib

/-!
# argon2-gpu: `lib/argon2-cuda/processingunit.cpp`

A shallow embedding of the CUDA processing unit: the environment helpers
`env_int` / `env_on`, device binding, the construction-time geometry search
(lanes per block, then jobs per block), the per-dispatch override
resolution of `beginProcessing`, `endProcessing` and `getHash`.

Conventions of the embedding.

* `std::uint32_t` values are naturals below `2 ^ 32`; the loop increment
  `lpb *= 2` and the casts `(int)` / `(std::uint32_t)` wrap explicitly.
* Everything the CUDA runtime and the kernel runner decide on their own
  (whether a call raises a `CudaException`, which device is current, how long
  a kernel took) is read from a `Device` script, indexed by the number of
  device calls issued so far (`World.clock`).  Quantifying over all scripts
  covers every behaviour of the external runner.
* An elapsed time is a `float`: a value below `+infinity`, `+infinity` or a
  NaN (`Time`), compared the way `<` compares `float`s.
* The two `for` loops can fail to terminate (the candidate wraps to `0` when
  the maximum is `2 ^ 31`), so they take fuel and return `none` when it runs
  out.
-/

namespace argon2
namespace cuda

/-! ## Machine integers -/

/-- Conversion of a `std::uint32_t` to `int` (two's complement, as `(int)x`). -/
def toInt32 (n : Nat) : Int :=
  if n % 2 ^ 32 < 2 ^ 31 then ((n % 2 ^ 32 : Nat) : Int)
  else ((n % 2 ^ 32 : Nat) : Int) - 2 ^ 32

/-- Conversion of an `int` to `std::uint32_t`, as `(std::uint32_t)x`. -/
def toUInt32 (i : Int) : Nat := (i % 2 ^ 32).toNat

/-- Conversion of a (64-bit) `long` to `int`, as `(int)x`. -/
def longToInt (x : Int) : Int := toInt32 (x % 2 ^ 32).toNat

/-- Largest `long`. -/
def LONG_MAX : Int := 2 ^ 63 - 1

/-- Smallest `long`. -/
def LONG_MIN : Int := -(2 ^ 63)

/-! ## Environment helpers (`env_int`, `env_on`) -/

/-- The process environment: `std::getenv`. -/
abbrev Env := String → Option String

/-- The characters of a C string: everything before the first NUL. -/
def cstr (s : String) : List Char := s.toList.takeWhile (fun c => c.toNat != 0)

/-- The C predicate `isspace` in the "C" locale. -/
def isspace (c : Char) : Bool := c.toNat == 32 || (9 ≤ c.toNat && c.toNat ≤ 13)

/-- The C predicate `isdigit`. -/
def isdigit (c : Char) : Bool := 48 ≤ c.toNat && c.toNat ≤ 57

/-- Value of a run of decimal digits. -/
def digitsValue (ds : List Char) : Nat :=
  ds.foldl (fun acc c => 10 * acc + (c.toNat - 48)) 0

/-- The call `strtol(v, &end, 10)`: the converted value and the unparsed rest
of the string that `end` points to.  Leading white space and one optional sign
are skipped; without any digit nothing is consumed (`end == v`) and the value
is `0`; a value out of range is clamped to `LONG_MIN` / `LONG_MAX`. -/
def strtol (v : List Char) : Int × List Char :=
  let s := v.dropWhile isspace
  let neg : Bool := match s with
    | c :: _ => c.toNat == 45
    | [] => false
  let s1 := match s with
    | c :: t => if c.toNat == 45 || c.toNat == 43 then t else s
    | [] => s
  let ds := s1.takeWhile isdigit
  if ds.isEmpty then (0, v)
  else
    let n : Int := (digitsValue ds : Nat)
    let x : Int := if neg then -n else n
    (max LONG_MIN (min LONG_MAX x), s1.dropWhile isdigit)

/-- The helper `env_int(name, defval)`: the variable parsed by `strtol` when it
is set and the parse consumed the whole string, `defval` otherwise. -/
def env_int (env : Env) (name : String) (defval : Int) : Int :=
  match env name with
  | some v =>
    let p := strtol (cstr v)
    if p.2.isEmpty then longToInt p.1 else defval
  | none => defval

/-- The helper `env_on(name, defval)`: `atoi(v) != 0` when the variable is set. -/
def env_on (env : Env) (name : String) (defval : Bool) : Bool :=
  match env name with
  | some v => longToInt (strtol (cstr v)).1 != 0
  | none => defval

/-! ## Elapsed times -/

/-- An elapsed time, the `float` that `runner.finish()` returns.  The values
below `+infinity` (the finite ones and `-infinity`) are totally ordered and
stand here by their rank in that order. -/
inductive Time where
  /-- A value below `+infinity`. -/
  | value (t : Nat)
  /-- The value `+infinity`. -/
  | infinity
  /-- A NaN. -/
  | nan
  deriving DecidableEq, Repr

/-- A numeral is the value below `+infinity` of that rank. -/
instance (n : Nat) : OfNat Time n := ⟨Time.value n⟩

/-- The comparison `a < b` of two `float`s: false as soon as one is a NaN. -/
def Time.lt : Time → Time → Bool
  | Time.value a, Time.value b => decide (a < b)
  | Time.value _, Time.infinity => true
  | _, _ => false

/-- The comparison `a <= b` of two `float`s: false as soon as one is a NaN. -/
def Time.le : Time → Time → Bool
  | Time.value a, Time.value b => decide (a ≤ b)
  | Time.value _, Time.infinity => true
  | Time.infinity, Time.infinity => true
  | _, _ => false

/-! ## The external device -/

/-- Script of everything the CUDA runtime and the kernel runner decide:
indexed by the number of device calls issued before the call in question. -/
structure Device where
  /-- The call raises a `CudaException`. -/
  fails : Nat → Bool
  /-- The device index that `cudaGetDevice` reports. -/
  current : Nat → Int
  /-- The elapsed kernel time that `runner.finish()` reports. -/
  elapsed : Nat → Time
  /-- The output memory a kernel dispatch leaves behind, by job index, from the
  input memory and the output memory it found. -/
  kernel : Nat → (Nat → List Nat) → (Nat → List Nat) → Nat → List Nat

/-- Observable state outside the processing unit. -/
structure World where
  /-- Number of device calls issued so far. -/
  clock : Nat
  /-- Geometry `(lanesPerBlock, jobsPerBlock)` of every `runner.run` call issued
  so far, oldest first, failing calls included. -/
  runs : List (Nat × Nat)
  /-- The runner's input memory, by job index. -/
  input : Nat → List Nat
  /-- The runner's output memory, by job index. -/
  output : Nat → List Nat

/-- Did a call return normally or raise a `CudaException`? -/
inductive Status where
  | ok
  | cudaError
  deriving DecidableEq, Repr

/-- The world after one more device call. -/
def World.tick (w : World) : World := { w with clock := w.clock + 1 }

/-- The function `setCudaDevice(deviceIndex)`: query the current device and
switch only when it differs; either CUDA call may fail. -/
def setCudaDevice (d : Device) (w : World) (deviceIndex : Int) : Status × World :=
  if d.fails w.clock then (Status.cudaError, w.tick)
  else
    let currentIndex := d.current w.clock
    let w1 := w.tick
    if currentIndex ≠ deviceIndex then
      if d.fails w1.clock then (Status.cudaError, w1.tick) else (Status.ok, w1.tick)
    else (Status.ok, w1)

/-- The function `isPowerOfTwo(std::uint32_t x)`: `(x & (x - 1)) == 0`, the
subtraction wrapping modulo `2 ^ 32`. -/
def isPowerOfTwo (x : Nat) : Bool :=
  (x % 2 ^ 32) &&& ((x % 2 ^ 32 + (2 ^ 32 - 1)) % 2 ^ 32) == 0

/-! ## The kernel runner (external; only its interface) -/

/-- The geometry bounds the kernel runner reports (`getMinLanesPerBlock()` and
so on); they are fixed when the runner is built. -/
structure KernelRunner where
  minLanesPerBlock : Nat
  maxLanesPerBlock : Nat
  minJobsPerBlock : Nat
  maxJobsPerBlock : Nat
  deriving DecidableEq, Repr

/-- The bounds are `std::uint32_t` values. -/
def KernelRunner.WF (r : KernelRunner) : Prop :=
  r.minLanesPerBlock < 2 ^ 32 ∧ r.maxLanesPerBlock < 2 ^ 32 ∧
  r.minJobsPerBlock < 2 ^ 32 ∧ r.maxJobsPerBlock < 2 ^ 32

instance (r : KernelRunner) : Decidable r.WF := by
  unfold KernelRunner.WF; infer_instance

/-- The call `runner.run(lanesPerBlock, jobsPerBlock)`: one kernel dispatch,
which overwrites the output memory. -/
def KernelRunner.run (d : Device) (w : World) (lanesPerBlock jobsPerBlock : Nat) :
    Status × World :=
  (if d.fails w.clock then Status.cudaError else Status.ok,
   { w.tick with runs := w.runs ++ [(lanesPerBlock, jobsPerBlock)],
                 output := d.kernel w.clock w.input w.output })

/-- The call `runner.finish()`: wait for the dispatch; the elapsed time, or
`none` for a `CudaException`. -/
def KernelRunner.finish (d : Device) (w : World) : Option Time × World :=
  (if d.fails w.clock then none else some (d.elapsed w.clock), w.tick)

/-- The call `runner.writeInputMemory(index, buffer)`. -/
def KernelRunner.writeInputMemory (d : Device) (w : World) (index : Nat)
    (buffer : List Nat) : Status × World :=
  if d.fails w.clock then (Status.cudaError, w.tick)
  else (Status.ok, { w.tick with input := fun i => if i = index then buffer else w.input i })

/-! ## The processing unit -/

/-- The Argon2 parameter set (external): only what the unit calls. -/
structure Argon2Params where
  lanes : Nat
  /-- The first two blocks of every lane, derived from a password. -/
  fillFirstBlocks : List Nat → List Nat
  /-- The digest derived from the final blocks. -/
  finalize : List Nat → List Nat

/-- State of a `ProcessingUnit`. -/
structure ProcessingUnit where
  params : Argon2Params
  deviceIndex : Int
  batchSize : Nat
  runner : KernelRunner
  bestLanesPerBlock : Nat
  bestJobsPerBlock : Nat

/-- The method `setPassword(index, pw, pwSize)`: build the first blocks and
write them to the runner's input memory. -/
def ProcessingUnit.setPassword (d : Device) (u : ProcessingUnit) (w : World)
    (index : Nat) (pw : List Nat) : Status × World :=
  KernelRunner.writeInputMemory d w index (u.params.fillFirstBlocks pw)

/-- The pre-fill loop of the constructor: `setPassword(i, NULL, 0)` for the
`n` slots from `i` on. -/
def prefill (d : Device) (u : ProcessingUnit) : Nat → Nat → World → Status × World
  | 0, _, w => (Status.ok, w)
  | n + 1, i, w =>
    match u.setPassword d w i [] with
    | (Status.cudaError, w1) => (Status.cudaError, w1)
    | (Status.ok, w1) => prefill d u n (i + 1) w1

/-- One tuning trial, as the debug log of the constructor reports it. -/
structure Trial where
  lanesPerBlock : Nat
  jobsPerBlock : Nat
  /-- The measured time; `none` when the trial raised a `CudaException`. -/
  time : Option Time
  deriving DecidableEq, Repr

/-- The `try` block of a search loop: `runner.run(...)`, then
`time = runner.finish()`; `none` when either raises a `CudaException`. -/
def runTrial (d : Device) (w : World) (lanesPerBlock jobsPerBlock : Nat) :
    Option Time × World :=
  match KernelRunner.run d w lanesPerBlock jobsPerBlock with
  | (Status.cudaError, w1) => (none, w1)
  | (Status.ok, w1) => KernelRunner.finish d w1

/-- The test `time < bestTime` of the loop, on `float`s. -/
def improves (time bestTime : Time) : Bool := Time.lt time bestTime

/-- The doubling loop `for (cand = 1; cand <= maxv; cand *= 2)` shared by the
lane search (lines 68-92) and the job search (lines 108-132); `geometry cand`
is the argument pair of `runner.run`.  The arguments are the fuel, the
candidate, `bestTime`, the best candidate so far and the world; the result is
the final best candidate, the trials made (candidate and outcome, in order)
and the final world.  A failing trial leaves the loop (`break`). -/
def searchLoop (d : Device) (geometry : Nat → Nat × Nat) (maxv : Nat) :
    Nat → Nat → Time → Nat → World →
      Option (Nat × List (Nat × Option Time) × World)
  | 0, _, _, _, _ => none
  | fuel + 1, cand, bestTime, best, w =>
    if cand ≤ maxv then
      match runTrial d w (geometry cand).1 (geometry cand).2 with
      | (none, w1) => some (best, [(cand, none)], w1)
      | (some time, w1) =>
        let next : Time × Nat :=
          if improves time bestTime then (time, cand) else (bestTime, best)
        match searchLoop d geometry maxv fuel (cand * 2 % 2 ^ 32) next.1 next.2 w1 with
        | some (b, ts, w2) => some (b, (cand, some time) :: ts, w2)
        | none => none
    else some (best, [], w)

/-- The lane search of the constructor (lines 61-97). -/
def laneSearch (d : Device) (fuel : Nat) (u : ProcessingUnit) (w : World) :
    Option (ProcessingUnit × List Trial × World) :=
  if u.runner.maxLanesPerBlock > u.runner.minLanesPerBlock
      && isPowerOfTwo u.runner.maxLanesPerBlock then
    match searchLoop d (fun lpb => (lpb, u.bestJobsPerBlock)) u.runner.maxLanesPerBlock
        fuel 1 Time.infinity u.bestLanesPerBlock w with
    | some (b, ts, w1) =>
      some ({ u with bestLanesPerBlock := b },
            ts.map (fun p => Trial.mk p.1 u.bestJobsPerBlock p.2), w1)
    | none => none
  else some (u, [], w)

/-- The job search of the constructor (lines 99-137). -/
def jobSearch (d : Device) (fuel : Nat) (u : ProcessingUnit) (w : World) :
    Option (ProcessingUnit × List Trial × World) :=
  if u.bestLanesPerBlock == u.runner.maxLanesPerBlock
      && u.runner.maxJobsPerBlock > u.runner.minJobsPerBlock
      && isPowerOfTwo u.runner.maxJobsPerBlock then
    match searchLoop d (fun jpb => (u.bestLanesPerBlock, jpb)) u.runner.maxJobsPerBlock
        fuel 1 Time.infinity u.bestJobsPerBlock w with
    | some (b, ts, w1) =>
      some ({ u with bestJobsPerBlock := b },
            ts.map (fun p => Trial.mk u.bestLanesPerBlock p.1 p.2), w1)
    | none => none
  else some (u, [], w)

/-- What the constructor leaves behind: the unit and the trials of both
searches. -/
structure Tuned where
  unit : ProcessingUnit
  laneTrials : List Trial
  jobTrials : List Trial

/-- The tuning part of the constructor: lane search, then job search. -/
def tune (d : Device) (fuel : Nat) (u : ProcessingUnit) (w : World) :
    Option (Tuned × World) :=
  match laneSearch d fuel u w with
  | none => none
  | some (u1, lts, w1) =>
    match jobSearch d fuel u1 w1 with
    | none => none
    | some (u2, jts, w2) => some (Tuned.mk u2 lts jts, w2)

/-- Result of running the constructor to its end. -/
inductive Construction where
  /-- A `CudaException` left the constructor. -/
  | failed (w : World)
  /-- The unit was built. -/
  | built (t : Tuned) (w : World)

/-- The unit as the member initialisers leave it: the best geometry starts at
the runner's minima. -/
def ProcessingUnit.initial (params : Argon2Params) (deviceIndex : Int)
    (batchSize : Nat) (runner : KernelRunner) : ProcessingUnit :=
  { params := params, deviceIndex := deviceIndex, batchSize := batchSize,
    runner := runner, bestLanesPerBlock := runner.minLanesPerBlock,
    bestJobsPerBlock := runner.minJobsPerBlock }

/-- The constructor `ProcessingUnit::ProcessingUnit`; `runner` is the kernel
runner the member initialiser builds.  `none` when the fuel runs out. -/
def ProcessingUnit.construct (d : Device) (fuel : Nat) (params : Argon2Params)
    (deviceIndex : Int) (batchSize : Nat) (runner : KernelRunner) (w : World) :
    Option Construction :=
  let u := ProcessingUnit.initial params deviceIndex batchSize runner
  match setCudaDevice d w deviceIndex with
  | (Status.cudaError, w1) => some (Construction.failed w1)
  | (Status.ok, w1) =>
    match prefill d u batchSize 0 w1 with
    | (Status.cudaError, w2) => some (Construction.failed w2)
    | (Status.ok, w2) =>
      match tune d fuel u w2 with
      | none => none
      | some (t, w3) => some (Construction.built t w3)

/-- Lines 164-187 of `beginProcessing`: the geometry of the dispatch, from the
tuned values, `A2_FORCE` and the overrides `A2_LPB` / `A2_JPB`. -/
def ProcessingUnit.resolveGeometry (env : Env) (u : ProcessingUnit) : Nat × Nat :=
  let lpbEnv0 := env_int env "A2_LPB" (-1)
  let jpbEnv0 := env_int env "A2_JPB" (-1)
  let force := env_on env "A2_FORCE" false
  let minLPB := toInt32 u.runner.minLanesPerBlock
  let maxLPB := toInt32 u.runner.maxLanesPerBlock
  let minJPB := toInt32 u.runner.minJobsPerBlock
  let maxJPB := toInt32 u.runner.maxJobsPerBlock
  let lpbEnv := if force && decide (lpbEnv0 < 0) then maxLPB else lpbEnv0
  let jpbEnv := if force && decide (jpbEnv0 < 0) then maxJPB else jpbEnv0
  let useLPB := if lpbEnv > 0 then toUInt32 (max minLPB (min maxLPB lpbEnv))
    else u.bestLanesPerBlock
  let useJPB := if jpbEnv > 0 then toUInt32 (max minJPB (min maxJPB jpbEnv))
    else u.bestJobsPerBlock
  (useLPB, useJPB)

/-- The method `beginProcessing()`: bind the device, resolve the geometry and
issue the dispatch.  The unit itself is not modified. -/
def ProcessingUnit.beginProcessing (d : Device) (env : Env) (u : ProcessingUnit)
    (w : World) : Status × World :=
  match setCudaDevice d w u.deviceIndex with
  | (Status.cudaError, w1) => (Status.cudaError, w1)
  | (Status.ok, w1) =>
    KernelRunner.run d w1 (u.resolveGeometry env).1 (u.resolveGeometry env).2

/-- The method `endProcessing()`: wait for the dispatch, drop the time. -/
def ProcessingUnit.endProcessing (d : Device) (w : World) : Status × World :=
  match KernelRunner.finish d w with
  | (none, w1) => (Status.cudaError, w1)
  | (some _, w1) => (Status.ok, w1)

/-- The `runner.run` calls issued between two worlds. -/
def dispatched (w w1 : World) : List (Nat × Nat) := w1.runs.drop w.runs.length

/-! ## The selection the search is meant to make -/

/-- One step of the selection: a timed candidate replaces the current best
only when its time is strictly smaller. -/
def selectStep (acc : Time × Nat) (p : Nat × Time) : Time × Nat :=
  if improves p.2 acc.1 then (p.2, p.1) else acc

/-- The selection over a list of timed candidates `(candidate, time)`, from
the pair `(bestTime, best)`: the minimum time seen and who achieved it. -/
def selectBest (acc : Time × Nat) (timed : List (Nat × Time)) : Time × Nat :=
  timed.foldl selectStep acc

/-- The timed part of a trial list: the candidates whose trial completed. -/
def timedOf (ts : List (Nat × Option Time)) : List (Nat × Time) :=
  ts.filterMap (fun p => p.2.map (fun t => (p.1, t)))

/-! ## Observing a construction -/

/-- The unit and trials of a construction that built one. -/
def Construction.tuned? : Construction → Option Tuned
  | Construction.failed _ => none
  | Construction.built t _ => some t

/-- The world a construction ends in. -/
def Construction.world : Construction → World
  | Construction.failed w => w
  | Construction.built _ w => w

/-- What the constructor built, when it returned a unit. -/
def built? (c : Option Construction) : Option Tuned := c.bind Construction.tuned?

/-- The argument pair of the `runner.run` call of a trial. -/
def Trial.geometry (tr : Trial) : Nat × Nat := (tr.lanesPerBlock, tr.jobsPerBlock)

/-- The timed candidates of a lane search: lanes per block and time of every
trial that completed. -/
def timedLanes (ts : List Trial) : List (Nat × Time) :=
  ts.filterMap (fun tr => tr.time.map (fun t => (tr.lanesPerBlock, t)))

/-- The timed candidates of a job search: jobs per block and time of every
trial that completed. -/
def timedJobs (ts : List Trial) : List (Nat × Time) :=
  ts.filterMap (fun tr => tr.time.map (fun t => (tr.jobsPerBlock, t)))

/-- Clamping a value into `[lo, hi]` the way `beginProcessing` writes it:
`max(lo, min(hi, v))`. -/
def clamp (v lo hi : Nat) : Nat := max lo (min hi v)

/-! ## Concrete inputs for evaluation -/

/-- A device on which the first `failFrom` calls succeed and every later call
raises a `CudaException`; device `0` is always current and every elapsed time
is a value below `+infinity`. -/
def scriptedDevice (elapsed : Nat → Nat) (failFrom : Nat) : Device :=
  { fails := fun k => decide (failFrom ≤ k), current := fun _ => 0,
    elapsed := fun k => Time.value (elapsed k), kernel := fun _ input _ => input }

/-- A world in which nothing has happened yet. -/
def emptyWorld : World :=
  { clock := 0, runs := [], input := fun _ => [], output := fun _ => [] }

/-- A stand-in for the Argon2 parameter set. -/
def plainParams : Argon2Params :=
  { lanes := 4, fillFirstBlocks := fun pw => pw, finalize := fun blocks => blocks }

/-- An environment with one variable set. -/
def envWith (name value : String) : Env := fun n => if n = name then some value else none

/-- An environment with no variable set. -/
def envNone : Env := fun _ => none

/-- The unit built on a device that never fails and gets faster with every
call, with lanes in `[1, 2]` and jobs in `[1, 2]`: both searches run. -/
def tunedBoth : Tuned :=
  { unit :=
      { params := plainParams, deviceIndex := 0, batchSize := 1,
        runner := KernelRunner.mk 1 2 1 2,
        bestLanesPerBlock := 2, bestJobsPerBlock := 2 },
    laneTrials := [Trial.mk 1 1 (some 17), Trial.mk 2 1 (some 15)],
    jobTrials := [Trial.mk 2 1 (some 13), Trial.mk 2 2 (some 11)] }

/-- The unit built with lanes in `[1, 8]` when the third lane trial fails. -/
def tunedLaneFailure : Tuned :=
  { unit :=
      { params := plainParams, deviceIndex := 0, batchSize := 1,
        runner := KernelRunner.mk 1 8 1 2,
        bestLanesPerBlock := 2, bestJobsPerBlock := 1 },
    laneTrials := [Trial.mk 1 1 (some 17), Trial.mk 2 1 (some 15), Trial.mk 4 1 none],
    jobTrials := [] }

/-- The unit built with a single lanes value `4` and jobs in `[1, 4]`. -/
def tunedJobsOnly : Tuned :=
  { unit :=
      { params := plainParams, deviceIndex := 0, batchSize := 1,
        runner := KernelRunner.mk 4 4 1 4,
        bestLanesPerBlock := 4, bestJobsPerBlock := 4 },
    laneTrials := [],
    jobTrials := [Trial.mk 4 1 (some 17), Trial.mk 4 2 (some 15), Trial.mk 4 4 (some 13)] }

/-- Device binding and the pre-fill of the constructor go through: the
constructor reaches the geometry search. -/
def reachesTuning (d : Device) (params : Argon2Params) (deviceIndex : Int)
    (batchSize : Nat) (r : KernelRunner) (w : World) : Prop :=
  (setCudaDevice d w deviceIndex).1 = Status.ok ∧
  (prefill d (ProcessingUnit.initial params deviceIndex batchSize r) batchSize 0
    (setCudaDevice d w deviceIndex).2).1 = Status.ok

instance (d : Device) (params : Argon2Params) (deviceIndex : Int) (batchSize : Nat)
    (r : KernelRunner) (w : World) :
    Decidable (reachesTuning d params deviceIndex batchSize r w) := by
  unfold reachesTuning; infer_instance

/-- No search of the constructor can wrap its candidate: a dimension whose
search can run (maximum above the minimum and passing `isPowerOfTwo`) has its
maximum below `2 ^ 31`. -/
def searchesBelowWrap (r : KernelRunner) : Prop :=
  (r.minLanesPerBlock < r.maxLanesPerBlock → isPowerOfTwo r.maxLanesPerBlock = true →
    r.maxLanesPerBlock < 2 ^ 31) ∧
  (r.minJobsPerBlock < r.maxJobsPerBlock → isPowerOfTwo r.maxJobsPerBlock = true →
    r.maxJobsPerBlock < 2 ^ 31)

instance (r : KernelRunner) : Decidable (searchesBelowWrap r) := by
  unfold searchesBelowWrap; infer_instance

/-- The job search runs exactly when its guard holds: the lanes value is the
maximum, and the jobs maximum exceeds the minimum and passes `isPowerOfTwo`. -/
def jobSearchEnabled (r : KernelRunner) (bestLanesPerBlock : Nat) : Prop :=
  bestLanesPerBlock = r.maxLanesPerBlock ∧ r.minJobsPerBlock < r.maxJobsPerBlock ∧
    isPowerOfTwo r.maxJobsPerBlock = true

/-- A search was truncated at its failing trial: `trials` holds nothing after
a failing trial, everything before it completed, and `best` is the selection,
started from the runner minimum `lo`, over the candidates timed before it. -/
def TruncatedAtFailure (timed : List Trial → List (Nat × Time)) (lo best : Nat)
    (trials : List Trial) : Prop :=
  ∀ pre tr post, trials = pre ++ tr :: post → tr.time = none →
    post = [] ∧ (∀ q ∈ pre, q.time ≠ none) ∧
    best = (selectBest (Time.infinity, lo) (timed pre)).2 ∧ (pre = [] → best = lo)

/-- The unit built with lanes in `[2, 4]` on a device where every trial takes
the same time: the search starts at candidate `1` and keeps it. -/
def tunedBelowMinimum : Tuned :=
  { unit :=
      { params := plainParams, deviceIndex := 0, batchSize := 1,
        runner := KernelRunner.mk 2 4 1 1,
        bestLanesPerBlock := 1, bestJobsPerBlock := 1 },
    laneTrials := [Trial.mk 1 1 (some 5), Trial.mk 2 1 (some 5), Trial.mk 4 1 (some 5)],
    jobTrials := [] }

/-- The unit built with lanes in `[1, 16]` on a device that gets faster with
every call: the lane search ends on `16`. -/
def tunedSixteen : Tuned :=
  { unit :=
      { params := plainParams, deviceIndex := 0, batchSize := 1,
        runner := KernelRunner.mk 1 16 1 1,
        bestLanesPerBlock := 16, bestJobsPerBlock := 1 },
    laneTrials := [Trial.mk 1 1 (some 37), Trial.mk 2 1 (some 35), Trial.mk 4 1 (some 33),
      Trial.mk 8 1 (some 31), Trial.mk 16 1 (some 29)],
    jobTrials := [] }

/-- The unit built with jobs in `[1, 3000000000]`: neither search runs. -/
def tunedHugeJobs : Tuned :=
  { unit :=
      { params := plainParams, deviceIndex := 0, batchSize := 1,
        runner := KernelRunner.mk 1 1 1 3000000000,
        bestLanesPerBlock := 1, bestJobsPerBlock := 1 },
    laneTrials := [], jobTrials := [] }

/-- The unit built with lanes in `[3, 4]` on the device that reports
`+infinity` for every kernel: all three lane trials complete and the runner
minimum is kept. -/
def tunedUnmeasured : Tuned :=
  { unit :=
      { params := plainParams, deviceIndex := 0, batchSize := 1,
        runner := KernelRunner.mk 3 4 1 1,
        bestLanesPerBlock := 3, bestJobsPerBlock := 1 },
    laneTrials := [Trial.mk 1 1 (some Time.infinity), Trial.mk 2 1 (some Time.infinity),
      Trial.mk 4 1 (some Time.infinity)],
    jobTrials := [] }

/-! ## Reading a digest, and sequences of dispatches -/

/-- Modelled from the spec: the runner's `readOutputMemory(index, buffer)`,
whose code is not part of this source file, copies the output region of job
slot `index` into the buffer; the runner contract names no failure for it and
it changes no memory. -/
def KernelRunner.readOutputMemory (w : World) (index : Nat) : List Nat := w.output index

/-- The method `getHash(index, hash)`: read the output memory of the slot into
a fresh buffer and derive the digest with `params->finalize`.  The result is
the digest, the unit and the world after the call; the body assigns to no
member and writes no runner memory. -/
def ProcessingUnit.getHash (u : ProcessingUnit) (w : World) (index : Nat) :
    List Nat × ProcessingUnit × World :=
  let buffer := KernelRunner.readOutputMemory w index
  (u.params.finalize buffer, u, w)

/-- A unit in use: the members of the unit and the world around it. -/
structure Session where
  unit : ProcessingUnit
  world : World

/-- One call of `beginProcessing()` under the environment of that moment,
with the session it leaves.  The body assigns only to its locals (`lpbEnv`,
`jpbEnv`, `useLPB`, `useJPB`), so the members are those it found, also when a
`CudaException` leaves the method. -/
def Session.beginProcessing (d : Device) (env : Env) (s : Session) : Status × Session :=
  let r := s.unit.beginProcessing d env s.world
  (r.1, { unit := s.unit, world := r.2 })

/-- A sequence of `beginProcessing()` calls, one per environment of the list;
a caller that catches a `CudaException` goes on with the next call. -/
def Session.beginAll (d : Device) : List Env → Session → Session
  | [], s => s
  | env :: envs, s => Session.beginAll d envs (Session.beginProcessing d env s).2

/-- The environment `env` with the variable `name` unset. -/
def unsetVar (env : Env) (name : String) : Env := fun n => if n = name then none else env n

/-- An environment with `A2_FORCE=1` and one more variable set. -/
def envForcedWith (name value : String) : Env :=
  fun n => if n = name then some value else if n = "A2_FORCE" then some "1" else none

/-- A device on which no call ever fails and every kernel is reported to take
`+infinity`. -/
def unmeasuredDevice : Device :=
  { fails := fun _ => false, current := fun _ => 0, elapsed := fun _ => Time.infinity,
    kernel := fun _ input _ => input }

/-- A device on which no call ever fails and every kernel takes time `5`. -/
def steadyDevice : Device :=
  { fails := fun _ => false, current := fun _ => 0, elapsed := fun _ => 5,
    kernel := fun _ input _ => input }

/-- A device on which every kernel takes time `5`, except the one measured by
device call `67`, which takes time `1`; call `68` and every later call raise
a `CudaException`. -/
def wrapDevice : Device := scriptedDevice (fun k => if k = 67 then 1 else 5) 68

/-- The candidates the doubling search is meant to try for a maximum `maxv`:
the powers of two `1, 2, 4, ...` that do not exceed it, in increasing order. -/
def doublingCandidates (maxv : Nat) : List Nat :=
  ((List.range 32).map (fun i => 2 ^ i)).filter (fun c => decide (c ≤ maxv))

/-! ## The order of elapsed times -/

theorem Time.lt_trans {a b c : Time} (h1 : Time.lt a b = true) (h2 : Time.lt b c = true) :
    Time.lt a c = true := by
  cases a <;> cases b <;> cases c <;> simp [Time.lt] at h1 h2 ⊢
  omega

theorem Time.lt_of_le_of_lt {a b c : Time} (h1 : Time.le a b = true)
    (h2 : Time.lt b c = true) : Time.lt a c = true := by
  cases a <;> cases b <;> cases c <;> simp [Time.lt, Time.le] at h1 h2 ⊢
  omega

theorem Time.not_le_of_lt {a b : Time} (h : Time.lt a b = true) : Time.le b a = false := by
  cases a <;> cases b <;> simp [Time.lt, Time.le] at h ⊢
  omega

/-- Without a NaN the order is total: `b <= a` false gives `a <= b`. -/
theorem Time.le_of_not_le {a b : Time} (ha : a ≠ Time.nan) (hb : b ≠ Time.nan)
    (h : Time.le b a = false) : Time.le a b = true := by
  cases a <;> cases b <;> simp [Time.le] at h ha hb ⊢
  omega

/-- Without a NaN the order is total: `b < a` false gives `a <= b`. -/
theorem Time.le_of_not_lt {a b : Time} (ha : a ≠ Time.nan) (hb : b ≠ Time.nan)
    (h : Time.lt b a = false) : Time.le a b = true := by
  cases a <;> cases b <;> simp [Time.lt, Time.le] at h ha hb ⊢
  omega

theorem Time.le_refl_of_lt {a b : Time} (h : Time.lt a b = true) : Time.le a a = true := by
  cases a <;> cases b <;> simp [Time.lt, Time.le] at h ⊢

theorem Time.ne_nan_of_lt {a b : Time} (h : Time.lt a b = true) : a ≠ Time.nan := by
  cases a <;> cases b <;> simp [Time.lt] at h ⊢

/-! ## The search loop -/

theorem searchLoop_inv {d : Device} {g : Nat → Nat × Nat} {m fuel c : Nat}
    {bt : Time} {b : Nat} {w : World} {b1 : Nat}
    {ts : List (Nat × Option Time)} {w1 : World}
    (h : searchLoop d g m fuel c bt b w = some (b1, ts, w1)) :
    (¬ c ≤ m ∧ b1 = b ∧ ts = [] ∧ w1 = w) ∨
    (c ≤ m ∧ runTrial d w (g c).1 (g c).2 = (none, w1) ∧ b1 = b ∧ ts = [(c, none)]) ∨
    (c ≤ m ∧ ∃ t w2 ts1 f, fuel = f + 1 ∧
      runTrial d w (g c).1 (g c).2 = (some t, w2) ∧ ts = (c, some t) :: ts1 ∧
      searchLoop d g m f (c * 2 % 2 ^ 32) (selectStep (bt, b) (c, t)).1
        (selectStep (bt, b) (c, t)).2 w2 = some (b1, ts1, w1)) := by
  cases fuel with
  | zero => simp [searchLoop] at h
  | succ f =>
    rw [searchLoop] at h
    by_cases hc : c ≤ m
    · rw [if_pos hc] at h
      rcases hr : runTrial d w (g c).1 (g c).2 with ⟨o, w2⟩
      rw [hr] at h
      cases o with
      | none =>
        simp only [Option.some.injEq, Prod.mk.injEq] at h
        obtain ⟨h1, h2, h3⟩ := h
        subst h3
        exact Or.inr (Or.inl ⟨hc, rfl, h1.symm, h2.symm⟩)
      | some t =>
        simp only at h
        rcases hs : searchLoop d g m f (c * 2 % 2 ^ 32)
            (if improves t bt then (t, c) else (bt, b)).1
            (if improves t bt then (t, c) else (bt, b)).2 w2 with _ | ⟨b2, ts2, w3⟩
        · rw [hs] at h; simp at h
        · rw [hs] at h
          simp only [Option.some.injEq, Prod.mk.injEq] at h
          obtain ⟨h1, h2, h3⟩ := h
          subst h1 h2 h3
          exact Or.inr (Or.inr ⟨hc, t, w2, ts2, f, rfl, rfl, rfl, hs⟩)
    · rw [if_neg hc] at h
      simp only [Option.some.injEq, Prod.mk.injEq] at h
      obtain ⟨h1, h2, h3⟩ := h
      exact Or.inl ⟨hc, h1.symm, h2.symm, h3.symm⟩

theorem selectStep_eq (bt : Time) (b c : Nat) (t : Time) :
    selectStep (bt, b) (c, t) = if improves t bt then (t, c) else (bt, b) := rfl

/-- The selection returns the first timed candidate whose time is a strict
improvement on the initial time and on everything before it, and which
nothing after it improves on; or the initial pair when no candidate improves
on it. -/
theorem selectBest_first (timed : List (Nat × Time)) (acc : Time × Nat) :
    (selectBest acc timed = acc ∧ ∀ p ∈ timed, Time.lt p.2 acc.1 = false) ∨
    (∃ pre t post, timed = pre ++ ((selectBest acc timed).2, t) :: post ∧
      (selectBest acc timed).1 = t ∧ Time.lt t acc.1 = true ∧
      (∀ p ∈ pre, Time.le p.2 t = false) ∧
      (∀ p ∈ post, Time.lt p.2 t = false)) := by
  induction timed generalizing acc with
  | nil => left; exact ⟨rfl, by simp⟩
  | cons p rest ih =>
    have hcons : selectBest acc (p :: rest) = selectBest (selectStep acc p) rest := rfl
    rw [hcons]
    by_cases hi : improves p.2 acc.1 = true
    · have hstep : selectStep acc p = (p.2, p.1) := by simp [selectStep, hi]
      have hlt : Time.lt p.2 acc.1 = true := hi
      rw [hstep]
      rcases ih (p.2, p.1) with ⟨heq, hall⟩ | ⟨pre, t, post, hsplit, hbest, hacc, hpre, hpost⟩
      · right
        refine ⟨[], p.2, rest, ?_, ?_, hlt, ?_, hall⟩
        · rw [heq]; rfl
        · rw [heq]
        · intro q hq; cases hq
      · right
        refine ⟨p :: pre, t, post, ?_, hbest, Time.lt_trans hacc hlt, ?_, hpost⟩
        · rw [List.cons_append, ← hsplit]
        · intro q hq
          rcases List.mem_cons.1 hq with rfl | hq
          · exact Time.not_le_of_lt hacc
          · exact hpre q hq
    · have hstep : selectStep acc p = acc := by simp [selectStep, hi]
      have hge : Time.lt p.2 acc.1 = false := by
        simpa [improves] using hi
      rw [hstep]
      rcases ih acc with ⟨heq, hall⟩ | ⟨pre, t, post, hsplit, hbest, hacc, hpre, hpost⟩
      · left
        refine ⟨heq, ?_⟩
        intro q hq
        rcases List.mem_cons.1 hq with rfl | hq
        · exact hge
        · exact hall q hq
      · right
        refine ⟨p :: pre, t, post, ?_, hbest, hacc, ?_, hpost⟩
        · rw [List.cons_append, ← hsplit]
        · intro q hq
          rcases List.mem_cons.1 hq with rfl | hq
          · cases hle : Time.le q.2 t with
            | false => rfl
            | true =>
              have := Time.lt_of_le_of_lt hle hacc
              rw [hge] at this
              cases this
          · exact hpre q hq

/-- From `bestTime = +infinity` and at least one timed candidate whose time is
below `+infinity`, the selected candidate was timed, its time is at most every
time that is not a NaN, and no earlier candidate has the same time. -/
theorem selectBest_min (timed : List (Nat × Time)) (b : Nat)
    (hne : ∃ p ∈ timed, Time.lt p.2 Time.infinity = true) :
    ∃ t, ((selectBest (Time.infinity, b) timed).2, t) ∈ timed ∧
      (selectBest (Time.infinity, b) timed).1 = t ∧ Time.lt t Time.infinity = true ∧
      (∀ p ∈ timed, p.2 ≠ Time.nan → Time.le t p.2 = true) ∧
      ∃ pre post, timed = pre ++ ((selectBest (Time.infinity, b) timed).2, t) :: post ∧
        ∀ p ∈ pre, p.2 ≠ t := by
  rcases selectBest_first timed (Time.infinity, b) with
    ⟨_, hall⟩ | ⟨pre, t, post, hsplit, hbest, hacc, hpre, hpost⟩
  · obtain ⟨p, hp, hlt⟩ := hne
    have := hall p hp
    simp only at this
    rw [hlt] at this
    cases this
  · have htn : t ≠ Time.nan := Time.ne_nan_of_lt hacc
    refine ⟨t, ?_, hbest, hacc, ?_, pre, post, hsplit, ?_⟩
    · have hmem : ((selectBest (Time.infinity, b) timed).2, t) ∈
          pre ++ ((selectBest (Time.infinity, b) timed).2, t) :: post := by simp
      rwa [← hsplit] at hmem
    · intro p hp hpn
      have hp1 : p ∈ pre ++ ((selectBest (Time.infinity, b) timed).2, t) :: post := by
        rw [← hsplit]; exact hp
      rcases List.mem_append.1 hp1 with h | h
      · exact Time.le_of_not_le htn hpn (hpre p h)
      · rcases List.mem_cons.1 h with rfl | h
        · exact Time.le_refl_of_lt hacc
        · exact Time.le_of_not_lt htn hpn (hpost p h)
    · intro p hp heq
      have := hpre p hp
      rw [heq, Time.le_refl_of_lt hacc] at this
      cases this

theorem timedOf_cons_some (c : Nat) (t : Time) (ts : List (Nat × Option Time)) :
    timedOf ((c, some t) :: ts) = (c, t) :: timedOf ts := by
  simp [timedOf]

theorem timedOf_cons_none (c : Nat) (ts : List (Nat × Option Time)) :
    timedOf ((c, none) :: ts) = timedOf ts := by
  simp [timedOf]

theorem mem_timedOf {ts : List (Nat × Option Time)} {c : Nat} {t : Time} :
    (c, t) ∈ timedOf ts ↔ (c, some t) ∈ ts := by
  induction ts with
  | nil => simp [timedOf]
  | cons p rest ih =>
    obtain ⟨c1, o⟩ := p
    cases o with
    | none => rw [timedOf_cons_none, ih]; simp
    | some t1 =>
      rw [timedOf_cons_some, List.mem_cons, List.mem_cons, ih]
      simp

/-- The loop refines the selection: its result is the selection over the
candidates it timed. -/
theorem searchLoop_select {d : Device} {g : Nat → Nat × Nat} {m : Nat} :
    ∀ (fuel c : Nat) (bt : Time) (b : Nat) (w : World) (b1 : Nat)
      (ts : List (Nat × Option Time)) (w1 : World),
      searchLoop d g m fuel c bt b w = some (b1, ts, w1) →
      (selectBest (bt, b) (timedOf ts)).2 = b1 := by
  intro fuel
  induction fuel with
  | zero => intro c bt b w b1 ts w1 h; simp [searchLoop] at h
  | succ f ih =>
    intro c bt b w b1 ts w1 h
    rcases searchLoop_inv h with ⟨_, hb, hts, _⟩ | ⟨_, _, hb, hts⟩ |
      ⟨_, t, w2, ts1, f1, hf, _, hts, hrec⟩
    · subst hb hts; rfl
    · subst hb hts; rfl
    · have hf1 : f1 = f := by omega
      subst hf1
      have := ih _ _ _ _ _ _ _ hrec
      rw [hts, timedOf_cons_some]
      exact this

/-- A failing trial ends the loop: it is the last trial, and every trial
before it completed. -/
theorem searchLoop_shape {d : Device} {g : Nat → Nat × Nat} {m : Nat} :
    ∀ (fuel c : Nat) (bt : Time) (b : Nat) (w : World) (b1 : Nat)
      (ts : List (Nat × Option Time)) (w1 : World),
      searchLoop d g m fuel c bt b w = some (b1, ts, w1) →
      ∀ pre x post, ts = pre ++ (x, none) :: post →
        post = [] ∧ ∀ p ∈ pre, ∃ t, p.2 = some t := by
  intro fuel
  induction fuel with
  | zero => intro c bt b w b1 ts w1 h; simp [searchLoop] at h
  | succ f ih =>
    intro c bt b w b1 ts w1 h pre x post hsplit
    rcases searchLoop_inv h with ⟨_, _, hts, _⟩ | ⟨_, _, _, hts⟩ |
      ⟨_, t, w2, ts1, f1, hf, _, hts, hrec⟩
    · subst hts
      cases pre <;> simp at hsplit
    · subst hts
      cases pre with
      | nil =>
        simp only [List.nil_append, List.cons.injEq] at hsplit
        exact ⟨hsplit.2.symm, by simp⟩
      | cons q pre1 =>
        simp only [List.cons_append, List.cons.injEq] at hsplit
        cases pre1 <;> simp at hsplit
    · have hf1 : f1 = f := by omega
      subst hf1
      subst hts
      cases pre with
      | nil => simp at hsplit
      | cons q pre1 =>
        simp only [List.cons_append, List.cons.injEq] at hsplit
        obtain ⟨hq, hrest⟩ := hsplit
        obtain ⟨hpost, hpre⟩ := ih _ _ _ _ _ _ _ hrec pre1 x post hrest
        refine ⟨hpost, ?_⟩
        intro p hp
        rcases List.mem_cons.1 hp with rfl | hp
        · exact ⟨t, by rw [← hq]⟩
        · exact hpre p hp

theorem runTrial_runs (d : Device) (w : World) (l j : Nat) :
    (runTrial d w l j).2.runs = w.runs ++ [(l, j)] := by
  unfold runTrial KernelRunner.run KernelRunner.finish World.tick
  by_cases hf : d.fails w.clock = true <;> simp [hf]

theorem double_mod (c i : Nat) :
    c * 2 % 2 ^ 32 * 2 ^ i % 2 ^ 32 = c * 2 ^ (i + 1) % 2 ^ 32 := by
  rw [Nat.mul_mod, Nat.mod_mod, ← Nat.mul_mod]
  congr 1
  ring

/-- Every trial of the loop is a `runner.run` call, in order, and the loop
issues no other. -/
theorem searchLoop_runs {d : Device} {g : Nat → Nat × Nat} {m : Nat} :
    ∀ (fuel c : Nat) (bt : Time) (b : Nat) (w : World) (b1 : Nat)
      (ts : List (Nat × Option Time)) (w1 : World),
      searchLoop d g m fuel c bt b w = some (b1, ts, w1) →
      w1.runs = w.runs ++ ts.map (fun p => g p.1) := by
  intro fuel
  induction fuel with
  | zero => intro c bt b w b1 ts w1 h; simp [searchLoop] at h
  | succ f ih =>
    intro c bt b w b1 ts w1 h
    rcases searchLoop_inv h with ⟨_, _, hts, hw⟩ | ⟨_, hr, _, hts⟩ |
      ⟨_, t, w2, ts1, f1, hf, hr, hts, hrec⟩
    · subst hts hw; simp
    · subst hts
      have := runTrial_runs d w (g c).1 (g c).2
      rw [hr] at this
      simpa using this
    · have hf1 : f1 = f := by omega
      subst hf1
      have h2 := runTrial_runs d w (g c).1 (g c).2
      rw [hr] at h2
      rw [ih _ _ _ _ _ _ _ hrec, hts]
      simp only at h2
      rw [h2]
      simp

/-- The candidates are tried in doubling order: trial `i` is candidate
`c * 2 ^ i` modulo `2 ^ 32`. -/
theorem searchLoop_cands {d : Device} {g : Nat → Nat × Nat} {m : Nat} :
    ∀ (fuel c : Nat) (bt : Time) (b : Nat) (w : World) (b1 : Nat)
      (ts : List (Nat × Option Time)) (w1 : World),
      searchLoop d g m fuel c bt b w = some (b1, ts, w1) → c < 2 ^ 32 →
      ∀ (i : Nat) (p : Nat × Option Time), ts[i]? = some p → p.1 = c * 2 ^ i % 2 ^ 32 := by
  intro fuel
  induction fuel with
  | zero => intro c bt b w b1 ts w1 h; simp [searchLoop] at h
  | succ f ih =>
    intro c bt b w b1 ts w1 h hc i p hp
    rcases searchLoop_inv h with ⟨_, _, hts, _⟩ | ⟨_, _, _, hts⟩ |
      ⟨_, t, w2, ts1, f1, hf, _, hts, hrec⟩
    · subst hts; simp at hp
    · subst hts
      cases i with
      | zero =>
        simp only [List.getElem?_cons_zero, Option.some.injEq] at hp
        subst hp
        simp only [pow_zero, mul_one]
        exact (Nat.mod_eq_of_lt hc).symm
      | succ i => simp at hp
    · have hf1 : f1 = f := by omega
      subst hf1
      subst hts
      cases i with
      | zero =>
        simp only [List.getElem?_cons_zero, Option.some.injEq] at hp
        subst hp
        simp only [pow_zero, mul_one]
        exact (Nat.mod_eq_of_lt hc).symm
      | succ i =>
        simp only [List.getElem?_cons_succ] at hp
        have := ih _ _ _ _ _ _ _ hrec (Nat.mod_lt _ (by norm_num)) i p hp
        rw [this, double_mod]

/-- Every candidate tried is within the loop bound. -/
theorem searchLoop_le {d : Device} {g : Nat → Nat × Nat} {m : Nat} :
    ∀ (fuel c : Nat) (bt : Time) (b : Nat) (w : World) (b1 : Nat)
      (ts : List (Nat × Option Time)) (w1 : World),
      searchLoop d g m fuel c bt b w = some (b1, ts, w1) →
      ∀ p ∈ ts, p.1 ≤ m := by
  intro fuel
  induction fuel with
  | zero => intro c bt b w b1 ts w1 h; simp [searchLoop] at h
  | succ f ih =>
    intro c bt b w b1 ts w1 h p hp
    rcases searchLoop_inv h with ⟨_, _, hts, _⟩ | ⟨hc, _, _, hts⟩ |
      ⟨hc, t, w2, ts1, f1, hf, _, hts, hrec⟩
    · subst hts; simp at hp
    · subst hts
      simp only [List.mem_singleton] at hp
      subst hp; exact hc
    · have hf1 : f1 = f := by omega
      subst hf1
      subst hts
      rcases List.mem_cons.1 hp with rfl | hp
      · exact hc
      · exact ih _ _ _ _ _ _ _ hrec p hp

/-- Below `2 ^ 31` the doubling does not wrap: every candidate tried is at
least the first one, hence positive. -/
theorem searchLoop_pos {d : Device} {g : Nat → Nat × Nat} {m : Nat} (hm : m < 2 ^ 31) :
    ∀ (fuel c : Nat) (bt : Time) (b : Nat) (w : World) (b1 : Nat)
      (ts : List (Nat × Option Time)) (w1 : World),
      searchLoop d g m fuel c bt b w = some (b1, ts, w1) → 1 ≤ c →
      ∀ p ∈ ts, 1 ≤ p.1 := by
  intro fuel
  induction fuel with
  | zero => intro c bt b w b1 ts w1 h; simp [searchLoop] at h
  | succ f ih =>
    intro c bt b w b1 ts w1 h hc1 p hp
    rcases searchLoop_inv h with ⟨_, _, hts, _⟩ | ⟨hc, _, _, hts⟩ |
      ⟨hc, t, w2, ts1, f1, hf, _, hts, hrec⟩
    · subst hts; simp at hp
    · subst hts
      simp only [List.mem_singleton] at hp
      subst hp; exact hc1
    · have hf1 : f1 = f := by omega
      subst hf1
      subst hts
      rcases List.mem_cons.1 hp with rfl | hp
      · exact hc1
      · refine ih _ _ _ _ _ _ _ hrec ?_ p hp
        have : c * 2 < 2 ^ 32 := by omega
        rw [Nat.mod_eq_of_lt this]
        omega

/-- When no trial failed, the loop ended because the next candidate exceeds
the bound. -/
theorem searchLoop_end {d : Device} {g : Nat → Nat × Nat} {m : Nat} :
    ∀ (fuel c : Nat) (bt : Time) (b : Nat) (w : World) (b1 : Nat)
      (ts : List (Nat × Option Time)) (w1 : World),
      searchLoop d g m fuel c bt b w = some (b1, ts, w1) → c < 2 ^ 32 →
      (∀ p ∈ ts, ∃ t, p.2 = some t) → m < c * 2 ^ ts.length % 2 ^ 32 := by
  intro fuel
  induction fuel with
  | zero => intro c bt b w b1 ts w1 h; simp [searchLoop] at h
  | succ f ih =>
    intro c bt b w b1 ts w1 h hc hall
    rcases searchLoop_inv h with ⟨hcm, _, hts, _⟩ | ⟨_, _, _, hts⟩ |
      ⟨_, t, w2, ts1, f1, hf, _, hts, hrec⟩
    · subst hts
      simp only [List.length_nil, pow_zero, mul_one, Nat.mod_eq_of_lt hc]
      omega
    · subst hts
      obtain ⟨t, ht⟩ := hall (c, none) (by simp)
      simp at ht
    · have hf1 : f1 = f := by omega
      subst hf1
      subst hts
      have := ih _ _ _ _ _ _ _ hrec (Nat.mod_lt _ (by norm_num))
        (fun p hp => hall p (List.mem_cons_of_mem _ hp))
      rw [double_mod] at this
      simpa using this

/-- With a bound below `2 ^ 31` the loop ends: `n` further doublings take
the candidate past `2 ^ 31`, and more than `n` units of fuel suffice. -/
theorem searchLoop_terminates {d : Device} {g : Nat → Nat × Nat} {m : Nat}
    (hm : m < 2 ^ 31) :
    ∀ (n fuel c : Nat) (bt : Time) (b : Nat) (w : World),
      2 ^ 31 ≤ c * 2 ^ n → n < fuel →
      (searchLoop d g m fuel c bt b w).isSome = true := by
  intro n
  induction n with
  | zero =>
    intro fuel c bt b w hc hf
    obtain ⟨f, rfl⟩ : ∃ f, fuel = f + 1 := ⟨fuel - 1, by omega⟩
    have : ¬ c ≤ m := by simp at hc; omega
    rw [searchLoop, if_neg this]; rfl
  | succ n ih =>
    intro fuel c bt b w hc hf
    obtain ⟨f, rfl⟩ : ∃ f, fuel = f + 1 := ⟨fuel - 1, by omega⟩
    rw [searchLoop]
    by_cases hcm : c ≤ m
    · rw [if_pos hcm]
      rcases hr : runTrial d w (g c).1 (g c).2 with ⟨o, w2⟩
      cases o with
      | none => rfl
      | some t =>
        simp only
        have h2 : c * 2 < 2 ^ 32 := by omega
        have hnext : 2 ^ 31 ≤ c * 2 % 2 ^ 32 * 2 ^ n := by
          rw [Nat.mod_eq_of_lt h2, Nat.mul_assoc, ← Nat.pow_succ']
          exact hc
        have := ih f (c * 2 % 2 ^ 32)
          (if improves t bt then (t, c) else (bt, b)).1
          (if improves t bt then (t, c) else (bt, b)).2 w2 hnext (by omega)
        rcases hs : searchLoop d g m f (c * 2 % 2 ^ 32)
            (if improves t bt then (t, c) else (bt, b)).1
            (if improves t bt then (t, c) else (bt, b)).2 w2 with _ | ⟨b2, ts2, w3⟩
        · rw [hs] at this; simp at this
        · rfl
    · rw [if_neg hcm]; rfl

/-! ## The constructor -/

theorem laneSearch_inv {d : Device} {fuel : Nat} {u u1 : ProcessingUnit} {w w1 : World}
    {lts : List Trial} (h : laneSearch d fuel u w = some (u1, lts, w1)) :
    (¬ (u.runner.minLanesPerBlock < u.runner.maxLanesPerBlock ∧
        isPowerOfTwo u.runner.maxLanesPerBlock = true) ∧ u1 = u ∧ lts = [] ∧ w1 = w) ∨
    ((u.runner.minLanesPerBlock < u.runner.maxLanesPerBlock ∧
        isPowerOfTwo u.runner.maxLanesPerBlock = true) ∧
      ∃ b ts, searchLoop d (fun lpb => (lpb, u.bestJobsPerBlock))
          u.runner.maxLanesPerBlock fuel 1 Time.infinity u.bestLanesPerBlock w = some (b, ts, w1) ∧
        u1 = { u with bestLanesPerBlock := b } ∧
        lts = ts.map (fun p => Trial.mk p.1 u.bestJobsPerBlock p.2)) := by
  unfold laneSearch at h
  by_cases hg : u.runner.minLanesPerBlock < u.runner.maxLanesPerBlock ∧
      isPowerOfTwo u.runner.maxLanesPerBlock = true
  · have hg1 : (decide (u.runner.maxLanesPerBlock > u.runner.minLanesPerBlock)
        && isPowerOfTwo u.runner.maxLanesPerBlock) = true := by
      simp [hg.1, hg.2]
    rw [if_pos hg1] at h
    rcases hs : searchLoop d (fun lpb => (lpb, u.bestJobsPerBlock))
        u.runner.maxLanesPerBlock fuel 1 Time.infinity u.bestLanesPerBlock w with _ | ⟨b, ts, w2⟩
    · rw [hs] at h; simp at h
    · rw [hs] at h
      simp only [Option.some.injEq, Prod.mk.injEq] at h
      obtain ⟨h1, h2, h3⟩ := h
      subst h3
      exact Or.inr ⟨hg, b, ts, rfl, h1.symm, h2.symm⟩
  · have hg1 : ¬ ((decide (u.runner.maxLanesPerBlock > u.runner.minLanesPerBlock)
        && isPowerOfTwo u.runner.maxLanesPerBlock) = true) := by
      intro hh
      simp only [gt_iff_lt, Bool.and_eq_true, decide_eq_true_eq] at hh
      exact hg hh
    rw [if_neg hg1] at h
    simp only [Option.some.injEq, Prod.mk.injEq] at h
    obtain ⟨h1, h2, h3⟩ := h
    exact Or.inl ⟨hg, h1.symm, h2.symm, h3.symm⟩

theorem jobSearch_inv {d : Device} {fuel : Nat} {u u1 : ProcessingUnit} {w w1 : World}
    {jts : List Trial} (h : jobSearch d fuel u w = some (u1, jts, w1)) :
    (¬ (u.bestLanesPerBlock = u.runner.maxLanesPerBlock ∧
        u.runner.minJobsPerBlock < u.runner.maxJobsPerBlock ∧
        isPowerOfTwo u.runner.maxJobsPerBlock = true) ∧ u1 = u ∧ jts = [] ∧ w1 = w) ∨
    ((u.bestLanesPerBlock = u.runner.maxLanesPerBlock ∧
        u.runner.minJobsPerBlock < u.runner.maxJobsPerBlock ∧
        isPowerOfTwo u.runner.maxJobsPerBlock = true) ∧
      ∃ b ts, searchLoop d (fun jpb => (u.bestLanesPerBlock, jpb))
          u.runner.maxJobsPerBlock fuel 1 Time.infinity u.bestJobsPerBlock w = some (b, ts, w1) ∧
        u1 = { u with bestJobsPerBlock := b } ∧
        jts = ts.map (fun p => Trial.mk u.bestLanesPerBlock p.1 p.2)) := by
  unfold jobSearch at h
  by_cases hg : u.bestLanesPerBlock = u.runner.maxLanesPerBlock ∧
      u.runner.minJobsPerBlock < u.runner.maxJobsPerBlock ∧
      isPowerOfTwo u.runner.maxJobsPerBlock = true
  · have hg1 : (u.bestLanesPerBlock == u.runner.maxLanesPerBlock
        && decide (u.runner.maxJobsPerBlock > u.runner.minJobsPerBlock)
        && isPowerOfTwo u.runner.maxJobsPerBlock) = true := by
      simp [hg.1, hg.2.1, hg.2.2]
    rw [if_pos hg1] at h
    rcases hs : searchLoop d (fun jpb => (u.bestLanesPerBlock, jpb))
        u.runner.maxJobsPerBlock fuel 1 Time.infinity u.bestJobsPerBlock w with _ | ⟨b, ts, w2⟩
    · rw [hs] at h; simp at h
    · rw [hs] at h
      simp only [Option.some.injEq, Prod.mk.injEq] at h
      obtain ⟨h1, h2, h3⟩ := h
      subst h3
      exact Or.inr ⟨hg, b, ts, rfl, h1.symm, h2.symm⟩
  · have hg1 : ¬ ((u.bestLanesPerBlock == u.runner.maxLanesPerBlock
        && decide (u.runner.maxJobsPerBlock > u.runner.minJobsPerBlock)
        && isPowerOfTwo u.runner.maxJobsPerBlock) = true) := by
      intro hh
      simp only [gt_iff_lt, Bool.and_eq_true, decide_eq_true_eq, beq_iff_eq] at hh
      exact hg ⟨hh.1.1, hh.1.2, hh.2⟩
    rw [if_neg hg1] at h
    simp only [Option.some.injEq, Prod.mk.injEq] at h
    obtain ⟨h1, h2, h3⟩ := h
    exact Or.inl ⟨hg, h1.symm, h2.symm, h3.symm⟩

theorem tune_inv {d : Device} {fuel : Nat} {u : ProcessingUnit} {w w2 : World}
    {t : Tuned} (h : tune d fuel u w = some (t, w2)) :
    ∃ u1 w1, laneSearch d fuel u w = some (u1, t.laneTrials, w1) ∧
      jobSearch d fuel u1 w1 = some (t.unit, t.jobTrials, w2) := by
  unfold tune at h
  rcases hl : laneSearch d fuel u w with _ | ⟨u1, lts, w1⟩
  · rw [hl] at h; simp at h
  · rw [hl] at h
    simp only at h
    rcases hj : jobSearch d fuel u1 w1 with _ | ⟨u2, jts, w3⟩
    · rw [hj] at h; simp at h
    · rw [hj] at h
      simp only [Option.some.injEq, Prod.mk.injEq] at h
      obtain ⟨h1, h2⟩ := h
      subst h1 h2
      exact ⟨u1, w1, rfl, hj⟩

/-- A constructor that returns a unit got past device binding and the
pre-fill, and the unit is what the tuning made of the initial one. -/
theorem construct_built {d : Device} {fuel : Nat} {params : Argon2Params}
    {deviceIndex : Int} {batchSize : Nat} {r : KernelRunner} {w w3 : World} {t : Tuned}
    (h : ProcessingUnit.construct d fuel params deviceIndex batchSize r w
      = some (Construction.built t w3)) :
    ∃ w1 w2, setCudaDevice d w deviceIndex = (Status.ok, w1) ∧
      prefill d (ProcessingUnit.initial params deviceIndex batchSize r) batchSize 0 w1
        = (Status.ok, w2) ∧
      tune d fuel (ProcessingUnit.initial params deviceIndex batchSize r) w2 = some (t, w3) := by
  unfold ProcessingUnit.construct at h
  rcases hb : setCudaDevice d w deviceIndex with ⟨s1, w1⟩
  rw [hb] at h
  cases s1 with
  | cudaError => simp at h
  | ok =>
    simp only at h
    rcases hp : prefill d (ProcessingUnit.initial params deviceIndex batchSize r)
      batchSize 0 w1 with ⟨s2, w2⟩
    rw [hp] at h
    cases s2 with
    | cudaError => simp at h
    | ok =>
      simp only at h
      rcases ht : tune d fuel (ProcessingUnit.initial params deviceIndex batchSize r) w2
        with _ | ⟨t1, w4⟩
      · rw [ht] at h; simp at h
      · rw [ht] at h
        simp only [Option.some.injEq, Construction.built.injEq] at h
        obtain ⟨h1, h2⟩ := h
        subst h1 h2
        exact ⟨w1, w2, rfl, hp, ht⟩

/-- What the tuning leaves: the runner is untouched; the lane search either
was skipped or ran the loop from the initial values; the job search, guarded
by the lanes value just selected, likewise. -/
theorem tune_cases {d : Device} {fuel : Nat} {u : ProcessingUnit} {w w2 : World}
    {t : Tuned} (h : tune d fuel u w = some (t, w2)) :
    t.unit.runner = u.runner ∧
    ∃ w1,
      ((¬ (u.runner.minLanesPerBlock < u.runner.maxLanesPerBlock ∧
            isPowerOfTwo u.runner.maxLanesPerBlock = true) ∧
          t.laneTrials = [] ∧ t.unit.bestLanesPerBlock = u.bestLanesPerBlock ∧ w1 = w) ∨
       ((u.runner.minLanesPerBlock < u.runner.maxLanesPerBlock ∧
            isPowerOfTwo u.runner.maxLanesPerBlock = true) ∧
          ∃ ts, searchLoop d (fun lpb => (lpb, u.bestJobsPerBlock))
              u.runner.maxLanesPerBlock fuel 1 Time.infinity u.bestLanesPerBlock w
              = some (t.unit.bestLanesPerBlock, ts, w1) ∧
            t.laneTrials = ts.map (fun p => Trial.mk p.1 u.bestJobsPerBlock p.2))) ∧
      ((¬ (t.unit.bestLanesPerBlock = u.runner.maxLanesPerBlock ∧
            u.runner.minJobsPerBlock < u.runner.maxJobsPerBlock ∧
            isPowerOfTwo u.runner.maxJobsPerBlock = true) ∧
          t.jobTrials = [] ∧ t.unit.bestJobsPerBlock = u.bestJobsPerBlock ∧ w2 = w1) ∨
       ((t.unit.bestLanesPerBlock = u.runner.maxLanesPerBlock ∧
            u.runner.minJobsPerBlock < u.runner.maxJobsPerBlock ∧
            isPowerOfTwo u.runner.maxJobsPerBlock = true) ∧
          ∃ ts, searchLoop d (fun jpb => (t.unit.bestLanesPerBlock, jpb))
              u.runner.maxJobsPerBlock fuel 1 Time.infinity u.bestJobsPerBlock w1
              = some (t.unit.bestJobsPerBlock, ts, w2) ∧
            t.jobTrials = ts.map (fun p => Trial.mk t.unit.bestLanesPerBlock p.1 p.2))) := by
  obtain ⟨u1, w1, hl, hj⟩ := tune_inv h
  have hL : u1.runner = u.runner ∧ u1.bestJobsPerBlock = u.bestJobsPerBlock := by
    rcases laneSearch_inv hl with ⟨_, hu, _, _⟩ | ⟨_, b, ts, _, hu, _⟩
    · subst hu; exact ⟨rfl, rfl⟩
    · subst hu; exact ⟨rfl, rfl⟩
  have hJ : t.unit.runner = u1.runner ∧ t.unit.bestLanesPerBlock = u1.bestLanesPerBlock := by
    rcases jobSearch_inv hj with ⟨_, hu, _, _⟩ | ⟨_, b, ts, _, hu, _⟩
    · rw [hu]; exact ⟨rfl, rfl⟩
    · rw [hu]; exact ⟨rfl, rfl⟩
  refine ⟨hJ.1.trans hL.1, w1, ?_, ?_⟩
  · rcases laneSearch_inv hl with ⟨hg, hu, hts, hw⟩ | ⟨hg, b, ts, hs, hu, hts⟩
    · left
      refine ⟨hg, hts, ?_, hw⟩
      rw [hJ.2, hu]
    · right
      refine ⟨hg, ts, ?_, hts⟩
      rw [hJ.2, hu]
      exact hs
  · rcases jobSearch_inv hj with ⟨hg, hu, hts, hw⟩ | ⟨hg, b, ts, hs, hu, hts⟩
    · left
      rw [hJ.2, ← hL.1]
      refine ⟨hg, hts, ?_, hw⟩
      rw [hu, hL.2]
    · right
      rw [hJ.2, ← hL.1, ← hL.2]
      refine ⟨hg, ts, ?_, hts⟩
      rw [hu]
      exact hs

theorem setCudaDevice_runs (d : Device) (w : World) (deviceIndex : Int) :
    (setCudaDevice d w deviceIndex).2.runs = w.runs := by
  unfold setCudaDevice World.tick
  by_cases h1 : d.fails w.clock = true
  · simp [h1]
  · by_cases h2 : d.current w.clock = deviceIndex
    · simp [h1, h2]
    · by_cases h3 : d.fails (w.clock + 1) = true <;> simp [h1, h2, h3]

theorem writeInputMemory_runs (d : Device) (w : World) (index : Nat) (buffer : List Nat) :
    (KernelRunner.writeInputMemory d w index buffer).2.runs = w.runs := by
  unfold KernelRunner.writeInputMemory World.tick
  by_cases h1 : d.fails w.clock = true <;> simp [h1]

theorem prefill_runs (d : Device) (u : ProcessingUnit) :
    ∀ (n i : Nat) (w : World), (prefill d u n i w).2.runs = w.runs := by
  intro n
  induction n with
  | zero => intro i w; rfl
  | succ n ih =>
    intro i w
    rw [prefill]
    have hw := writeInputMemory_runs d w i (u.params.fillFirstBlocks [])
    rcases hs : u.setPassword d w i [] with ⟨st, w1⟩
    have hs1 : KernelRunner.writeInputMemory d w i (u.params.fillFirstBlocks []) = (st, w1) := hs
    rw [hs1] at hw
    cases st with
    | ok => simp only; rw [ih (i + 1) w1]; exact hw
    | cudaError => exact hw

theorem built?_eq {c : Option Construction} {t : Tuned} (h : built? c = some t) :
    ∃ w, c = some (Construction.built t w) := by
  cases c with
  | none => simp [built?] at h
  | some c =>
    cases c with
    | failed w => simp [built?, Construction.tuned?] at h
    | built t1 w =>
      simp only [built?, Option.bind, Construction.tuned?, Option.some.injEq] at h
      subst h
      exact ⟨w, rfl⟩

/-- The constructor, case by case: the unit it builds keeps the runner; each
search either was skipped, leaving the runner minimum, or ran the loop. -/
theorem construct_cases {d : Device} {fuel : Nat} {params : Argon2Params}
    {deviceIndex : Int} {batchSize : Nat} {r : KernelRunner} {w : World} {t : Tuned}
    (h : built? (ProcessingUnit.construct d fuel params deviceIndex batchSize r w) = some t) :
    t.unit.runner = r ∧
    ∃ w1 w2 w3,
      (w1.runs = w.runs ∧
        ProcessingUnit.construct d fuel params deviceIndex batchSize r w
          = some (Construction.built t w3)) ∧
      ((¬ (r.minLanesPerBlock < r.maxLanesPerBlock ∧ isPowerOfTwo r.maxLanesPerBlock = true) ∧
          t.laneTrials = [] ∧ t.unit.bestLanesPerBlock = r.minLanesPerBlock ∧ w2 = w1) ∨
       ((r.minLanesPerBlock < r.maxLanesPerBlock ∧ isPowerOfTwo r.maxLanesPerBlock = true) ∧
          ∃ ts, searchLoop d (fun lpb => (lpb, r.minJobsPerBlock)) r.maxLanesPerBlock fuel 1
              Time.infinity r.minLanesPerBlock w1 = some (t.unit.bestLanesPerBlock, ts, w2) ∧
            t.laneTrials = ts.map (fun p => Trial.mk p.1 r.minJobsPerBlock p.2))) ∧
      ((¬ (t.unit.bestLanesPerBlock = r.maxLanesPerBlock ∧
            r.minJobsPerBlock < r.maxJobsPerBlock ∧ isPowerOfTwo r.maxJobsPerBlock = true) ∧
          t.jobTrials = [] ∧ t.unit.bestJobsPerBlock = r.minJobsPerBlock ∧ w3 = w2) ∨
       ((t.unit.bestLanesPerBlock = r.maxLanesPerBlock ∧
            r.minJobsPerBlock < r.maxJobsPerBlock ∧ isPowerOfTwo r.maxJobsPerBlock = true) ∧
          ∃ ts, searchLoop d (fun jpb => (t.unit.bestLanesPerBlock, jpb)) r.maxJobsPerBlock
              fuel 1 Time.infinity r.minJobsPerBlock w2 = some (t.unit.bestJobsPerBlock, ts, w3) ∧
            t.jobTrials = ts.map (fun p => Trial.mk t.unit.bestLanesPerBlock p.1 p.2))) := by
  obtain ⟨w3, hc⟩ := built?_eq h
  obtain ⟨w1, w2, hb, hp, ht⟩ := construct_built hc
  obtain ⟨hr, w4, hlane, hjob⟩ := tune_cases ht
  have hruns : w2.runs = w.runs := by
    have h1 := setCudaDevice_runs d w deviceIndex
    have h2 := prefill_runs d (ProcessingUnit.initial params deviceIndex batchSize r)
      batchSize 0 w1
    rw [hb] at h1
    rw [hp] at h2
    exact h2.trans h1
  exact ⟨hr, w2, w4, w3, ⟨hruns, hc⟩, hlane, hjob⟩

/-- With `bestTime` starting at `+infinity`, a loop in which some trial
completed with a time below `+infinity` selects a timed candidate whose time
is at most every measured time that is not a NaN. -/
theorem search_min_trial {d : Device} {g : Nat → Nat × Nat} {m fuel : Nat} {b b1 : Nat}
    {w w1 : World} {ts : List (Nat × Option Time)}
    (h : searchLoop d g m fuel 1 Time.infinity b w = some (b1, ts, w1))
    (hsome : ∃ p ∈ ts, ∃ t0, p.2 = some t0 ∧ Time.lt t0 Time.infinity = true) :
    ∃ t, (b1, some t) ∈ ts ∧ Time.lt t Time.infinity = true ∧
      ∀ p ∈ ts, ∀ t1, p.2 = some t1 → t1 ≠ Time.nan → Time.le t t1 = true := by
  have hne : ∃ p ∈ timedOf ts, Time.lt p.2 Time.infinity = true := by
    obtain ⟨p, hp, t0, hp2, hlt⟩ := hsome
    obtain ⟨c, o⟩ := p
    simp only at hp2
    subst hp2
    exact ⟨(c, t0), mem_timedOf.2 hp, hlt⟩
  obtain ⟨t, hmem, _, hlt, hmin, _⟩ := selectBest_min (timedOf ts) b hne
  rw [searchLoop_select _ _ _ _ _ _ _ _ h] at hmem
  refine ⟨t, mem_timedOf.1 hmem, hlt, ?_⟩
  intro p hp t1 ht1 hn
  obtain ⟨c, o⟩ := p
  simp only at ht1
  subst ht1
  exact hmin (c, t1) (mem_timedOf.2 hp) hn

/-- With `bestTime` starting at `+infinity`, a loop in which no completed
trial measured a time below `+infinity` keeps the initial value. -/
theorem search_keeps_initial {d : Device} {g : Nat → Nat × Nat} {m fuel : Nat} {b b1 : Nat}
    {w w1 : World} {ts : List (Nat × Option Time)}
    (h : searchLoop d g m fuel 1 Time.infinity b w = some (b1, ts, w1))
    (hall : ∀ p ∈ ts, ∀ t0, p.2 = some t0 → Time.lt t0 Time.infinity = false) :
    b1 = b := by
  have hsel := searchLoop_select _ _ _ _ _ _ _ _ h
  rcases selectBest_first (timedOf ts) (Time.infinity, b) with
    ⟨heq, _⟩ | ⟨pre, t, post, hsplit, _, hacc, _, _⟩
  · rw [← hsel, heq]
  · have hmem : ((selectBest (Time.infinity, b) (timedOf ts)).2, t) ∈ timedOf ts := by
      have : ((selectBest (Time.infinity, b) (timedOf ts)).2, t) ∈
          pre ++ ((selectBest (Time.infinity, b) (timedOf ts)).2, t) :: post := by simp
      rwa [← hsplit] at this
    have := hall _ (mem_timedOf.1 hmem) t rfl
    simp only at hacc
    rw [hacc] at this
    cases this

theorem timedLanes_map (ts : List (Nat × Option Time)) (j : Nat) :
    timedLanes (ts.map (fun p => Trial.mk p.1 j p.2)) = timedOf ts := by
  induction ts with
  | nil => rfl
  | cons p rest ih =>
    obtain ⟨c, o⟩ := p
    cases o with
    | none =>
      rw [timedOf_cons_none, ← ih]
      simp [timedLanes]
    | some t =>
      rw [timedOf_cons_some, ← ih]
      simp [timedLanes]

theorem timedJobs_map (ts : List (Nat × Option Time)) (l : Nat) :
    timedJobs (ts.map (fun p => Trial.mk l p.1 p.2)) = timedOf ts := by
  induction ts with
  | nil => rfl
  | cons p rest ih =>
    obtain ⟨c, o⟩ := p
    cases o with
    | none =>
      rw [timedOf_cons_none, ← ih]
      simp [timedJobs]
    | some t =>
      rw [timedOf_cons_some, ← ih]
      simp [timedJobs]

theorem timedOf_append_fail (pre : List (Nat × Option Time)) (x : Nat) :
    timedOf (pre ++ [(x, none)]) = timedOf pre := by
  simp [timedOf]

theorem searchLoop_nonempty {d : Device} {g : Nat → Nat × Nat} {m fuel c : Nat}
    {bt : Time} {b : Nat} {w : World} {b1 : Nat}
    {ts : List (Nat × Option Time)} {w1 : World}
    (h : searchLoop d g m fuel c bt b w = some (b1, ts, w1)) (hc : c ≤ m) :
    ∃ o rest, ts = (c, o) :: rest := by
  rcases searchLoop_inv h with ⟨hn, _, _, _⟩ | ⟨_, _, _, hts⟩ | ⟨_, t, w2, ts1, f1, _, _, hts, _⟩
  · exact absurd hc hn
  · exact ⟨none, [], hts⟩
  · exact ⟨some t, ts1, hts⟩

/-- A failing trial truncates the search: nothing follows it, everything
before it completed, and the selected value is the selection over the
candidates timed before it. -/
theorem truncated_at_failure {d : Device} {g : Nat → Nat × Nat} {m fuel : Nat}
    {b b1 : Nat} {w w1 : World} {ts : List (Nat × Option Time)}
    (h : searchLoop d g m fuel 1 Time.infinity b w = some (b1, ts, w1))
    (f : Nat × Option Time → Trial) (hf : ∀ p, (f p).time = p.2)
    {pre post : List Trial} {tr : Trial}
    (hsplit : ts.map f = pre ++ tr :: post) (hfail : tr.time = none) :
    post = [] ∧ (∀ q ∈ pre, q.time ≠ none) ∧
      ∃ l1, pre = l1.map f ∧ b1 = (selectBest (Time.infinity, b) (timedOf l1)).2 := by
  obtain ⟨l1, l2, hts, hl1, hl2⟩ := List.map_eq_append_iff.1 hsplit
  obtain ⟨a, l3, hl2a, hfa, hl3⟩ := List.map_eq_cons_iff.1 hl2
  have ha : a = (a.1, none) := by
    have := hf a
    rw [hfa, hfail] at this
    obtain ⟨a1, a2⟩ := a
    simp only at this
    rw [← this]
  rw [hl2a, ha] at hts
  obtain ⟨hpost, hpre⟩ := searchLoop_shape _ _ _ _ _ _ _ _ h l1 a.1 l3 hts
  subst hpost
  refine ⟨by rw [← hl3]; rfl, ?_, l1, hl1.symm, ?_⟩
  · intro q hq
    rw [← hl1] at hq
    obtain ⟨p, hp, rfl⟩ := List.mem_map.1 hq
    obtain ⟨t, ht⟩ := hpre p hp
    rw [hf p, ht]
    exact Option.some_ne_none t
  · have := searchLoop_select _ _ _ _ _ _ _ _ h
    rw [hts, timedOf_append_fail] at this
    exact this.symm

/-- Past device binding and pre-fill, and when no search can wrap, the
constructor returns a unit as soon as it has 32 units of fuel. -/
theorem construct_returns (d : Device) (fuel : Nat) (params : Argon2Params)
    (deviceIndex : Int) (batchSize : Nat) (r : KernelRunner) (w : World)
    (hreach : reachesTuning d params deviceIndex batchSize r w)
    (hbelow : searchesBelowWrap r) (hfuel : 32 ≤ fuel) :
    ∃ t, built? (ProcessingUnit.construct d fuel params deviceIndex batchSize r w) = some t := by
  obtain ⟨hb, hp⟩ := hreach
  obtain ⟨hL, hJ⟩ := hbelow
  rcases hbe : setCudaDevice d w deviceIndex with ⟨s1, w1⟩
  rw [hbe] at hb hp
  simp only at hb hp
  subst hb
  rcases hpe : prefill d (ProcessingUnit.initial params deviceIndex batchSize r)
    batchSize 0 w1 with ⟨s2, w2⟩
  rw [hpe] at hp
  simp only at hp
  subst hp
  have hlane : ∃ u1 lts w3, laneSearch d fuel
      (ProcessingUnit.initial params deviceIndex batchSize r) w2 = some (u1, lts, w3) ∧
      u1.runner = r := by
    unfold laneSearch
    split
    · rename_i hg
      have hg1 : r.minLanesPerBlock < r.maxLanesPerBlock ∧
          isPowerOfTwo r.maxLanesPerBlock = true := by
        simp only [gt_iff_lt, Bool.and_eq_true, decide_eq_true_eq] at hg
        exact hg
      have := searchLoop_terminates (d := d)
        (g := fun lpb => (lpb, (ProcessingUnit.initial params deviceIndex batchSize r).bestJobsPerBlock))
        (m := (ProcessingUnit.initial params deviceIndex batchSize r).runner.maxLanesPerBlock)
        (hL hg1.1 hg1.2) 31 fuel 1 Time.infinity
        (ProcessingUnit.initial params deviceIndex batchSize r).bestLanesPerBlock w2
        (by norm_num) (by omega)
      rcases hs : searchLoop d
        (fun lpb => (lpb, (ProcessingUnit.initial params deviceIndex batchSize r).bestJobsPerBlock))
        (ProcessingUnit.initial params deviceIndex batchSize r).runner.maxLanesPerBlock
        fuel 1 Time.infinity (ProcessingUnit.initial params deviceIndex batchSize r).bestLanesPerBlock w2
        with _ | ⟨b, ts, w3⟩
      · rw [hs] at this; simp at this
      · exact ⟨_, _, _, rfl, rfl⟩
    · exact ⟨_, _, _, rfl, rfl⟩
  obtain ⟨u1, lts, w3, hl, hr1⟩ := hlane
  have hjob : ∃ u2 jts w4, jobSearch d fuel u1 w3 = some (u2, jts, w4) := by
    unfold jobSearch
    split
    · rename_i hg
      have hg1 : r.minJobsPerBlock < r.maxJobsPerBlock ∧
          isPowerOfTwo r.maxJobsPerBlock = true := by
        simp only [gt_iff_lt, Bool.and_eq_true, decide_eq_true_eq, hr1] at hg
        exact ⟨hg.1.2, hg.2⟩
      have := searchLoop_terminates (d := d)
        (g := fun jpb => (u1.bestLanesPerBlock, jpb))
        (m := u1.runner.maxJobsPerBlock)
        (by rw [hr1]; exact hJ hg1.1 hg1.2) 31 fuel 1 Time.infinity u1.bestJobsPerBlock w3
        (by norm_num) (by omega)
      rcases hs : searchLoop d (fun jpb => (u1.bestLanesPerBlock, jpb))
        u1.runner.maxJobsPerBlock fuel 1 Time.infinity u1.bestJobsPerBlock w3 with _ | ⟨b, ts, w4⟩
      · rw [hs] at this; simp at this
      · exact ⟨_, _, _, rfl⟩
    · exact ⟨_, _, _, rfl⟩
  obtain ⟨u2, jts, w4, hj⟩ := hjob
  refine ⟨Tuned.mk u2 lts jts, ?_⟩
  simp [ProcessingUnit.construct, hbe, hpe, tune, hl, hj, built?, Construction.tuned?]

/-- Past device binding and pre-fill nothing makes the constructor fail:
whatever it returns is a built unit. -/
theorem construct_of_bound {d : Device} {fuel : Nat} {params : Argon2Params}
    {deviceIndex : Int} {batchSize : Nat} {r : KernelRunner} {w : World}
    (hreach : reachesTuning d params deviceIndex batchSize r w)
    {c : Construction}
    (hc : ProcessingUnit.construct d fuel params deviceIndex batchSize r w = some c) :
    ∃ t, c.tuned? = some t ∧
      built? (ProcessingUnit.construct d fuel params deviceIndex batchSize r w) = some t := by
  obtain ⟨hb, hp⟩ := hreach
  rcases hbe : setCudaDevice d w deviceIndex with ⟨s1, w1⟩
  rw [hbe] at hb hp
  simp only at hb hp
  subst hb
  rcases hpe : prefill d (ProcessingUnit.initial params deviceIndex batchSize r)
    batchSize 0 w1 with ⟨s2, w2⟩
  rw [hpe] at hp
  simp only at hp
  subst hp
  have hc1 := hc
  unfold ProcessingUnit.construct at hc1
  rw [hbe] at hc1
  simp only at hc1
  rw [hpe] at hc1
  simp only at hc1
  rcases ht : tune d fuel (ProcessingUnit.initial params deviceIndex batchSize r) w2
    with _ | ⟨t, w3⟩
  · rw [ht] at hc1; simp at hc1
  · rw [ht] at hc1
    simp only [Option.some.injEq] at hc1
    refine ⟨t, ?_, ?_⟩
    · rw [← hc1]; rfl
    · rw [hc, ← hc1]; rfl

/-- A failing trial leaves the loop where a shorter candidate list would have
ended it: when the candidates before the failing candidate `x` are below it,
the same loop bounded by `x - 1` makes the same trials up to `x` and selects
the same value. -/
theorem searchLoop_cut {d : Device} {g : Nat → Nat × Nat} {m : Nat} :
    ∀ (fuel c : Nat) (bt : Time) (b : Nat) (w : World) (b1 : Nat)
      (ts : List (Nat × Option Time)) (w1 : World),
      searchLoop d g m fuel c bt b w = some (b1, ts, w1) →
      ∀ pre x post, ts = pre ++ (x, none) :: post → (∀ p ∈ pre, p.1 < x) → 0 < x →
        ∃ w2, searchLoop d g (x - 1) fuel c bt b w = some (b1, pre, w2) := by
  intro fuel
  induction fuel with
  | zero => intro c bt b w b1 ts w1 h; simp [searchLoop] at h
  | succ f ih =>
    intro c bt b w b1 ts w1 h pre x post hsplit hlt hx
    rcases searchLoop_inv h with ⟨_, _, hts, _⟩ | ⟨_, _, hb, hts⟩ |
      ⟨_, t, w2, ts1, f1, hf, hr, hts, hrec⟩
    · subst hts
      cases pre <;> simp at hsplit
    · subst hts
      cases pre with
      | nil =>
        simp only [List.nil_append, List.cons.injEq, Prod.mk.injEq] at hsplit
        obtain ⟨⟨hcx, _⟩, _⟩ := hsplit
        subst hcx
        refine ⟨w, ?_⟩
        rw [searchLoop, if_neg (by omega), hb]
      | cons q pre1 =>
        simp only [List.cons_append, List.cons.injEq] at hsplit
        cases pre1 <;> simp at hsplit
    · have hf1 : f1 = f := by omega
      subst hf1
      subst hts
      cases pre with
      | nil => simp at hsplit
      | cons q pre1 =>
        simp only [List.cons_append, List.cons.injEq] at hsplit
        obtain ⟨hq, hrest⟩ := hsplit
        subst hq
        have hcx : c < x := hlt (c, some t) (List.mem_cons_self _ _)
        obtain ⟨w3, h3⟩ := ih _ _ _ _ _ _ _ hrec pre1 x post hrest
          (fun p hp => hlt p (List.mem_cons_of_mem _ hp)) hx
        refine ⟨w3, ?_⟩
        rw [searchLoop, if_pos (by omega), hr]
        simp only
        rw [selectStep_eq] at h3
        rw [h3]

/-- A search that the constructor ran is truncated at its failing trial. -/
theorem search_truncated {d : Device} {g : Nat → Nat × Nat} {m fuel : Nat}
    {b b1 : Nat} {w w1 : World} {ts : List (Nat × Option Time)}
    (h : searchLoop d g m fuel 1 Time.infinity b w = some (b1, ts, w1))
    (f : Nat × Option Time → Trial) (hf : ∀ p, (f p).time = p.2)
    (timed : List Trial → List (Nat × Time))
    (htimed : ∀ l, timed (l.map f) = timedOf l) :
    TruncatedAtFailure timed b b1 (ts.map f) := by
  intro pre tr post hsplit hfail
  obtain ⟨hpost, hpre, l1, hl1, hb1⟩ := truncated_at_failure h f hf hsplit hfail
  refine ⟨hpost, hpre, ?_, ?_⟩
  · rw [hl1, htimed l1]; exact hb1
  · intro hnil
    rw [hnil] at hl1
    have : l1 = [] := List.map_eq_nil_iff.1 hl1.symm
    rw [hb1, this]
    rfl

/-! ## The dispatch -/

/-- The dispatch of `beginProcessing`: no `runner.run` call when device
binding fails, otherwise exactly one, with the resolved geometry. -/
theorem beginProcessing_dispatched (d : Device) (env : Env) (u : ProcessingUnit)
    (w : World) :
    dispatched w (u.beginProcessing d env w).2 =
      if (setCudaDevice d w u.deviceIndex).1 = Status.ok then [u.resolveGeometry env]
      else [] := by
  have hr := setCudaDevice_runs d w u.deviceIndex
  unfold ProcessingUnit.beginProcessing dispatched
  rcases hs : setCudaDevice d w u.deviceIndex with ⟨st, w1⟩
  rw [hs] at hr
  simp only at hr
  cases st with
  | ok =>
    simp only [KernelRunner.run, World.tick, hr, if_true]
    simp
  | cudaError =>
    simp only [hr]
    simp

theorem toInt32_of_lt {n : Nat} (h : n < 2 ^ 31) : toInt32 n = (n : Int) := by
  unfold toInt32
  have h1 : n % 2 ^ 32 = n := Nat.mod_eq_of_lt (by omega)
  rw [h1, if_pos h]

/-- With bounds that fit an `int`, the clamp of a positive override computed
on `int` values and converted back is the clamp of the naturals. -/
theorem clamp_of_lt {lo hi : Nat} {e : Int} (hlo : lo < 2 ^ 31) (hhi : hi < 2 ^ 31)
    (he : 0 < e) :
    toUInt32 (max (toInt32 lo) (min (toInt32 hi) e)) = clamp e.toNat lo hi := by
  rw [toInt32_of_lt hlo, toInt32_of_lt hhi]
  unfold toUInt32 clamp
  omega

/-- Whatever the bounds, the clamp of a positive override lands within them. -/
theorem clamp_within {lo hi : Nat} {e : Int} (hle : lo ≤ hi) (hhi : hi < 2 ^ 32)
    (he : 0 < e) :
    lo ≤ toUInt32 (max (toInt32 lo) (min (toInt32 hi) e)) ∧
      toUInt32 (max (toInt32 lo) (min (toInt32 hi) e)) ≤ hi := by
  unfold toUInt32 toInt32
  split_ifs <;> omega

/-- One dimension of the resolution stays within its bounds when the tuned
value does. -/
theorem resolved_within {lo hi best : Nat} (e : Int) (hle : lo ≤ hi) (hhi : hi < 2 ^ 32)
    (hbest : lo ≤ best ∧ best ≤ hi) :
    lo ≤ (if e > 0 then toUInt32 (max (toInt32 lo) (min (toInt32 hi) e)) else best) ∧
      (if e > 0 then toUInt32 (max (toInt32 lo) (min (toInt32 hi) e)) else best) ≤ hi := by
  by_cases he : e > 0
  · rw [if_pos he]; exact clamp_within hle hhi he
  · rw [if_neg he]; exact hbest

/-- The lanes of the resolved geometry: the tuned value, or the clamp of a
positive value (an override, or the maximum under `A2_FORCE`). -/
theorem resolveGeometry_lanes (env : Env) (u : ProcessingUnit) :
    (u.resolveGeometry env).1 =
      if (if (env_on env "A2_FORCE" false && decide (env_int env "A2_LPB" (-1) < 0)) = true
          then toInt32 u.runner.maxLanesPerBlock else env_int env "A2_LPB" (-1)) > 0
      then toUInt32 (max (toInt32 u.runner.minLanesPerBlock)
        (min (toInt32 u.runner.maxLanesPerBlock)
          (if (env_on env "A2_FORCE" false && decide (env_int env "A2_LPB" (-1) < 0)) = true
            then toInt32 u.runner.maxLanesPerBlock else env_int env "A2_LPB" (-1))))
      else u.bestLanesPerBlock := rfl

/-- The jobs of the resolved geometry, likewise. -/
theorem resolveGeometry_jobs (env : Env) (u : ProcessingUnit) :
    (u.resolveGeometry env).2 =
      if (if (env_on env "A2_FORCE" false && decide (env_int env "A2_JPB" (-1) < 0)) = true
          then toInt32 u.runner.maxJobsPerBlock else env_int env "A2_JPB" (-1)) > 0
      then toUInt32 (max (toInt32 u.runner.minJobsPerBlock)
        (min (toInt32 u.runner.maxJobsPerBlock)
          (if (env_on env "A2_FORCE" false && decide (env_int env "A2_JPB" (-1) < 0)) = true
            then toInt32 u.runner.maxJobsPerBlock else env_int env "A2_JPB" (-1))))
      else u.bestJobsPerBlock := rfl

theorem env_int_unset {env : Env} {name : String} (h : env name = none) (defval : Int) :
    env_int env name defval = defval := by
  unfold env_int
  rw [h]

/-- Below `2 ^ 31` a search leaves either the initial value or a candidate
between `1` and the maximum. -/
theorem search_best_range {d : Device} {g : Nat → Nat × Nat} {m fuel : Nat} {b b1 : Nat}
    {w w1 : World} {ts : List (Nat × Option Time)}
    (h : searchLoop d g m fuel 1 Time.infinity b w = some (b1, ts, w1)) (hm : m < 2 ^ 31) :
    b1 = b ∨ (1 ≤ b1 ∧ b1 ≤ m) := by
  have hsel := searchLoop_select _ _ _ _ _ _ _ _ h
  rcases selectBest_first (timedOf ts) (Time.infinity, b) with ⟨heq, _⟩ | ⟨pre, t, post, hsplit, _, _, _, _⟩
  · left
    rw [← hsel, heq]
  · right
    have hmem : ((selectBest (Time.infinity, b) (timedOf ts)).2, t) ∈ timedOf ts := by
      have : ((selectBest (Time.infinity, b) (timedOf ts)).2, t) ∈
          pre ++ ((selectBest (Time.infinity, b) (timedOf ts)).2, t) :: post := by simp
      rwa [← hsplit] at this
    rw [hsel] at hmem
    have hmem1 := mem_timedOf.1 hmem
    exact ⟨searchLoop_pos hm _ _ _ _ _ _ _ _ h (Nat.le_refl 1) _ hmem1,
      searchLoop_le _ _ _ _ _ _ _ _ h _ hmem1⟩

/-- The `runner.run` calls of a construction that built a unit are its lane
trials followed by its job trials, and nothing else. -/
theorem construct_runs {d : Device} {fuel : Nat} {params : Argon2Params}
    {deviceIndex : Int} {batchSize : Nat} {r : KernelRunner} {w : World} {t : Tuned}
    (h : built? (ProcessingUnit.construct d fuel params deviceIndex batchSize r w) = some t) :
    (ProcessingUnit.construct d fuel params deviceIndex batchSize r w).map
        (fun c => c.world.runs)
      = some (w.runs ++ (t.laneTrials ++ t.jobTrials).map Trial.geometry) := by
  obtain ⟨_, w1, w2, w3, ⟨hruns, hc⟩, hlane, hjob⟩ := construct_cases h
  rw [hc]
  simp only [Option.map_some', Construction.world, Option.some.injEq]
  have h2 : w2.runs = w.runs ++ t.laneTrials.map Trial.geometry := by
    rcases hlane with ⟨_, hlts, _, hw2⟩ | ⟨_, ts, hs, hlts⟩
    · rw [hlts, hw2, hruns]; simp
    · rw [searchLoop_runs _ _ _ _ _ _ _ _ hs, hruns, hlts, List.map_map]
      rfl
  have h3 : w3.runs = w2.runs ++ t.jobTrials.map Trial.geometry := by
    rcases hjob with ⟨_, hjts, _, hw3⟩ | ⟨_, ts, hs, hjts⟩
    · rw [hjts, hw3]; simp
    · rw [searchLoop_runs _ _ _ _ _ _ _ _ hs, hjts, List.map_map]
      rfl
  rw [h3, h2, List.map_append, List.append_assoc]

/-- Below `2 ^ 31` the doubling does not wrap: every candidate tried is at
least the candidate the loop was entered with. -/
theorem searchLoop_ge {d : Device} {g : Nat → Nat × Nat} {m : Nat} (hm : m < 2 ^ 31) :
    ∀ (fuel c : Nat) (bt : Time) (b : Nat) (w : World) (b1 : Nat)
      (ts : List (Nat × Option Time)) (w1 : World),
      searchLoop d g m fuel c bt b w = some (b1, ts, w1) →
      ∀ p ∈ ts, c ≤ p.1 := by
  intro fuel
  induction fuel with
  | zero => intro c bt b w b1 ts w1 h; simp [searchLoop] at h
  | succ f ih =>
    intro c bt b w b1 ts w1 h p hp
    rcases searchLoop_inv h with ⟨_, _, hts, _⟩ | ⟨hc, _, _, hts⟩ |
      ⟨hc, t, w2, ts1, f1, hf, _, hts, hrec⟩
    · subst hts; simp at hp
    · subst hts
      simp only [List.mem_singleton] at hp
      subst hp; exact Nat.le_refl _
    · have hf1 : f1 = f := by omega
      subst hf1
      subst hts
      rcases List.mem_cons.1 hp with rfl | hp
      · exact Nat.le_refl _
      · have := ih _ _ _ _ _ _ _ hrec p hp
        have h2 : c * 2 < 2 ^ 32 := by omega
        rw [Nat.mod_eq_of_lt h2] at this
        omega

/-- Below `2 ^ 31` the timed candidates are strictly increasing. -/
theorem searchLoop_increasing {d : Device} {g : Nat → Nat × Nat} {m : Nat}
    (hm : m < 2 ^ 31) :
    ∀ (fuel c : Nat) (bt : Time) (b : Nat) (w : World) (b1 : Nat)
      (ts : List (Nat × Option Time)) (w1 : World),
      searchLoop d g m fuel c bt b w = some (b1, ts, w1) → 1 ≤ c →
      (timedOf ts).Pairwise (fun p q => p.1 < q.1) := by
  intro fuel
  induction fuel with
  | zero => intro c bt b w b1 ts w1 h; simp [searchLoop] at h
  | succ f ih =>
    intro c bt b w b1 ts w1 h hc1
    rcases searchLoop_inv h with ⟨_, _, hts, _⟩ | ⟨hc, _, _, hts⟩ |
      ⟨hc, t, w2, ts1, f1, hf, _, hts, hrec⟩
    · subst hts; exact List.Pairwise.nil
    · subst hts; rw [timedOf_cons_none]; exact List.Pairwise.nil
    · have hf1 : f1 = f := by omega
      subst hf1
      subst hts
      have h2 : c * 2 < 2 ^ 32 := by omega
      rw [timedOf_cons_some]
      refine List.Pairwise.cons ?_ (ih _ _ _ _ _ _ _ hrec (by rw [Nat.mod_eq_of_lt h2]; omega))
      intro q hq
      obtain ⟨q1, q2⟩ := q
      have hq1 := mem_timedOf.1 hq
      have := searchLoop_ge hm _ _ _ _ _ _ _ _ hrec _ hq1
      rw [Nat.mod_eq_of_lt h2] at this
      simp only at this ⊢
      omega

/-- Below `2 ^ 31`, ties keep the smaller value: a loop in which some trial
completed with a time below `+infinity` selects the smallest of the timed
candidates whose time is the minimum. -/
theorem search_tie_smallest {d : Device} {g : Nat → Nat × Nat} {m fuel : Nat} {b b1 : Nat}
    {w w1 : World} {ts : List (Nat × Option Time)}
    (h : searchLoop d g m fuel 1 Time.infinity b w = some (b1, ts, w1)) (hm : m < 2 ^ 31)
    (hsome : ∃ p ∈ ts, ∃ t0, p.2 = some t0 ∧ Time.lt t0 Time.infinity = true) :
    ∃ t, (b1, some t) ∈ ts ∧
      (∀ p ∈ ts, ∀ t1, p.2 = some t1 → t1 ≠ Time.nan → Time.le t t1 = true) ∧
      ∀ p ∈ ts, p.2 = some t → b1 ≤ p.1 := by
  have hsel := searchLoop_select _ _ _ _ _ _ _ _ h
  have hinc := searchLoop_increasing hm _ _ _ _ _ _ _ _ h (Nat.le_refl 1)
  have hne : ∃ p ∈ timedOf ts, Time.lt p.2 Time.infinity = true := by
    obtain ⟨p, hp, t0, hp2, hlt⟩ := hsome
    obtain ⟨c, o⟩ := p
    simp only at hp2
    subst hp2
    exact ⟨(c, t0), mem_timedOf.2 hp, hlt⟩
  obtain ⟨t, hmem, _, _, hmin, pre, post, hsplit, hpre⟩ := selectBest_min (timedOf ts) b hne
  rw [hsel] at hmem hsplit
  have hlater : ∀ q ∈ post, b1 < q.1 := by
    rw [hsplit] at hinc
    exact (List.pairwise_cons.1 (List.pairwise_append.1 hinc).2.1).1
  refine ⟨t, mem_timedOf.1 hmem, ?_, ?_⟩
  · intro p hp t1 hpt hn
    obtain ⟨c, o⟩ := p
    simp only at hpt
    subst hpt
    exact hmin (c, t1) (mem_timedOf.2 hp) hn
  · intro p hp hpt
    obtain ⟨c, o⟩ := p
    simp only at hpt
    subst hpt
    have hm1 : (c, t) ∈ pre ++ (b1, t) :: post := by
      rw [← hsplit]; exact mem_timedOf.2 hp
    rcases List.mem_append.1 hm1 with hq | hq
    · exact absurd rfl (hpre _ hq)
    · rcases List.mem_cons.1 hq with hq | hq
      · simp only [Prod.mk.injEq] at hq
        simp only
        omega
      · have := hlater _ hq
        simp only at this ⊢
        omega

/-- Below `2 ^ 31`, ties keep the smaller value in both searches of the
constructor: whenever a search ran with a maximum below `2 ^ 31` and one of
its trials completed with a time below `+infinity`, the selected value is the
smallest of its timed candidates whose time is the minimum. -/
theorem ties_keep_smallest_below_wrap (d : Device) (fuel : Nat) (params : Argon2Params)
    (deviceIndex : Int) (batchSize : Nat) (r : KernelRunner) (w : World) (t : Tuned)
    (h : built? (ProcessingUnit.construct d fuel params deviceIndex batchSize r w) = some t) :
    (r.maxLanesPerBlock < 2 ^ 31 →
      (∃ tr ∈ t.laneTrials, ∃ t0, tr.time = some t0 ∧ Time.lt t0 Time.infinity = true) →
      ∃ tm, Trial.mk t.unit.bestLanesPerBlock r.minJobsPerBlock (some tm) ∈ t.laneTrials ∧
        (∀ tr ∈ t.laneTrials, ∀ tm1, tr.time = some tm1 → tm1 ≠ Time.nan →
          Time.le tm tm1 = true) ∧
        ∀ tr ∈ t.laneTrials, tr.time = some tm →
          t.unit.bestLanesPerBlock ≤ tr.lanesPerBlock) ∧
    (r.maxJobsPerBlock < 2 ^ 31 →
      (∃ tr ∈ t.jobTrials, ∃ t0, tr.time = some t0 ∧ Time.lt t0 Time.infinity = true) →
      ∃ tm, Trial.mk t.unit.bestLanesPerBlock t.unit.bestJobsPerBlock (some tm)
          ∈ t.jobTrials ∧
        (∀ tr ∈ t.jobTrials, ∀ tm1, tr.time = some tm1 → tm1 ≠ Time.nan →
          Time.le tm tm1 = true) ∧
        ∀ tr ∈ t.jobTrials, tr.time = some tm →
          t.unit.bestJobsPerBlock ≤ tr.jobsPerBlock) := by
  obtain ⟨_, w1, w2, w3, _, hlane, hjob⟩ := construct_cases h
  constructor
  · intro hm hex
    rcases hlane with ⟨_, hts, _, _⟩ | ⟨_, ts, hs, hts⟩
    · rw [hts] at hex; simp at hex
    · have hsome : ∃ p ∈ ts, ∃ t0, p.2 = some t0 ∧ Time.lt t0 Time.infinity = true := by
        obtain ⟨tr, htr, t0, h0, hlt⟩ := hex
        rw [hts] at htr
        obtain ⟨p, hp, rfl⟩ := List.mem_map.1 htr
        exact ⟨p, hp, t0, h0, hlt⟩
      obtain ⟨tm, hmem, hmin, hsmall⟩ := search_tie_smallest hs hm hsome
      refine ⟨tm, ?_, ?_, ?_⟩
      · rw [hts]
        exact List.mem_map.2 ⟨_, hmem, rfl⟩
      · intro tr1 htr1 tm1 h1 hn
        rw [hts] at htr1
        obtain ⟨p, hp, rfl⟩ := List.mem_map.1 htr1
        exact hmin p hp tm1 h1 hn
      · intro tr1 htr1 h1
        rw [hts] at htr1
        obtain ⟨p, hp, rfl⟩ := List.mem_map.1 htr1
        exact hsmall p hp h1
  · intro hm hex
    rcases hjob with ⟨_, hts, _, _⟩ | ⟨_, ts, hs, hts⟩
    · rw [hts] at hex; simp at hex
    · have hsome : ∃ p ∈ ts, ∃ t0, p.2 = some t0 ∧ Time.lt t0 Time.infinity = true := by
        obtain ⟨tr, htr, t0, h0, hlt⟩ := hex
        rw [hts] at htr
        obtain ⟨p, hp, rfl⟩ := List.mem_map.1 htr
        exact ⟨p, hp, t0, h0, hlt⟩
      obtain ⟨tm, hmem, hmin, hsmall⟩ := search_tie_smallest hs hm hsome
      refine ⟨tm, ?_, ?_, ?_⟩
      · rw [hts]
        exact List.mem_map.2 ⟨_, hmem, rfl⟩
      · intro tr1 htr1 tm1 h1 hn
        rw [hts] at htr1
        obtain ⟨p, hp, rfl⟩ := List.mem_map.1 htr1
        exact hmin p hp tm1 h1 hn
      · intro tr1 htr1 h1
        rw [hts] at htr1
        obtain ⟨p, hp, rfl⟩ := List.mem_map.1 htr1
        exact hsmall p hp h1

/-! ## The test `isPowerOfTwo` -/

/-- For a positive `x`, `x & (x - 1)` is zero exactly for the powers of two. -/
theorem land_pred_eq_zero_iff (x : Nat) (hx : 0 < x) :
    x &&& (x - 1) = 0 ↔ ∃ k, x = 2 ^ k := by
  constructor
  · induction x using Nat.strong_induction_on with
    | _ x ih =>
      intro h
      rcases Nat.even_or_odd' x with ⟨y, rfl | rfl⟩
      · have hy : 0 < y := by omega
        have h2 : (2 * y &&& (2 * y - 1)) / 2 = 0 := by rw [h]
        rw [Nat.and_div_two] at h2
        have e1 : 2 * y / 2 = y := by omega
        have e2 : (2 * y - 1) / 2 = y - 1 := by omega
        rw [e1, e2] at h2
        obtain ⟨k, hk⟩ := ih y (by omega) hy h2
        exact ⟨k + 1, by rw [hk, pow_succ]; ring⟩
      · have h2 : ((2 * y + 1) &&& (2 * y + 1 - 1)) / 2 = 0 := by rw [h]
        rw [Nat.and_div_two] at h2
        have e1 : (2 * y + 1) / 2 = y := by omega
        have e2 : (2 * y + 1 - 1) / 2 = y := by omega
        rw [e1, e2, Nat.and_self] at h2
        exact ⟨0, by rw [h2]; rfl⟩
  · rintro ⟨k, rfl⟩
    rw [Nat.and_pow_two_sub_one_eq_mod, Nat.mod_self]

/-- On a `std::uint32_t`, `isPowerOfTwo` accepts `0` and the powers of two. -/
theorem isPowerOfTwo_true_iff {x : Nat} (hx : x < 2 ^ 32) :
    isPowerOfTwo x = true ↔ x = 0 ∨ ∃ k, x = 2 ^ k := by
  unfold isPowerOfTwo
  rw [Nat.mod_eq_of_lt hx]
  rcases Nat.eq_zero_or_pos x with rfl | hpos
  · simp
  · have e : (x + (2 ^ 32 - 1)) % 2 ^ 32 = x - 1 := by omega
    rw [e, beq_iff_eq, land_pred_eq_zero_iff x hpos]
    constructor
    · exact fun h => Or.inr h
    · rintro (h | h)
      · omega
      · exact h

theorem pow_lt_two_pow_32 {k : Nat} (h : 2 ^ k < 2 ^ 32) : k ≤ 31 := by
  by_contra hk
  have : 2 ^ 32 ≤ 2 ^ k := Nat.pow_le_pow_right (by norm_num) (by omega)
  omega

/-! ## The search below the wrap -/

/-- Below `2 ^ 31` trial `i` of a search is candidate `2 ^ i`, which is within
the bound. -/
theorem searchLoop_pow {d : Device} {g : Nat → Nat × Nat} {m fuel : Nat} {b b1 : Nat}
    {w w1 : World} {ts : List (Nat × Option Time)}
    (h : searchLoop d g m fuel 1 Time.infinity b w = some (b1, ts, w1)) (hm : m < 2 ^ 31)
    (i : Nat) (p : Nat × Option Time) (hp : ts[i]? = some p) :
    p.1 = 2 ^ i ∧ 2 ^ i ≤ m := by
  have hc := searchLoop_cands _ _ _ _ _ _ _ _ h (by norm_num) i p hp
  have hmem : p ∈ ts := List.mem_iff_getElem?.2 ⟨i, hp⟩
  have hle := searchLoop_le _ _ _ _ _ _ _ _ h p hmem
  have hpos := searchLoop_pos hm _ _ _ _ _ _ _ _ h (Nat.le_refl 1) p hmem
  rw [Nat.one_mul] at hc
  have hi : i < 32 := by
    by_contra hge
    have hdvd : 2 ^ 32 ∣ 2 ^ i := pow_dvd_pow 2 (by omega)
    have : 2 ^ i % 2 ^ 32 = 0 := Nat.mod_eq_zero_of_dvd hdvd
    omega
  have hlt : 2 ^ i < 2 ^ 32 := Nat.pow_lt_pow_right (by norm_num) hi
  rw [Nat.mod_eq_of_lt hlt] at hc
  exact ⟨hc, hc ▸ hle⟩

/-- Below `2 ^ 31` a search makes at most `log2 m + 1` trials. -/
theorem searchLoop_count {d : Device} {g : Nat → Nat × Nat} {m fuel : Nat} {b b1 : Nat}
    {w w1 : World} {ts : List (Nat × Option Time)}
    (h : searchLoop d g m fuel 1 Time.infinity b w = some (b1, ts, w1)) (hm : m < 2 ^ 31) :
    ts.length ≤ Nat.log 2 m + 1 := by
  rcases Nat.eq_zero_or_pos ts.length with h0 | hpos
  · omega
  · have hlt : ts.length - 1 < ts.length := by omega
    have hp : ts[ts.length - 1]? = some (ts[ts.length - 1]) := List.getElem?_eq_getElem hlt
    have h1 := (searchLoop_pow h hm _ _ hp).2
    have h2 := Nat.le_log_of_pow_le (by norm_num) h1
    omega

/-- A search in which no trial failed went on until the next power of two
exceeded the bound. -/
theorem searchLoop_full {d : Device} {g : Nat → Nat × Nat} {m fuel : Nat} {b b1 : Nat}
    {w w1 : World} {ts : List (Nat × Option Time)}
    (h : searchLoop d g m fuel 1 Time.infinity b w = some (b1, ts, w1))
    (hall : ∀ p ∈ ts, ∃ t, p.2 = some t) : m < 2 ^ ts.length := by
  have h1 := searchLoop_end _ _ _ _ _ _ _ _ h (by norm_num) hall
  rw [Nat.one_mul] at h1
  exact lt_of_lt_of_le h1 (Nat.mod_le _ _)

/-- Below `2 ^ 31` a search leaves either the initial value or a power of two
within the bound. -/
theorem search_best_pow {d : Device} {g : Nat → Nat × Nat} {m fuel : Nat} {b b1 : Nat}
    {w w1 : World} {ts : List (Nat × Option Time)}
    (h : searchLoop d g m fuel 1 Time.infinity b w = some (b1, ts, w1)) (hm : m < 2 ^ 31) :
    b1 = b ∨ ∃ k, b1 = 2 ^ k ∧ b1 ≤ m := by
  have hsel := searchLoop_select _ _ _ _ _ _ _ _ h
  rcases selectBest_first (timedOf ts) (Time.infinity, b) with ⟨heq, _⟩ | ⟨pre, t, post, hsplit, _, _, _, _⟩
  · left
    rw [← hsel, heq]
  · right
    have hmem : ((selectBest (Time.infinity, b) (timedOf ts)).2, t) ∈ timedOf ts := by
      have : ((selectBest (Time.infinity, b) (timedOf ts)).2, t) ∈
          pre ++ ((selectBest (Time.infinity, b) (timedOf ts)).2, t) :: post := by simp
      rwa [← hsplit] at this
    rw [hsel] at hmem
    have hmem1 := mem_timedOf.1 hmem
    obtain ⟨i, hi⟩ := List.mem_iff_getElem?.1 hmem1
    have hp := searchLoop_pow h hm i _ hi
    have h1 := hp.1
    have h2 := hp.2
    simp only at h1
    exact ⟨i, h1, by omega⟩

/-- The candidate list for a maximum `m`, when `k` powers of two fit. -/
theorem doublingCandidates_eq (m k : Nat) (hk : k ≤ 32) (hle : ∀ i, i < k → 2 ^ i ≤ m)
    (hgt : k < 32 → m < 2 ^ k) :
    doublingCandidates m = (List.range k).map (fun i => 2 ^ i) := by
  unfold doublingCandidates
  have h32 : 32 = k + (32 - k) := by omega
  rw [h32, List.range_add, List.map_append, List.filter_append]
  have h1 : ((List.range k).map (fun i => 2 ^ i)).filter (fun c => decide (c ≤ m))
      = (List.range k).map (fun i => 2 ^ i) := by
    rw [List.filter_eq_self]
    intro c hc
    obtain ⟨i, hi, rfl⟩ := List.mem_map.1 hc
    simpa using hle i (List.mem_range.1 hi)
  have h2 : (((List.range (32 - k)).map (fun x => k + x)).map (fun i => 2 ^ i)).filter
      (fun c => decide (c ≤ m)) = [] := by
    rw [List.filter_eq_nil_iff]
    intro c hc
    obtain ⟨i, hi, rfl⟩ := List.mem_map.1 hc
    obtain ⟨j, hj, rfl⟩ := List.mem_map.1 hi
    have hj1 := List.mem_range.1 hj
    have hlt := hgt (by omega)
    have : 2 ^ k ≤ 2 ^ (k + j) := Nat.pow_le_pow_right (by norm_num) (by omega)
    simp only [decide_eq_true_eq]
    omega
  rw [h1, h2, List.append_nil]

/-- Below `2 ^ 31` the candidates a search tried are an initial part of
`1, 2, 4, ...` up to the bound, and all of it when no trial failed. -/
theorem searchLoop_prefix {d : Device} {g : Nat → Nat × Nat} {m fuel : Nat} {b b1 : Nat}
    {w w1 : World} {ts : List (Nat × Option Time)}
    (h : searchLoop d g m fuel 1 Time.infinity b w = some (b1, ts, w1)) (hm : m < 2 ^ 31) :
    ts.map Prod.fst <+: doublingCandidates m ∧
    ((∀ p ∈ ts, ∃ t, p.2 = some t) → ts.map Prod.fst = doublingCandidates m) := by
  have hts : ts.map Prod.fst = (List.range ts.length).map (fun i => 2 ^ i) := by
    apply List.ext_getElem?
    intro i
    rw [List.getElem?_map, List.getElem?_map]
    rcases hi : ts[i]? with _ | p
    · have : ts.length ≤ i := List.getElem?_eq_none_iff.1 hi
      rw [List.getElem?_eq_none_iff.2 (by simpa using this)]
      rfl
    · have hlt : i < ts.length := (List.getElem?_eq_some_iff.1 hi).1
      rw [List.getElem?_range hlt]
      simp [(searchLoop_pow h hm i p hi).1]
  obtain ⟨k, hk, hle, hgt⟩ : ∃ k, k ≤ 32 ∧ (∀ i, i < k → 2 ^ i ≤ m) ∧ m < 2 ^ k := by
    rcases Nat.eq_zero_or_pos m with rfl | hpos
    · exact ⟨0, by omega, fun i hi => absurd hi (by omega), by norm_num⟩
    · refine ⟨Nat.log 2 m + 1, ?_, ?_, Nat.lt_pow_succ_log_self (by norm_num) m⟩
      · have : Nat.log 2 m < 31 := Nat.log_lt_of_lt_pow (by omega) hm
        omega
      · intro i hi
        exact Nat.pow_le_of_le_log (by omega) (by omega)
  have hdc := doublingCandidates_eq m k hk hle (fun _ => hgt)
  have hn : ts.length ≤ k := by
    rcases Nat.eq_zero_or_pos ts.length with h0 | hpos
    · omega
    · have hlt : ts.length - 1 < ts.length := by omega
      have hp : ts[ts.length - 1]? = some (ts[ts.length - 1]) := List.getElem?_eq_getElem hlt
      have h1 := (searchLoop_pow h hm _ _ hp).2
      by_contra hgt1
      have : 2 ^ k ≤ 2 ^ (ts.length - 1) := Nat.pow_le_pow_right (by norm_num) (by omega)
      omega
  constructor
  · rw [hts, hdc]
    have : List.range ts.length = (List.range k).take ts.length := by
      rw [List.take_range, Nat.min_eq_left hn]
    rw [this, List.map_take]
    exact List.take_prefix _ _
  · intro hall
    have hfull := searchLoop_full h hall
    have : k ≤ ts.length := by
      by_contra hlt
      have := hle ts.length (by omega)
      omega
    rw [hts, hdc, Nat.le_antisymm hn this]

/-! ## The constructor below the wrap -/

/-- When no search can wrap, neither search makes more than `log2 max + 1`
trials. -/
theorem trial_count_below_wrap {d : Device} {fuel : Nat} {params : Argon2Params}
    {deviceIndex : Int} {batchSize : Nat} {r : KernelRunner} {w : World} {t : Tuned}
    (h : built? (ProcessingUnit.construct d fuel params deviceIndex batchSize r w) = some t)
    (hbelow : searchesBelowWrap r) :
    t.laneTrials.length ≤ Nat.log 2 r.maxLanesPerBlock + 1 ∧
    t.jobTrials.length ≤ Nat.log 2 r.maxJobsPerBlock + 1 := by
  obtain ⟨_, w1, w2, w3, _, hlane, hjob⟩ := construct_cases h
  constructor
  · rcases hlane with ⟨_, hts, _, _⟩ | ⟨hg, ts, hs, hts⟩
    · rw [hts]; simp
    · rw [hts, List.length_map]
      exact searchLoop_count hs (hbelow.1 hg.1 hg.2)
  · rcases hjob with ⟨_, hts, _, _⟩ | ⟨hg, ts, hs, hts⟩
    · rw [hts]; simp
    · rw [hts, List.length_map]
      exact searchLoop_count hs (hbelow.2 hg.2.1 hg.2.2)

/-- When no search can wrap, the lane trials are an initial part of
`(1, minJobs), (2, minJobs), (4, minJobs), ...` up to the lanes maximum, and
the job trials an initial part of `(bestLanes, 1), (bestLanes, 2), ...` up to
the jobs maximum; a search that ran without a failing trial tried the whole
list. -/
theorem trial_shape_below_wrap {d : Device} {fuel : Nat} {params : Argon2Params}
    {deviceIndex : Int} {batchSize : Nat} {r : KernelRunner} {w : World} {t : Tuned}
    (h : built? (ProcessingUnit.construct d fuel params deviceIndex batchSize r w) = some t)
    (hbelow : searchesBelowWrap r) :
    (t.laneTrials.map Trial.geometry <+:
        (doublingCandidates r.maxLanesPerBlock).map (fun c => (c, r.minJobsPerBlock)) ∧
      (r.minLanesPerBlock < r.maxLanesPerBlock → isPowerOfTwo r.maxLanesPerBlock = true →
        (∀ tr ∈ t.laneTrials, tr.time ≠ none) →
        t.laneTrials.map Trial.geometry =
          (doublingCandidates r.maxLanesPerBlock).map (fun c => (c, r.minJobsPerBlock)))) ∧
    (t.jobTrials.map Trial.geometry <+:
        (doublingCandidates r.maxJobsPerBlock).map (fun c => (t.unit.bestLanesPerBlock, c)) ∧
      (jobSearchEnabled r t.unit.bestLanesPerBlock →
        (∀ tr ∈ t.jobTrials, tr.time ≠ none) →
        t.jobTrials.map Trial.geometry =
          (doublingCandidates r.maxJobsPerBlock).map
            (fun c => (t.unit.bestLanesPerBlock, c)))) := by
  obtain ⟨_, w1, w2, w3, _, hlane, hjob⟩ := construct_cases h
  constructor
  · rcases hlane with ⟨hg, hts, _, _⟩ | ⟨hg, ts, hs, hts⟩
    · refine ⟨by rw [hts]; exact List.nil_prefix, fun h1 h2 _ => absurd ⟨h1, h2⟩ hg⟩
    · have hp := searchLoop_prefix hs (hbelow.1 hg.1 hg.2)
      have hmap : t.laneTrials.map Trial.geometry =
          (ts.map Prod.fst).map (fun c => (c, r.minJobsPerBlock)) := by
        rw [hts, List.map_map, List.map_map]
        rfl
      refine ⟨by rw [hmap]; exact hp.1.map _, fun _ _ hall => ?_⟩
      rw [hmap, hp.2]
      intro p hp1
      have := hall (Trial.mk p.1 r.minJobsPerBlock p.2)
        (by rw [hts]; exact List.mem_map.2 ⟨p, hp1, rfl⟩)
      exact Option.ne_none_iff_exists'.1 this
  · rcases hjob with ⟨hg, hts, _, _⟩ | ⟨hg, ts, hs, hts⟩
    · refine ⟨by rw [hts]; exact List.nil_prefix, fun h1 _ => absurd h1 hg⟩
    · have hp := searchLoop_prefix hs (hbelow.2 hg.2.1 hg.2.2)
      have hmap : t.jobTrials.map Trial.geometry =
          (ts.map Prod.fst).map (fun c => (t.unit.bestLanesPerBlock, c)) := by
        rw [hts, List.map_map, List.map_map]
        rfl
      refine ⟨by rw [hmap]; exact hp.1.map _, fun _ hall => ?_⟩
      rw [hmap, hp.2]
      intro p hp1
      have := hall (Trial.mk t.unit.bestLanesPerBlock p.1 p.2)
        (by rw [hts]; exact List.mem_map.2 ⟨p, hp1, rfl⟩)
      exact Option.ne_none_iff_exists'.1 this

/-- When no search can wrap, each tuned value is the runner minimum of its
dimension or a power of two that does not exceed the maximum. -/
theorem tuned_values_below_wrap {d : Device} {fuel : Nat} {params : Argon2Params}
    {deviceIndex : Int} {batchSize : Nat} {r : KernelRunner} {w : World} {t : Tuned}
    (h : built? (ProcessingUnit.construct d fuel params deviceIndex batchSize r w) = some t)
    (hbelow : searchesBelowWrap r) :
    (t.unit.bestLanesPerBlock = r.minLanesPerBlock ∨
      ∃ k, t.unit.bestLanesPerBlock = 2 ^ k ∧ t.unit.bestLanesPerBlock ≤ r.maxLanesPerBlock) ∧
    (t.unit.bestJobsPerBlock = r.minJobsPerBlock ∨
      ∃ k, t.unit.bestJobsPerBlock = 2 ^ k ∧ t.unit.bestJobsPerBlock ≤ r.maxJobsPerBlock) := by
  obtain ⟨_, w1, w2, w3, _, hlane, hjob⟩ := construct_cases h
  constructor
  · rcases hlane with ⟨_, _, hb, _⟩ | ⟨hg, ts, hs, _⟩
    · exact Or.inl hb
    · exact search_best_pow hs (hbelow.1 hg.1 hg.2)
  · rcases hjob with ⟨_, _, hb, _⟩ | ⟨hg, ts, hs, _⟩
    · exact Or.inl hb
    · exact search_best_pow hs (hbelow.2 hg.2.1 hg.2.2)

/-- On the device that never fails, a search bounded by `2 ^ 31` never ends:
the candidate goes through the powers of two, wraps to `0` and stays there,
always within the bound. -/
theorem searchLoop_steady_wraps (g : Nat → Nat × Nat) :
    ∀ (fuel c : Nat) (bt : Time) (b : Nat) (w : World),
      (c = 0 ∨ ∃ i, i ≤ 31 ∧ c = 2 ^ i) →
      searchLoop steadyDevice g (2 ^ 31) fuel c bt b w = none := by
  intro fuel
  induction fuel with
  | zero => intro c bt b w _; rfl
  | succ f ih =>
    intro c bt b w hc
    have hle : c ≤ 2 ^ 31 := by
      rcases hc with rfl | ⟨i, hi, rfl⟩
      · exact Nat.zero_le _
      · exact Nat.pow_le_pow_right (by norm_num) hi
    have hnext : c * 2 % 2 ^ 32 = 0 ∨ ∃ i, i ≤ 31 ∧ c * 2 % 2 ^ 32 = 2 ^ i := by
      rcases hc with rfl | ⟨i, hi, rfl⟩
      · exact Or.inl rfl
      · rcases Nat.lt_or_ge i 31 with hlt | hge
        · right
          refine ⟨i + 1, by omega, ?_⟩
          have : 2 ^ (i + 1) < 2 ^ 32 := Nat.pow_lt_pow_right (by norm_num) (by omega)
          rw [← pow_succ, Nat.mod_eq_of_lt this]
        · left
          have : i = 31 := by omega
          subst this
          rfl
    obtain ⟨w1, hr⟩ : ∃ w1, runTrial steadyDevice w (g c).1 (g c).2 = (some 5, w1) :=
      ⟨_, rfl⟩
    rw [searchLoop, if_pos hle, hr]
    simp only
    rw [ih _ _ _ _ hnext]

/-! ## Overrides that do not parse -/

/-- When `strtol` stops before the end of the string, `env_int` yields the
default. -/
theorem env_int_rest {env : Env} {name v : String} (h : env name = some v)
    (hrest : (strtol (cstr v)).2 ≠ []) (defval : Int) :
    env_int env name defval = defval := by
  unfold env_int
  rw [h]
  simp only
  rw [if_neg]
  simpa using hrest

/-- Unsetting one variable leaves the lookup of every other variable as it
was. -/
theorem env_int_unsetVar {env : Env} {name other : String} (hne : other ≠ name)
    (defval : Int) :
    env_int (unsetVar env name) other defval = env_int env other defval := by
  unfold env_int unsetVar
  rw [if_neg hne]

theorem env_on_unsetVar {env : Env} {name other : String} (hne : other ≠ name)
    (defval : Bool) :
    env_on (unsetVar env name) other defval = env_on env other defval := by
  unfold env_on unsetVar
  rw [if_neg hne]

/-- The strings `abc` and `12x` leave an unparsed rest, and `env_int` yields
the default for them. -/
theorem env_int_trailing_examples :
    (strtol (cstr "abc")).2 ≠ [] ∧ (strtol (cstr "12x")).2 ≠ [] ∧
    env_int (envWith "A2_LPB" "abc") "A2_LPB" (-1) = -1 ∧
    env_int (envWith "A2_LPB" "12x") "A2_LPB" (-1) = -1 := by
  decide

/-- A lanes override on which `strtol` stops before the end of the string is
resolved, and dispatched, exactly as if the variable were unset. -/
theorem unparsed_lanes_override_as_unset (d : Device) (env : Env) (u : ProcessingUnit)
    (w : World) {v : String} (h : env "A2_LPB" = some v)
    (hrest : (strtol (cstr v)).2 ≠ []) :
    u.resolveGeometry env = u.resolveGeometry (unsetVar env "A2_LPB") ∧
    u.beginProcessing d env w = u.beginProcessing d (unsetVar env "A2_LPB") w := by
  have h1 : env_int env "A2_LPB" (-1) = env_int (unsetVar env "A2_LPB") "A2_LPB" (-1) := by
    rw [env_int_rest h hrest, env_int_unset (by simp [unsetVar])]
  have h2 : env_int (unsetVar env "A2_LPB") "A2_JPB" (-1) = env_int env "A2_JPB" (-1) :=
    env_int_unsetVar (by decide) _
  have h3 : env_on (unsetVar env "A2_LPB") "A2_FORCE" false = env_on env "A2_FORCE" false :=
    env_on_unsetVar (by decide) _
  have hg : u.resolveGeometry env = u.resolveGeometry (unsetVar env "A2_LPB") := by
    apply Prod.ext
    · rw [resolveGeometry_lanes, resolveGeometry_lanes, h1, h3]
    · rw [resolveGeometry_jobs, resolveGeometry_jobs, h2, h3]
  exact ⟨hg, by unfold ProcessingUnit.beginProcessing; rw [hg]⟩

/-- A jobs override on which `strtol` stops before the end of the string is
resolved, and dispatched, exactly as if the variable were unset. -/
theorem unparsed_jobs_override_as_unset (d : Device) (env : Env) (u : ProcessingUnit)
    (w : World) {v : String} (h : env "A2_JPB" = some v)
    (hrest : (strtol (cstr v)).2 ≠ []) :
    u.resolveGeometry env = u.resolveGeometry (unsetVar env "A2_JPB") ∧
    u.beginProcessing d env w = u.beginProcessing d (unsetVar env "A2_JPB") w := by
  have h1 : env_int env "A2_JPB" (-1) = env_int (unsetVar env "A2_JPB") "A2_JPB" (-1) := by
    rw [env_int_rest h hrest, env_int_unset (by simp [unsetVar])]
  have h2 : env_int (unsetVar env "A2_JPB") "A2_LPB" (-1) = env_int env "A2_LPB" (-1) :=
    env_int_unsetVar (by decide) _
  have h3 : env_on (unsetVar env "A2_JPB") "A2_FORCE" false = env_on env "A2_FORCE" false :=
    env_on_unsetVar (by decide) _
  have hg : u.resolveGeometry env = u.resolveGeometry (unsetVar env "A2_JPB") := by
    apply Prod.ext
    · rw [resolveGeometry_lanes, resolveGeometry_lanes, h2, h3]
    · rw [resolveGeometry_jobs, resolveGeometry_jobs, h1, h3]
  exact ⟨hg, by unfold ProcessingUnit.beginProcessing; rw [hg]⟩

/-- A sequence of `beginProcessing()` calls leaves the unit as it found it. -/
theorem beginAll_unit (d : Device) :
    ∀ (envs : List Env) (s : Session), (Session.beginAll d envs s).unit = s.unit := by
  intro envs
  induction envs with
  | nil => intro s; rfl
  | cons env envs ih => intro s; exact ih _

/-! ## Digests and dispatches -/

/-- Device binding touches no runner memory. -/
theorem setCudaDevice_memory (d : Device) (w : World) (deviceIndex : Int) :
    (setCudaDevice d w deviceIndex).2.input = w.input ∧
    (setCudaDevice d w deviceIndex).2.output = w.output := by
  unfold setCudaDevice
  split
  · exact ⟨rfl, rfl⟩
  · simp only
    split
    · split <;> exact ⟨rfl, rfl⟩
    · exact ⟨rfl, rfl⟩

/-- The method `endProcessing()` only waits: the world moves on by one device
call. -/
theorem endProcessing_world (d : Device) (w : World) :
    (ProcessingUnit.endProcessing d w).2 = w.tick := by
  by_cases hf : d.fails w.clock = true <;>
    simp [ProcessingUnit.endProcessing, KernelRunner.finish, hf]

/-- After a dispatch (`beginProcessing` whose device binding succeeded, then
`endProcessing`) the digest of a slot is `finalize` of what the kernel of that
dispatch left in the output memory of the slot. -/
theorem getHash_after_dispatch (d : Device) (env : Env) (u : ProcessingUnit) (w : World)
    (index : Nat) (hb : (setCudaDevice d w u.deviceIndex).1 = Status.ok) :
    (u.getHash (ProcessingUnit.endProcessing d (u.beginProcessing d env w).2).2 index).1 =
      u.params.finalize
        (d.kernel (setCudaDevice d w u.deviceIndex).2.clock w.input w.output index) := by
  have hm := setCudaDevice_memory d w u.deviceIndex
  rw [endProcessing_world]
  unfold ProcessingUnit.getHash KernelRunner.readOutputMemory ProcessingUnit.beginProcessing
  rcases hs : setCudaDevice d w u.deviceIndex with ⟨st, w1⟩
  rw [hs] at hb hm
  simp only at hb hm
  subst hb
  simp only [KernelRunner.run, World.tick]
  rw [hm.1, hm.2]

/-! ## Overrides given as decimal digits -/

/-- On a non-empty run of decimal digits `strtol` consumes everything and
returns its value, clamped to the range of `long`. -/
theorem strtol_digits (ds : List Char) (hne : ds ≠ []) (hd : ds.all isdigit = true) :
    strtol ds = (max LONG_MIN (min LONG_MAX ((digitsValue ds : Nat) : Int)), []) := by
  cases ds with
  | nil => exact absurd rfl hne
  | cons c t =>
    have hall : ∀ x ∈ c :: t, isdigit x = true := List.all_eq_true.1 hd
    have hc : isdigit c = true := hall c (List.mem_cons_self _ _)
    have hc1 : 48 ≤ c.toNat ∧ c.toNat ≤ 57 := by
      simpa [isdigit] using hc
    have hsp : isspace c = false := by
      simp only [isspace, Bool.or_eq_false_iff, beq_eq_false_iff_ne, Bool.and_eq_false_iff,
        decide_eq_false_iff_not]
      omega
    have h45 : (c.toNat == 45) = false := by
      rw [beq_eq_false_iff_ne]; omega
    have h43 : (c.toNat == 43) = false := by
      rw [beq_eq_false_iff_ne]; omega
    have htake : (c :: t).takeWhile isdigit = c :: t := List.takeWhile_eq_self_iff.2 hall
    have hdrop : (c :: t).dropWhile isdigit = [] := List.dropWhile_eq_nil_iff.2 hall
    have hsdrop : (c :: t).dropWhile isspace = c :: t := by
      rw [List.dropWhile_cons_of_neg (by rw [hsp]; simp)]
    unfold strtol
    simp only [hsdrop, h45, h43, Bool.or_self, Bool.false_eq_true, if_false, htake, hdrop,
      List.isEmpty_cons]

/-- A variable set to a non-empty run of decimal digits whose value fits an
`int` is read by `env_int` as that value. -/
theorem env_int_digits {env : Env} {name s : String} (h : env name = some s)
    (hne : cstr s ≠ []) (hd : (cstr s).all isdigit = true)
    (hv : digitsValue (cstr s) < 2 ^ 31) (defval : Int) :
    env_int env name defval = ((digitsValue (cstr s) : Nat) : Int) := by
  unfold env_int
  rw [h]
  simp only [strtol_digits (cstr s) hne hd, List.isEmpty_nil, if_true]
  have h1 : max LONG_MIN (min LONG_MAX ((digitsValue (cstr s) : Nat) : Int))
      = ((digitsValue (cstr s) : Nat) : Int) := by
    unfold LONG_MIN LONG_MAX
    omega
  rw [h1]
  unfold longToInt toInt32
  have h2 : (((digitsValue (cstr s) : Nat) : Int) % 2 ^ 32).toNat = digitsValue (cstr s) := by
    omega
  rw [h2]
  have h3 : digitsValue (cstr s) % 2 ^ 32 = digitsValue (cstr s) :=
    Nat.mod_eq_of_lt (by omega)
  rw [h3, if_pos hv]

/-! ## The claims -/

/-- C1, the claim as stated fails.  With lanes bounds `[2, 4]` the lane search
starts at candidate `1`; on a device where every trial takes the same time it
keeps `1`, and `beginProcessing` without any override dispatches one lane per
block, below the runner minimum `2`. -/
theorem dispatch_below_minimum_lanes :
    (1 ≤ (KernelRunner.mk 2 4 1 1).minLanesPerBlock ∧
      (KernelRunner.mk 2 4 1 1).minLanesPerBlock ≤ (KernelRunner.mk 2 4 1 1).maxLanesPerBlock ∧
      1 ≤ (KernelRunner.mk 2 4 1 1).minJobsPerBlock ∧
      (KernelRunner.mk 2 4 1 1).minJobsPerBlock ≤ (KernelRunner.mk 2 4 1 1).maxJobsPerBlock) ∧
    built? (ProcessingUnit.construct (scriptedDevice (fun _ => 5) 100) 40 plainParams
        0 1 (KernelRunner.mk 2 4 1 1) emptyWorld) = some tunedBelowMinimum ∧
    dispatched emptyWorld (tunedBelowMinimum.unit.beginProcessing
        (scriptedDevice (fun _ => 5) 100) envNone emptyWorld).2 = [(1, 1)] ∧
    ¬ ((KernelRunner.mk 2 4 1 1).minLanesPerBlock ≤ 1) :=
  ⟨by decide, by rfl, by decide, by decide⟩

/-- C1, amended.  Take `std::uint32_t` bounds with `min <= max` in both
dimensions such that every dimension whose search can run (maximum above the
minimum and passing `isPowerOfTwo`) has minimum `1` and maximum below
`2 ^ 31`.  Then for every outcome of the construction-time tuning and every
environment (overrides and force toggle), the geometry of every `runner.run`
call of `beginProcessing` lies within the runner bounds in both dimensions;
and the constructor does return a unit, with 32 units of fuel, once device
binding and pre-fill went through. -/
theorem dispatched_geometry_within_bounds (d : Device) (fuel : Nat)
    (params : Argon2Params) (deviceIndex : Int) (batchSize : Nat) (r : KernelRunner)
    (w : World)
    (hwf : r.WF)
    (hL : r.minLanesPerBlock ≤ r.maxLanesPerBlock)
    (hJ : r.minJobsPerBlock ≤ r.maxJobsPerBlock)
    (hLs : r.minLanesPerBlock < r.maxLanesPerBlock → isPowerOfTwo r.maxLanesPerBlock = true →
      r.minLanesPerBlock = 1 ∧ r.maxLanesPerBlock < 2 ^ 31)
    (hJs : r.minJobsPerBlock < r.maxJobsPerBlock → isPowerOfTwo r.maxJobsPerBlock = true →
      r.minJobsPerBlock = 1 ∧ r.maxJobsPerBlock < 2 ^ 31) :
    (∀ t, built? (ProcessingUnit.construct d fuel params deviceIndex batchSize r w) = some t →
      ∀ (d2 : Device) (env : Env) (w2 : World),
      ∀ g ∈ dispatched w2 (t.unit.beginProcessing d2 env w2).2,
        r.minLanesPerBlock ≤ g.1 ∧ g.1 ≤ r.maxLanesPerBlock ∧
        r.minJobsPerBlock ≤ g.2 ∧ g.2 ≤ r.maxJobsPerBlock) ∧
    (reachesTuning d params deviceIndex batchSize r w → 32 ≤ fuel →
      ∃ t, built? (ProcessingUnit.construct d fuel params deviceIndex batchSize r w)
        = some t) := by
  refine ⟨?_, fun hreach hfuel =>
    construct_returns d fuel params deviceIndex batchSize r w hreach
      ⟨fun h1 h2 => (hLs h1 h2).2, fun h1 h2 => (hJs h1 h2).2⟩ hfuel⟩
  intro t h d2 env w2
  obtain ⟨hr, w1, w3, w4, _, hlane, hjob⟩ := construct_cases h
  obtain ⟨_, hwL, _, hwJ⟩ := hwf
  have hbL : r.minLanesPerBlock ≤ t.unit.bestLanesPerBlock ∧
      t.unit.bestLanesPerBlock ≤ r.maxLanesPerBlock := by
    rcases hlane with ⟨_, _, hbest, _⟩ | ⟨hg, ts, hs, _⟩
    · rw [hbest]; exact ⟨Nat.le_refl _, hL⟩
    · obtain ⟨hmin, hmax⟩ := hLs hg.1 hg.2
      rcases search_best_range hs hmax with hb | ⟨h1, h2⟩
      · rw [hb]; exact ⟨Nat.le_refl _, hL⟩
      · exact ⟨by omega, h2⟩
  have hbJ : r.minJobsPerBlock ≤ t.unit.bestJobsPerBlock ∧
      t.unit.bestJobsPerBlock ≤ r.maxJobsPerBlock := by
    rcases hjob with ⟨_, _, hbest, _⟩ | ⟨hg, ts, hs, _⟩
    · rw [hbest]; exact ⟨Nat.le_refl _, hJ⟩
    · obtain ⟨hmin, hmax⟩ := hJs hg.2.1 hg.2.2
      rcases search_best_range hs hmax with hb | ⟨h1, h2⟩
      · rw [hb]; exact ⟨Nat.le_refl _, hJ⟩
      · exact ⟨by omega, h2⟩
  intro g hg
  rw [beginProcessing_dispatched] at hg
  split at hg
  · simp only [List.mem_singleton] at hg
    subst hg
    rw [resolveGeometry_lanes, resolveGeometry_jobs, hr]
    have h1 := resolved_within
      (if (env_on env "A2_FORCE" false && decide (env_int env "A2_LPB" (-1) < 0)) = true
        then toInt32 r.maxLanesPerBlock else env_int env "A2_LPB" (-1)) hL hwL hbL
    have h2 := resolved_within
      (if (env_on env "A2_FORCE" false && decide (env_int env "A2_JPB" (-1) < 0)) = true
        then toInt32 r.maxJobsPerBlock else env_int env "A2_JPB" (-1)) hJ hwJ hbJ
    exact ⟨h1.1, h1.2, h2.1, h2.2⟩
  · cases hg

/-- C1 at a concrete input: the unit tuned to `(2, 2)` within `[1, 2] x [1, 2]`
dispatches `(2, 2)` under the override `A2_LPB=7`, within the bounds. -/
theorem dispatched_geometry_within_bounds_witness :
    (KernelRunner.mk 1 2 1 2).WF ∧
    built? (ProcessingUnit.construct (scriptedDevice (fun k => 20 - k) 100) 40 plainParams
        0 1 (KernelRunner.mk 1 2 1 2) emptyWorld) = some tunedBoth ∧
    dispatched emptyWorld (tunedBoth.unit.beginProcessing
        (scriptedDevice (fun _ => 5) 100) (envWith "A2_LPB" "7") emptyWorld).2 = [(2, 2)] ∧
    ∀ g ∈ dispatched emptyWorld (tunedBoth.unit.beginProcessing
        (scriptedDevice (fun _ => 5) 100) (envWith "A2_LPB" "7") emptyWorld).2,
      1 ≤ g.1 ∧ g.1 ≤ 2 ∧ 1 ≤ g.2 ∧ g.2 ≤ 2 :=
  ⟨by decide, by rfl, by decide,
   (dispatched_geometry_within_bounds (scriptedDevice (fun k => 20 - k) 100) 40 plainParams
     0 1 (KernelRunner.mk 1 2 1 2) emptyWorld (by decide) (by decide) (by decide)
     (fun _ _ => by decide) (fun _ _ => by decide)).1 tunedBoth (by rfl)
     (scriptedDevice (fun _ => 5) 100) (envWith "A2_LPB" "7") emptyWorld⟩

/-- C2, the claim as stated fails.  With lanes bounds `[1, 16]` and a tuned
value of `16`, the explicit override `A2_LPB=0` is read as `0`, whose clamp
into `[1, 16]` is `1`; `beginProcessing` dispatches `16` lanes per block, the
tuned value. -/
theorem zero_override_is_not_clamped :
    built? (ProcessingUnit.construct (scriptedDevice (fun k => 40 - k) 100) 40 plainParams
        0 1 (KernelRunner.mk 1 16 1 1) emptyWorld) = some tunedSixteen ∧
    env_int (envWith "A2_LPB" "0") "A2_LPB" (-1) = 0 ∧
    clamp 0 1 16 = 1 ∧
    dispatched emptyWorld (tunedSixteen.unit.beginProcessing
        (scriptedDevice (fun _ => 5) 100) (envWith "A2_LPB" "0") emptyWorld).2 = [(16, 1)] :=
  ⟨by rfl, by decide, by decide, by decide⟩

/-- C2, amended.  When device binding succeeds `beginProcessing` issues one
dispatch, and for each dimension whose override is given as a non-empty run
of decimal digits of value `v`: if `0 < v < 2 ^ 31` and the bounds of that
dimension are below `2 ^ 31`, the dispatched value is `clamp(v, min, max)`;
if `v = 0`, the override is not clamped and the tuned value is dispatched,
whatever the bounds. -/
theorem positive_override_is_clamped (d : Device) (env : Env) (u : ProcessingUnit)
    (w : World) (hb : (setCudaDevice d w u.deviceIndex).1 = Status.ok) :
    ∃ g, dispatched w (u.beginProcessing d env w).2 = [g] ∧
      (∀ s, env "A2_LPB" = some s → cstr s ≠ [] → (cstr s).all isdigit = true →
        (0 < digitsValue (cstr s) → digitsValue (cstr s) < 2 ^ 31 →
          u.runner.minLanesPerBlock < 2 ^ 31 → u.runner.maxLanesPerBlock < 2 ^ 31 →
          g.1 = clamp (digitsValue (cstr s))
            u.runner.minLanesPerBlock u.runner.maxLanesPerBlock) ∧
        (digitsValue (cstr s) = 0 → g.1 = u.bestLanesPerBlock)) ∧
      (∀ s, env "A2_JPB" = some s → cstr s ≠ [] → (cstr s).all isdigit = true →
        (0 < digitsValue (cstr s) → digitsValue (cstr s) < 2 ^ 31 →
          u.runner.minJobsPerBlock < 2 ^ 31 → u.runner.maxJobsPerBlock < 2 ^ 31 →
          g.2 = clamp (digitsValue (cstr s))
            u.runner.minJobsPerBlock u.runner.maxJobsPerBlock) ∧
        (digitsValue (cstr s) = 0 → g.2 = u.bestJobsPerBlock)) := by
  refine ⟨u.resolveGeometry env, ?_, ?_, ?_⟩
  · rw [beginProcessing_dispatched, if_pos hb]
  · intro s hs hne hd
    constructor
    · intro hpos hv hmin hmax
      have he := env_int_digits hs hne hd hv (-1)
      have hv0 : (0 : Int) < ((digitsValue (cstr s) : Nat) : Int) := by omega
      have hn : ¬ ((digitsValue (cstr s) : Nat) : Int) < 0 := by omega
      rw [resolveGeometry_lanes, he]
      simp only [hn, decide_False, Bool.and_false, Bool.false_eq_true, if_false]
      rw [if_pos hv0, clamp_of_lt hmin hmax hv0, Int.toNat_ofNat]
    · intro h0
      have he := env_int_digits hs hne hd (by omega) (-1)
      rw [resolveGeometry_lanes, he, h0]
      simp
  · intro s hs hne hd
    constructor
    · intro hpos hv hmin hmax
      have he := env_int_digits hs hne hd hv (-1)
      have hv0 : (0 : Int) < ((digitsValue (cstr s) : Nat) : Int) := by omega
      have hn : ¬ ((digitsValue (cstr s) : Nat) : Int) < 0 := by omega
      rw [resolveGeometry_jobs, he]
      simp only [hn, decide_False, Bool.and_false, Bool.false_eq_true, if_false]
      rw [if_pos hv0, clamp_of_lt hmin hmax hv0, Int.toNat_ofNat]
    · intro h0
      have he := env_int_digits hs hne hd (by omega) (-1)
      rw [resolveGeometry_jobs, he, h0]
      simp

/-- C2 at a concrete input: with lanes bounds `[1, 16]` the override
`A2_LPB=7` is dispatched as `clamp(7, 1, 16) = 7`. -/
theorem positive_override_is_clamped_witness :
    (setCudaDevice (scriptedDevice (fun _ => 5) 100) emptyWorld
      tunedSixteen.unit.deviceIndex).1 = Status.ok ∧
    envWith "A2_LPB" "7" "A2_LPB" = some "7" ∧
    cstr "7" ≠ [] ∧ (cstr "7").all isdigit = true ∧ digitsValue (cstr "7") = 7 ∧
    clamp 7 1 16 = 7 ∧
    ∃ g, dispatched emptyWorld (tunedSixteen.unit.beginProcessing
        (scriptedDevice (fun _ => 5) 100) (envWith "A2_LPB" "7") emptyWorld).2 = [g] ∧
      g.1 = clamp (digitsValue (cstr "7")) 1 16 :=
  ⟨by decide, by decide, by decide, by decide, by decide, by decide,
   (positive_override_is_clamped (scriptedDevice (fun _ => 5) 100) (envWith "A2_LPB" "7")
     tunedSixteen.unit emptyWorld (by decide)).imp fun _ h =>
       ⟨h.1, (h.2.1 "7" (by decide) (by decide) (by decide)).1 (by decide) (by decide)
         (by decide) (by decide)⟩⟩

/-- C3, the claim as stated fails.  With `A2_FORCE=1` and no override, a
`beginProcessing` whose device binding fails dispatches nothing; and with jobs
bounds `[1, 3000000000]` the forced value `(int)3000000000` is negative, fails
the test `jpbEnv > 0`, and the tuned `1` job per block is dispatched instead
of the maximum. -/
theorem force_maximum_not_always_dispatched :
    env_on (envWith "A2_FORCE" "1") "A2_FORCE" false = true ∧
    dispatched emptyWorld (tunedBoth.unit.beginProcessing
        (scriptedDevice (fun _ => 5) 0) (envWith "A2_FORCE" "1") emptyWorld).2 = [] ∧
    built? (ProcessingUnit.construct (scriptedDevice (fun k => 40 - k) 100) 40 plainParams
        0 1 (KernelRunner.mk 1 1 1 3000000000) emptyWorld) = some tunedHugeJobs ∧
    toInt32 3000000000 = -1294967296 ∧
    dispatched emptyWorld (tunedHugeJobs.unit.beginProcessing
        (scriptedDevice (fun _ => 5) 100) (envWith "A2_FORCE" "1") emptyWorld).2 = [(1, 1)] ∧
    ((1, 1) : Nat × Nat) ≠ (1, 3000000000) :=
  ⟨by decide, by decide, by rfl, by decide, by decide, by decide⟩

/-- C3, amended.  With the force toggle on, bounds `1 <= min <= max < 2 ^ 31`
in both dimensions and device binding successful, `beginProcessing` issues one
dispatch in which every dimension without an override variable has its runner
maximum, whatever the tuned values and the other dimension are; with neither
override set the dispatch is exactly the pair of maxima. -/
theorem force_maximum_for_unset_dimensions (d : Device) (env : Env) (u : ProcessingUnit)
    (w : World)
    (hf : env_on env "A2_FORCE" false = true)
    (hL : 1 ≤ u.runner.minLanesPerBlock ∧
      u.runner.minLanesPerBlock ≤ u.runner.maxLanesPerBlock ∧
      u.runner.maxLanesPerBlock < 2 ^ 31)
    (hJ : 1 ≤ u.runner.minJobsPerBlock ∧
      u.runner.minJobsPerBlock ≤ u.runner.maxJobsPerBlock ∧
      u.runner.maxJobsPerBlock < 2 ^ 31)
    (hb : (setCudaDevice d w u.deviceIndex).1 = Status.ok) :
    ∃ g, dispatched w (u.beginProcessing d env w).2 = [g] ∧
      (env "A2_LPB" = none → g.1 = u.runner.maxLanesPerBlock) ∧
      (env "A2_JPB" = none → g.2 = u.runner.maxJobsPerBlock) ∧
      (env "A2_LPB" = none → env "A2_JPB" = none →
        g = (u.runner.maxLanesPerBlock, u.runner.maxJobsPerBlock)) := by
  have h1 : env "A2_LPB" = none → (u.resolveGeometry env).1 = u.runner.maxLanesPerBlock := by
    intro hl
    rw [resolveGeometry_lanes, env_int_unset hl, hf]
    simp only [Bool.true_and, decide_eq_true_eq]
    rw [if_pos (by norm_num : (-1 : Int) < 0)]
    have hpos : toInt32 u.runner.maxLanesPerBlock > 0 := by
      rw [toInt32_of_lt hL.2.2]; omega
    rw [if_pos hpos, clamp_of_lt (by omega) hL.2.2 hpos, toInt32_of_lt hL.2.2]
    unfold clamp
    omega
  have h2 : env "A2_JPB" = none → (u.resolveGeometry env).2 = u.runner.maxJobsPerBlock := by
    intro hj
    rw [resolveGeometry_jobs, env_int_unset hj, hf]
    simp only [Bool.true_and, decide_eq_true_eq]
    rw [if_pos (by norm_num : (-1 : Int) < 0)]
    have hpos : toInt32 u.runner.maxJobsPerBlock > 0 := by
      rw [toInt32_of_lt hJ.2.2]; omega
    rw [if_pos hpos, clamp_of_lt (by omega) hJ.2.2 hpos, toInt32_of_lt hJ.2.2]
    unfold clamp
    omega
  refine ⟨u.resolveGeometry env, ?_, h1, h2, fun hl hj => Prod.ext (h1 hl) (h2 hj)⟩
  rw [beginProcessing_dispatched, if_pos hb]

/-- C3 at a concrete input: the unit tuned to `(2, 1)` within
`[1, 8] x [1, 2]` dispatches `(8, 2)` under `A2_FORCE=1`. -/
theorem force_maximum_for_unset_dimensions_witness :
    env_on (envWith "A2_FORCE" "1") "A2_FORCE" false = true ∧
    (setCudaDevice (scriptedDevice (fun _ => 5) 100) emptyWorld
      tunedLaneFailure.unit.deviceIndex).1 = Status.ok ∧
    dispatched emptyWorld (tunedLaneFailure.unit.beginProcessing
        (scriptedDevice (fun _ => 5) 100) (envWith "A2_FORCE" "1") emptyWorld).2 = [(8, 2)] ∧
    ∃ g, dispatched emptyWorld (tunedLaneFailure.unit.beginProcessing
        (scriptedDevice (fun _ => 5) 100) (envWith "A2_FORCE" "1") emptyWorld).2 = [g] ∧
      (envWith "A2_FORCE" "1" "A2_LPB" = none → g.1 = 8) ∧
      (envWith "A2_FORCE" "1" "A2_JPB" = none → g.2 = 2) ∧
      (envWith "A2_FORCE" "1" "A2_LPB" = none → envWith "A2_FORCE" "1" "A2_JPB" = none →
        g = (8, 2)) :=
  ⟨by decide, by decide, by decide,
   force_maximum_for_unset_dimensions (scriptedDevice (fun _ => 5) 100)
     (envWith "A2_FORCE" "1") tunedLaneFailure.unit emptyWorld (by decide) (by decide)
     (by decide) (by decide)⟩

/-- C4, the claim as stated fails.  With the override `A2_JPB=5`, a
`beginProcessing` whose device binding fails dispatches nothing; and with jobs
bounds `[1, 3000000000]` the clamp `max(min, min(max, 5))` is `5`, but computed
on `(int)3000000000 < 0` it gives `1`, which `beginProcessing` dispatches. -/
theorem explicit_override_not_always_dispatched :
    env_int (envWith "A2_JPB" "5") "A2_JPB" (-1) = 5 ∧
    dispatched emptyWorld (tunedBoth.unit.beginProcessing
        (scriptedDevice (fun _ => 5) 0) (envWith "A2_JPB" "5") emptyWorld).2 = [] ∧
    built? (ProcessingUnit.construct (scriptedDevice (fun k => 40 - k) 100) 40 plainParams
        0 1 (KernelRunner.mk 1 1 1 3000000000) emptyWorld) = some tunedHugeJobs ∧
    clamp 5 1 3000000000 = 5 ∧
    dispatched emptyWorld (tunedHugeJobs.unit.beginProcessing
        (scriptedDevice (fun _ => 5) 100) (envWith "A2_JPB" "5") emptyWorld).2 = [(1, 1)] :=
  ⟨by decide, by decide, by rfl, by decide, by decide⟩

/-- C4, amended.  Explicit overrides take precedence over the force toggle and
the tuned values.  When device binding succeeds `beginProcessing` issues one
dispatch in which a dimension whose override is given as a non-empty run of
decimal digits of value `0 < v < 2 ^ 31`, and whose bounds are below
`2 ^ 31`, has the value `max(min, min(max, v))`; that value is the same under
any other setting of the force toggle, of the other override and of the tuned
values (any environment with the same override string and any unit with the
same bounds of that dimension resolve it to the same value); and each
dimension is resolved independently: its value is the same for any other unit
and environment that agree on that dimension's bounds, tuned value and
override and on the force toggle. -/
theorem explicit_override_takes_precedence (d : Device) (env : Env) (u : ProcessingUnit)
    (w : World) (hb : (setCudaDevice d w u.deviceIndex).1 = Status.ok) :
    ∃ g, dispatched w (u.beginProcessing d env w).2 = [g] ∧
      (∀ s, env "A2_LPB" = some s → cstr s ≠ [] → (cstr s).all isdigit = true →
        0 < digitsValue (cstr s) → digitsValue (cstr s) < 2 ^ 31 →
        u.runner.minLanesPerBlock < 2 ^ 31 → u.runner.maxLanesPerBlock < 2 ^ 31 →
        g.1 = max u.runner.minLanesPerBlock
          (min u.runner.maxLanesPerBlock (digitsValue (cstr s))) ∧
        ∀ (env2 : Env) (u2 : ProcessingUnit), env2 "A2_LPB" = some s →
          u2.runner.minLanesPerBlock = u.runner.minLanesPerBlock →
          u2.runner.maxLanesPerBlock = u.runner.maxLanesPerBlock →
          (u2.resolveGeometry env2).1 = g.1) ∧
      (∀ s, env "A2_JPB" = some s → cstr s ≠ [] → (cstr s).all isdigit = true →
        0 < digitsValue (cstr s) → digitsValue (cstr s) < 2 ^ 31 →
        u.runner.minJobsPerBlock < 2 ^ 31 → u.runner.maxJobsPerBlock < 2 ^ 31 →
        g.2 = max u.runner.minJobsPerBlock
          (min u.runner.maxJobsPerBlock (digitsValue (cstr s))) ∧
        ∀ (env2 : Env) (u2 : ProcessingUnit), env2 "A2_JPB" = some s →
          u2.runner.minJobsPerBlock = u.runner.minJobsPerBlock →
          u2.runner.maxJobsPerBlock = u.runner.maxJobsPerBlock →
          (u2.resolveGeometry env2).2 = g.2) ∧
      (∀ (env2 : Env) (u2 : ProcessingUnit),
        u2.runner.minLanesPerBlock = u.runner.minLanesPerBlock →
        u2.runner.maxLanesPerBlock = u.runner.maxLanesPerBlock →
        u2.bestLanesPerBlock = u.bestLanesPerBlock →
        env_int env2 "A2_LPB" (-1) = env_int env "A2_LPB" (-1) →
        env_on env2 "A2_FORCE" false = env_on env "A2_FORCE" false →
        (u2.resolveGeometry env2).1 = g.1) ∧
      (∀ (env2 : Env) (u2 : ProcessingUnit),
        u2.runner.minJobsPerBlock = u.runner.minJobsPerBlock →
        u2.runner.maxJobsPerBlock = u.runner.maxJobsPerBlock →
        u2.bestJobsPerBlock = u.bestJobsPerBlock →
        env_int env2 "A2_JPB" (-1) = env_int env "A2_JPB" (-1) →
        env_on env2 "A2_FORCE" false = env_on env "A2_FORCE" false →
        (u2.resolveGeometry env2).2 = g.2) := by
  have hlanes : ∀ (e : Env) (v : ProcessingUnit) (s : String), e "A2_LPB" = some s →
      cstr s ≠ [] → (cstr s).all isdigit = true →
      0 < digitsValue (cstr s) → digitsValue (cstr s) < 2 ^ 31 →
      v.runner.minLanesPerBlock < 2 ^ 31 → v.runner.maxLanesPerBlock < 2 ^ 31 →
      (v.resolveGeometry e).1 = max v.runner.minLanesPerBlock
        (min v.runner.maxLanesPerBlock (digitsValue (cstr s))) := by
    intro e v s hs hne hd hpos hv hmin hmax
    have he := env_int_digits hs hne hd hv (-1)
    have hv0 : (0 : Int) < ((digitsValue (cstr s) : Nat) : Int) := by omega
    have hn : ¬ ((digitsValue (cstr s) : Nat) : Int) < 0 := by omega
    rw [resolveGeometry_lanes, he]
    simp only [hn, decide_False, Bool.and_false, Bool.false_eq_true, if_false]
    rw [if_pos hv0, clamp_of_lt hmin hmax hv0, Int.toNat_ofNat]
    rfl
  have hjobs : ∀ (e : Env) (v : ProcessingUnit) (s : String), e "A2_JPB" = some s →
      cstr s ≠ [] → (cstr s).all isdigit = true →
      0 < digitsValue (cstr s) → digitsValue (cstr s) < 2 ^ 31 →
      v.runner.minJobsPerBlock < 2 ^ 31 → v.runner.maxJobsPerBlock < 2 ^ 31 →
      (v.resolveGeometry e).2 = max v.runner.minJobsPerBlock
        (min v.runner.maxJobsPerBlock (digitsValue (cstr s))) := by
    intro e v s hs hne hd hpos hv hmin hmax
    have he := env_int_digits hs hne hd hv (-1)
    have hv0 : (0 : Int) < ((digitsValue (cstr s) : Nat) : Int) := by omega
    have hn : ¬ ((digitsValue (cstr s) : Nat) : Int) < 0 := by omega
    rw [resolveGeometry_jobs, he]
    simp only [hn, decide_False, Bool.and_false, Bool.false_eq_true, if_false]
    rw [if_pos hv0, clamp_of_lt hmin hmax hv0, Int.toNat_ofNat]
    rfl
  refine ⟨u.resolveGeometry env, ?_, ?_, ?_, ?_, ?_⟩
  · rw [beginProcessing_dispatched, if_pos hb]
  · intro s hs hne hd hpos hv hmin hmax
    refine ⟨hlanes env u s hs hne hd hpos hv hmin hmax, ?_⟩
    intro env2 u2 hs2 h1 h2
    rw [hlanes env u s hs hne hd hpos hv hmin hmax,
      hlanes env2 u2 s hs2 hne hd hpos hv (by rw [h1]; exact hmin) (by rw [h2]; exact hmax),
      h1, h2]
  · intro s hs hne hd hpos hv hmin hmax
    refine ⟨hjobs env u s hs hne hd hpos hv hmin hmax, ?_⟩
    intro env2 u2 hs2 h1 h2
    rw [hjobs env u s hs hne hd hpos hv hmin hmax,
      hjobs env2 u2 s hs2 hne hd hpos hv (by rw [h1]; exact hmin) (by rw [h2]; exact hmax),
      h1, h2]
  · intro env2 u2 h1 h2 h3 h4 h5
    rw [resolveGeometry_lanes, resolveGeometry_lanes, h1, h2, h3, h4, h5]
  · intro env2 u2 h1 h2 h3 h4 h5
    rw [resolveGeometry_jobs, resolveGeometry_jobs, h1, h2, h3, h4, h5]

/-- C4 at a concrete input: the unit tuned to `(2, 2)` within
`[1, 2] x [1, 2]` dispatches `(2, 1)` under the override `A2_JPB=1`, and `1`
job per block is also what the unit tuned to `(2, 1)` within `[1, 8] x [1, 2]`
resolves under `A2_FORCE=1` with `A2_JPB=1`. -/
theorem explicit_override_takes_precedence_witness :
    (setCudaDevice (scriptedDevice (fun _ => 5) 100) emptyWorld
      tunedBoth.unit.deviceIndex).1 = Status.ok ∧
    envWith "A2_JPB" "1" "A2_JPB" = some "1" ∧
    cstr "1" ≠ [] ∧ (cstr "1").all isdigit = true ∧ digitsValue (cstr "1") = 1 ∧
    dispatched emptyWorld (tunedBoth.unit.beginProcessing
        (scriptedDevice (fun _ => 5) 100) (envWith "A2_JPB" "1") emptyWorld).2 = [(2, 1)] ∧
    env_on (envForcedWith "A2_JPB" "1") "A2_FORCE" false = true ∧
    ∃ g, dispatched emptyWorld (tunedBoth.unit.beginProcessing
        (scriptedDevice (fun _ => 5) 100) (envWith "A2_JPB" "1") emptyWorld).2 = [g] ∧
      g.2 = max 1 (min 2 (digitsValue (cstr "1"))) ∧
      (tunedLaneFailure.unit.resolveGeometry (envForcedWith "A2_JPB" "1")).2 = g.2 :=
  ⟨by decide, by decide, by decide, by decide, by decide, by decide, by decide,
   (explicit_override_takes_precedence (scriptedDevice (fun _ => 5) 100)
     (envWith "A2_JPB" "1") tunedBoth.unit emptyWorld (by decide)).imp fun _ h =>
       ⟨h.1,
        (h.2.2.1 "1" (by decide) (by decide) (by decide) (by decide) (by decide) (by decide)
          (by decide)).1,
        (h.2.2.1 "1" (by decide) (by decide) (by decide) (by decide) (by decide) (by decide)
          (by decide)).2 (envForcedWith "A2_JPB" "1") tunedLaneFailure.unit (by decide)
          (by decide) (by decide)⟩⟩

/-- C5, the claim as stated fails.  With no override and the force toggle
off, a `beginProcessing` whose device binding fails issues no `runner.run`
call at all. -/
theorem no_dispatch_when_binding_fails :
    envNone "A2_LPB" = none ∧ envNone "A2_JPB" = none ∧
    env_on envNone "A2_FORCE" false = false ∧
    (tunedBoth.unit.beginProcessing (scriptedDevice (fun _ => 5) 0) envNone emptyWorld).1
      = Status.cudaError ∧
    dispatched emptyWorld (tunedBoth.unit.beginProcessing
        (scriptedDevice (fun _ => 5) 0) envNone emptyWorld).2 = [] :=
  ⟨rfl, rfl, by decide, by decide, by decide⟩

/-- C5, amended.  With no override set for either dimension and the force
toggle off, `beginProcessing` issues exactly one `runner.run` call when device
binding succeeds, and its arguments are exactly the tuned pair of the unit;
when device binding fails it issues none. -/
theorem tuned_pair_dispatched_by_default (d : Device) (env : Env) (u : ProcessingUnit)
    (w : World) (hl : env "A2_LPB" = none) (hj : env "A2_JPB" = none)
    (hf : env_on env "A2_FORCE" false = false) :
    dispatched w (u.beginProcessing d env w).2 =
      if (setCudaDevice d w u.deviceIndex).1 = Status.ok
      then [(u.bestLanesPerBlock, u.bestJobsPerBlock)] else [] := by
  rw [beginProcessing_dispatched]
  have h1 : (u.resolveGeometry env).1 = u.bestLanesPerBlock := by
    rw [resolveGeometry_lanes, env_int_unset hl, hf]
    simp
  have h2 : (u.resolveGeometry env).2 = u.bestJobsPerBlock := by
    rw [resolveGeometry_jobs, env_int_unset hj, hf]
    simp
  have : u.resolveGeometry env = (u.bestLanesPerBlock, u.bestJobsPerBlock) :=
    Prod.ext h1 h2
  rw [this]

/-- C5 at a concrete input: with an empty environment and a device that
binds, the unit tuned to `(2, 2)` dispatches exactly `(2, 2)`. -/
theorem tuned_pair_dispatched_by_default_witness :
    envNone "A2_LPB" = none ∧ envNone "A2_JPB" = none ∧
    env_on envNone "A2_FORCE" false = false ∧
    built? (ProcessingUnit.construct (scriptedDevice (fun k => 20 - k) 100) 40 plainParams
        0 1 (KernelRunner.mk 1 2 1 2) emptyWorld) = some tunedBoth ∧
    dispatched emptyWorld (tunedBoth.unit.beginProcessing
        (scriptedDevice (fun _ => 5) 100) envNone emptyWorld).2 = [(2, 2)] :=
  ⟨rfl, rfl, by decide, by rfl,
   (tuned_pair_dispatched_by_default (scriptedDevice (fun _ => 5) 100) envNone
     tunedBoth.unit emptyWorld rfl rfl (by decide)).trans (by decide)⟩

/-- C6, the claim as stated fails.  With lanes in `[3, 4]` the lane search
runs, and on a device that reports `+infinity` for every kernel its three
trials, of the candidates `1`, `2` and `4`, all complete; no time is below the
initial `bestTime = +infinity`, so `bestLanesPerBlock` stays at the runner
minimum `3`, which is not one of the candidates that were timed. -/
theorem infinite_times_keep_untimed_minimum :
    (built? (ProcessingUnit.construct unmeasuredDevice 40 plainParams
        0 1 (KernelRunner.mk 3 4 1 1) emptyWorld)).map
      (fun t => (t.unit.bestLanesPerBlock, t.laneTrials))
      = some (3, [Trial.mk 1 1 (some Time.infinity), Trial.mk 2 1 (some Time.infinity),
          Trial.mk 4 1 (some Time.infinity)]) := by
  rfl

/-- C6, amended.  Tuning never regresses.  Whenever a search ran and at least
one of its trials completed with a time below `+infinity`, the value the
constructor selected is a candidate that was timed, and its measured time is
at most the measured time of every candidate timed in that search (every
measured time that is not a NaN, times being compared as totally ordered
values); when no completed trial measured a time below `+infinity`, the
runner minimum is kept.  This holds for the lanes and for the jobs.  The
constructor does return a unit, with 32 units of fuel, once device binding
and pre-fill went through and no search can wrap. -/
theorem tuning_never_regresses (d : Device) (fuel : Nat) (params : Argon2Params)
    (deviceIndex : Int) (batchSize : Nat) (r : KernelRunner) (w : World) :
    (∀ t, built? (ProcessingUnit.construct d fuel params deviceIndex batchSize r w) = some t →
      ((∃ tr ∈ t.laneTrials, ∃ t0, tr.time = some t0 ∧ Time.lt t0 Time.infinity = true) →
        ∃ tr ∈ t.laneTrials, ∃ tm, tr.lanesPerBlock = t.unit.bestLanesPerBlock ∧
          tr.time = some tm ∧
          ∀ tr1 ∈ t.laneTrials, ∀ tm1, tr1.time = some tm1 → tm1 ≠ Time.nan →
            Time.le tm tm1 = true) ∧
      ((∀ tr ∈ t.laneTrials, ∀ t0, tr.time = some t0 → Time.lt t0 Time.infinity = false) →
        t.unit.bestLanesPerBlock = r.minLanesPerBlock) ∧
      ((∃ tr ∈ t.jobTrials, ∃ t0, tr.time = some t0 ∧ Time.lt t0 Time.infinity = true) →
        ∃ tr ∈ t.jobTrials, ∃ tm, tr.jobsPerBlock = t.unit.bestJobsPerBlock ∧
          tr.time = some tm ∧
          ∀ tr1 ∈ t.jobTrials, ∀ tm1, tr1.time = some tm1 → tm1 ≠ Time.nan →
            Time.le tm tm1 = true) ∧
      ((∀ tr ∈ t.jobTrials, ∀ t0, tr.time = some t0 → Time.lt t0 Time.infinity = false) →
        t.unit.bestJobsPerBlock = r.minJobsPerBlock)) ∧
    (reachesTuning d params deviceIndex batchSize r w → searchesBelowWrap r → 32 ≤ fuel →
      ∃ t, built? (ProcessingUnit.construct d fuel params deviceIndex batchSize r w)
        = some t) := by
  refine ⟨?_, fun hreach hbelow hfuel =>
    construct_returns d fuel params deviceIndex batchSize r w hreach hbelow hfuel⟩
  intro t h
  obtain ⟨_, w1, w2, w3, _, hlane, hjob⟩ := construct_cases h
  refine ⟨?_, ?_, ?_, ?_⟩
  · intro hex
    rcases hlane with ⟨_, hts, _, _⟩ | ⟨_, ts, hs, hts⟩
    · rw [hts] at hex; simp at hex
    · have hsome : ∃ p ∈ ts, ∃ t0, p.2 = some t0 ∧ Time.lt t0 Time.infinity = true := by
        obtain ⟨tr, htr, t0, h0, hlt⟩ := hex
        rw [hts] at htr
        obtain ⟨p, hp, rfl⟩ := List.mem_map.1 htr
        exact ⟨p, hp, t0, h0, hlt⟩
      obtain ⟨tm, hmem, _, hmin⟩ := search_min_trial hs hsome
      refine ⟨Trial.mk t.unit.bestLanesPerBlock r.minJobsPerBlock (some tm), ?_,
        tm, rfl, rfl, ?_⟩
      · rw [hts]
        exact List.mem_map.2 ⟨_, hmem, rfl⟩
      · intro tr1 htr1 tm1 h1 hn
        rw [hts] at htr1
        obtain ⟨p, hp, rfl⟩ := List.mem_map.1 htr1
        exact hmin p hp tm1 h1 hn
  · intro hall
    rcases hlane with ⟨_, _, hb, _⟩ | ⟨_, ts, hs, hts⟩
    · exact hb
    · refine search_keeps_initial hs ?_
      intro p hp t0 h0
      exact hall (Trial.mk p.1 r.minJobsPerBlock p.2)
        (by rw [hts]; exact List.mem_map.2 ⟨p, hp, rfl⟩) t0 h0
  · intro hex
    rcases hjob with ⟨_, hts, _, _⟩ | ⟨_, ts, hs, hts⟩
    · rw [hts] at hex; simp at hex
    · have hsome : ∃ p ∈ ts, ∃ t0, p.2 = some t0 ∧ Time.lt t0 Time.infinity = true := by
        obtain ⟨tr, htr, t0, h0, hlt⟩ := hex
        rw [hts] at htr
        obtain ⟨p, hp, rfl⟩ := List.mem_map.1 htr
        exact ⟨p, hp, t0, h0, hlt⟩
      obtain ⟨tm, hmem, _, hmin⟩ := search_min_trial hs hsome
      refine ⟨Trial.mk t.unit.bestLanesPerBlock t.unit.bestJobsPerBlock (some tm), ?_,
        tm, rfl, rfl, ?_⟩
      · rw [hts]
        exact List.mem_map.2 ⟨_, hmem, rfl⟩
      · intro tr1 htr1 tm1 h1 hn
        rw [hts] at htr1
        obtain ⟨p, hp, rfl⟩ := List.mem_map.1 htr1
        exact hmin p hp tm1 h1 hn
  · intro hall
    rcases hjob with ⟨_, _, hb, _⟩ | ⟨_, ts, hs, hts⟩
    · exact hb
    · refine search_keeps_initial hs ?_
      intro p hp t0 h0
      exact hall (Trial.mk t.unit.bestLanesPerBlock p.1 p.2)
        (by rw [hts]; exact List.mem_map.2 ⟨p, hp, rfl⟩) t0 h0

/-- C6 at concrete inputs: on a device that gets faster with every call both
searches of the constructor end on their last candidate, the fastest; on the
device that reports `+infinity` for every kernel the unit with lanes in
`[3, 4]` keeps the runner minimum `3`. -/
theorem tuning_never_regresses_witness :
    built? (ProcessingUnit.construct (scriptedDevice (fun k => 20 - k) 100) 40 plainParams
        0 1 (KernelRunner.mk 1 2 1 2) emptyWorld) = some tunedBoth ∧
    (∃ tr ∈ tunedBoth.laneTrials, ∃ tm, tr.lanesPerBlock = 2 ∧ tr.time = some tm ∧
      ∀ tr1 ∈ tunedBoth.laneTrials, ∀ tm1, tr1.time = some tm1 → tm1 ≠ Time.nan →
        Time.le tm tm1 = true) ∧
    (∃ tr ∈ tunedBoth.jobTrials, ∃ tm, tr.jobsPerBlock = 2 ∧ tr.time = some tm ∧
      ∀ tr1 ∈ tunedBoth.jobTrials, ∀ tm1, tr1.time = some tm1 → tm1 ≠ Time.nan →
        Time.le tm tm1 = true) ∧
    built? (ProcessingUnit.construct unmeasuredDevice 40 plainParams
        0 1 (KernelRunner.mk 3 4 1 1) emptyWorld) = some tunedUnmeasured ∧
    tunedUnmeasured.unit.bestLanesPerBlock = 3 :=
  ⟨by rfl,
   ((tuning_never_regresses (scriptedDevice (fun k => 20 - k) 100) 40 plainParams 0 1
      (KernelRunner.mk 1 2 1 2) emptyWorld).1 tunedBoth (by rfl)).1
      ⟨Trial.mk 1 1 (some 17), by decide, 17, rfl, by decide⟩,
   ((tuning_never_regresses (scriptedDevice (fun k => 20 - k) 100) 40 plainParams 0 1
      (KernelRunner.mk 1 2 1 2) emptyWorld).1 tunedBoth (by rfl)).2.2.1
      ⟨Trial.mk 2 1 (some 13), by decide, 13, rfl, by decide⟩,
   by rfl,
   ((tuning_never_regresses unmeasuredDevice 40 plainParams 0 1
      (KernelRunner.mk 3 4 1 1) emptyWorld).1 tunedUnmeasured (by rfl)).2.1 (by decide)⟩

/-- C7, the code at a failing input.  With lanes bounds `[1, 2 ^ 31]` the
candidate wraps from `2 ^ 31` to `0`.  On a device where every trial takes
time `5` until the 35th fails, candidate `0` is timed with the minimum time
`5` like every other candidate, and the constructor selects `1`, the earliest
candidate, which is not the smallest one. -/
theorem tie_keeps_earliest_not_smallest_after_wrap :
    (built? (ProcessingUnit.construct (scriptedDevice (fun _ => 5) 70) 40 plainParams
        0 1 (KernelRunner.mk 1 (2 ^ 31) 1 1) emptyWorld)).map
      (fun t => (t.unit.bestLanesPerBlock,
        decide (Trial.mk 0 1 (some 5) ∈ t.laneTrials),
        t.laneTrials.all (fun tr => tr.time == some 5 || tr.time == none)))
      = some (1, true, true) := by
  rfl

/-- C8. A dispatch failure during a tuning search is recoverable and truncates
only that search.  Once device binding and the pre-fill went through, whatever
the trials do the constructor returns a unit and never an error; its
`runner.run` calls are exactly its trials; in either search nothing is tried
after a failing trial, every trial before it completed, and the selected
value is the selection over the candidates timed before it (the runner
minimum when the first trial fails); after the lane search, failed trial or
not, the job search runs exactly when its guard holds.  When no search can
wrap, 32 units of fuel are enough for the constructor to return. -/
theorem trial_failure_truncates_search (d : Device) (fuel : Nat) (params : Argon2Params)
    (deviceIndex : Int) (batchSize : Nat) (r : KernelRunner) (w : World)
    (hreach : reachesTuning d params deviceIndex batchSize r w) :
    (∀ c, ProcessingUnit.construct d fuel params deviceIndex batchSize r w = some c →
      ∃ t, c.tuned? = some t ∧
        TruncatedAtFailure timedLanes r.minLanesPerBlock t.unit.bestLanesPerBlock
          t.laneTrials ∧
        TruncatedAtFailure timedJobs r.minJobsPerBlock t.unit.bestJobsPerBlock
          t.jobTrials ∧
        (t.jobTrials ≠ [] ↔ jobSearchEnabled r t.unit.bestLanesPerBlock) ∧
        c.world.runs = w.runs ++ (t.laneTrials ++ t.jobTrials).map Trial.geometry) ∧
    (searchesBelowWrap r → 32 ≤ fuel →
      ∃ t, built? (ProcessingUnit.construct d fuel params deviceIndex batchSize r w)
        = some t) := by
  refine ⟨?_, fun hbelow hfuel =>
    construct_returns d fuel params deviceIndex batchSize r w hreach hbelow hfuel⟩
  intro c hc
  obtain ⟨t, htc, hbuilt⟩ := construct_of_bound hreach hc
  obtain ⟨_, w1, w2, w3, _, hlane, hjob⟩ := construct_cases hbuilt
  have hruns := construct_runs hbuilt
  rw [hc] at hruns
  simp only [Option.map_some', Option.some.injEq] at hruns
  refine ⟨t, htc, ?_, ?_, ?_, hruns⟩
  · rcases hlane with ⟨_, hts, _, _⟩ | ⟨_, ts, hs, hts⟩
    · intro pre tr post hsplit _
      rw [hts] at hsplit
      cases pre <;> simp at hsplit
    · rw [hts]
      exact search_truncated hs _ (fun _ => rfl) timedLanes
        (fun l => timedLanes_map l r.minJobsPerBlock)
  · rcases hjob with ⟨_, hts, _, _⟩ | ⟨_, ts, hs, hts⟩
    · intro pre tr post hsplit _
      rw [hts] at hsplit
      cases pre <;> simp at hsplit
    · rw [hts]
      exact search_truncated hs _ (fun _ => rfl) timedJobs
        (fun l => timedJobs_map l t.unit.bestLanesPerBlock)
  · rcases hjob with ⟨hg, hts, _, _⟩ | ⟨hg, ts, hs, hts⟩
    · constructor
      · intro hne; exact absurd hts hne
      · intro hen; exact absurd hen hg
    · constructor
      · intro _; exact hg
      · intro _
        have h1 : 1 ≤ r.maxJobsPerBlock := by have := hg.2.1; omega
        obtain ⟨o, rest, hcons⟩ := searchLoop_nonempty hs h1
        rw [hts, hcons]
        simp

/-- C8 at a concrete input: with lanes in `[1, 8]` and a device that fails
from its seventh call on, the third lane trial (candidate `4`) fails; the
constructor still returns a unit, nothing is tried after the failure, the
unit keeps `2`, the selection over the two candidates timed before it, and
the job search is skipped because its guard fails. -/
theorem trial_failure_truncates_search_witness :
    reachesTuning (scriptedDevice (fun k => 20 - k) 6) plainParams 0 1
      (KernelRunner.mk 1 8 1 2) emptyWorld ∧
    built? (ProcessingUnit.construct (scriptedDevice (fun k => 20 - k) 6) 40 plainParams
        0 1 (KernelRunner.mk 1 8 1 2) emptyWorld) = some tunedLaneFailure ∧
    tunedLaneFailure.laneTrials =
      [Trial.mk 1 1 (some 17), Trial.mk 2 1 (some 15)] ++ Trial.mk 4 1 none :: [] ∧
    TruncatedAtFailure timedLanes 1 2 tunedLaneFailure.laneTrials ∧
    (selectBest (Time.infinity, 1) (timedLanes [Trial.mk 1 1 (some 17), Trial.mk 2 1 (some 15)])).2
      = 2 ∧
    (tunedLaneFailure.jobTrials ≠ [] ↔ jobSearchEnabled (KernelRunner.mk 1 8 1 2) 2) := by
  have hbuilt : built? (ProcessingUnit.construct (scriptedDevice (fun k => 20 - k) 6) 40
      plainParams 0 1 (KernelRunner.mk 1 8 1 2) emptyWorld) = some tunedLaneFailure := by rfl
  obtain ⟨w, hc⟩ := built?_eq hbuilt
  obtain ⟨t, ht, hlane, _, hjob, _⟩ :=
    (trial_failure_truncates_search (scriptedDevice (fun k => 20 - k) 6) 40 plainParams 0 1
      (KernelRunner.mk 1 8 1 2) emptyWorld (by decide)).1 _ hc
  have ht1 : t = tunedLaneFailure := by
    simp only [Construction.tuned?, Option.some.injEq] at ht
    exact ht.symm
  subst ht1
  exact ⟨by decide, hbuilt, rfl, hlane, by decide, hjob⟩

/-- C9. The job search is attempted only when the lanes saturated: a unit
whose lanes value after the lane phase (the job search never changes it)
differs from the runner maximum has no job trial, its jobs value is the
runner minimum, and the `runner.run` calls of the whole construction are the
lane trials alone.  The constructor does return a unit, with 32 units of
fuel, once device binding and pre-fill went through and no search can wrap. -/
theorem job_search_needs_saturated_lanes (d : Device) (fuel : Nat) (params : Argon2Params)
    (deviceIndex : Int) (batchSize : Nat) (r : KernelRunner) (w : World) :
    (∀ t, built? (ProcessingUnit.construct d fuel params deviceIndex batchSize r w) = some t →
      t.unit.bestLanesPerBlock ≠ r.maxLanesPerBlock →
      t.jobTrials = [] ∧ t.unit.bestJobsPerBlock = r.minJobsPerBlock ∧
      (ProcessingUnit.construct d fuel params deviceIndex batchSize r w).map
          (fun c => c.world.runs) = some (w.runs ++ t.laneTrials.map Trial.geometry)) ∧
    (reachesTuning d params deviceIndex batchSize r w → searchesBelowWrap r → 32 ≤ fuel →
      ∃ t, built? (ProcessingUnit.construct d fuel params deviceIndex batchSize r w)
        = some t) := by
  refine ⟨?_, fun hreach hbelow hfuel =>
    construct_returns d fuel params deviceIndex batchSize r w hreach hbelow hfuel⟩
  intro t h hne
  obtain ⟨_, w1, w2, w3, _, _, hjob⟩ := construct_cases h
  have hruns := construct_runs h
  rcases hjob with ⟨_, hts, hbest, _⟩ | ⟨hg, _⟩
  · refine ⟨hts, hbest, ?_⟩
    rw [hruns, hts, List.append_nil]
  · exact absurd hg.1 hne

/-- C9 at a concrete input: the lane search stopped at `2` of `8`, so no job
trial was made and the jobs value is the minimum `1`. -/
theorem job_search_needs_saturated_lanes_witness :
    built? (ProcessingUnit.construct (scriptedDevice (fun k => 20 - k) 6) 40 plainParams
        0 1 (KernelRunner.mk 1 8 1 2) emptyWorld) = some tunedLaneFailure ∧
    tunedLaneFailure.unit.bestLanesPerBlock ≠ 8 ∧
    tunedLaneFailure.jobTrials = [] ∧ tunedLaneFailure.unit.bestJobsPerBlock = 1 ∧
    (ProcessingUnit.construct (scriptedDevice (fun k => 20 - k) 6) 40 plainParams
        0 1 (KernelRunner.mk 1 8 1 2) emptyWorld).map (fun c => c.world.runs)
      = some ([] ++ tunedLaneFailure.laneTrials.map Trial.geometry) :=
  ⟨by rfl, by decide,
   (job_search_needs_saturated_lanes (scriptedDevice (fun k => 20 - k) 6) 40 plainParams 0 1
     (KernelRunner.mk 1 8 1 2) emptyWorld).1 tunedLaneFailure (by rfl) (by decide)⟩

/-- C10, the claim as stated fails.  With a single lanes value and jobs in
`[1, 3]` the maximum `3` exceeds the minimum, yet the constructor dispatches
no job trial, because `3` is not a power of two. -/
theorem jobs_not_explored_when_max_not_power_of_two :
    (KernelRunner.mk 1 1 1 3).maxLanesPerBlock = (KernelRunner.mk 1 1 1 3).minLanesPerBlock ∧
    (KernelRunner.mk 1 1 1 3).maxJobsPerBlock > (KernelRunner.mk 1 1 1 3).minJobsPerBlock ∧
    (built? (ProcessingUnit.construct (scriptedDevice (fun k => 20 - k) 100) 40 plainParams
        0 1 (KernelRunner.mk 1 1 1 3) emptyWorld)).map (fun t => t.jobTrials) = some [] ∧
    (ProcessingUnit.construct (scriptedDevice (fun k => 20 - k) 100) 40 plainParams
        0 1 (KernelRunner.mk 1 1 1 3) emptyWorld).map (fun c => c.world.runs) = some [] :=
  ⟨rfl, by decide, by rfl, by rfl⟩

/-- C10, amended.  Given a single lanes value, a jobs maximum above the jobs
minimum and a jobs maximum that passes `isPowerOfTwo`, a constructor that
returns a unit explored the jobs dimension: there is at least one job trial,
the job trials are the only dispatches of the construction, every one of them
has the lanes fixed at the single lane value and jobs within the maximum,
trial `i` uses `2 ^ i` jobs per block (modulo `2 ^ 32`), and when none of them
failed the doubling went on until it passed the maximum.  Past device binding
and pre-fill, and with the jobs maximum below `2 ^ 31`, the constructor does
return a unit with 32 units of fuel. -/
theorem single_lane_value_explores_jobs (d : Device) (fuel : Nat) (params : Argon2Params)
    (deviceIndex : Int) (batchSize : Nat) (r : KernelRunner) (w : World)
    (hL : r.maxLanesPerBlock = r.minLanesPerBlock)
    (hJ : r.minJobsPerBlock < r.maxJobsPerBlock)
    (hpow : isPowerOfTwo r.maxJobsPerBlock = true) :
    (∀ t, built? (ProcessingUnit.construct d fuel params deviceIndex batchSize r w) = some t →
      t.jobTrials ≠ [] ∧
      (ProcessingUnit.construct d fuel params deviceIndex batchSize r w).map
        (fun c => c.world.runs) = some (w.runs ++ t.jobTrials.map Trial.geometry) ∧
      (∀ tr ∈ t.jobTrials, tr.lanesPerBlock = r.minLanesPerBlock ∧
        tr.jobsPerBlock ≤ r.maxJobsPerBlock) ∧
      (∀ i tr, t.jobTrials[i]? = some tr → tr.jobsPerBlock = 2 ^ i % 2 ^ 32) ∧
      ((∀ tr ∈ t.jobTrials, tr.time ≠ none) →
        r.maxJobsPerBlock < 2 ^ t.jobTrials.length % 2 ^ 32)) ∧
    (reachesTuning d params deviceIndex batchSize r w →
      r.maxJobsPerBlock < 2 ^ 31 → 32 ≤ fuel →
      ∃ t, built? (ProcessingUnit.construct d fuel params deviceIndex batchSize r w)
        = some t) := by
  refine ⟨?_, fun hreach hJ31 hfuel =>
    construct_returns d fuel params deviceIndex batchSize r w hreach
      ⟨fun hlt _ => absurd hL (by omega), fun _ _ => hJ31⟩ hfuel⟩
  intro t h
  obtain ⟨_, w1, w2, w3, _, hlane, hjob⟩ := construct_cases h
  have hruns := construct_runs h
  have hlane1 : t.laneTrials = [] ∧ t.unit.bestLanesPerBlock = r.minLanesPerBlock := by
    rcases hlane with ⟨_, h1, h2, _⟩ | ⟨hg, _⟩
    · exact ⟨h1, h2⟩
    · exact absurd hg.1 (by omega)
  obtain ⟨hlts, hbest⟩ := hlane1
  rcases hjob with ⟨hg, _⟩ | ⟨_, ts, hs, hts⟩
  · exact absurd ⟨hbest.trans hL.symm, hJ, hpow⟩ hg
  · have h1 : 1 ≤ r.maxJobsPerBlock := by omega
    obtain ⟨o, rest, hcons⟩ := searchLoop_nonempty hs h1
    refine ⟨?_, ?_, ?_, ?_, ?_⟩
    · rw [hts, hcons]; simp
    · rw [hruns, hlts, List.nil_append]
    · intro tr htr
      rw [hts] at htr
      obtain ⟨p, hp, rfl⟩ := List.mem_map.1 htr
      exact ⟨hbest, searchLoop_le _ _ _ _ _ _ _ _ hs p hp⟩
    · intro i tr hi
      rw [hts, List.getElem?_map] at hi
      rcases hp : ts[i]? with _ | p
      · rw [hp] at hi; simp at hi
      · rw [hp] at hi
        simp only [Option.map_some', Option.some.injEq] at hi
        subst hi
        have := searchLoop_cands _ _ _ _ _ _ _ _ hs (by norm_num) i p hp
        simpa using this
    · intro hall
      have hall1 : ∀ p ∈ ts, ∃ tm, p.2 = some tm := by
        intro p hp
        have := hall (Trial.mk t.unit.bestLanesPerBlock p.1 p.2)
          (by rw [hts]; exact List.mem_map.2 ⟨p, hp, rfl⟩)
        exact Option.ne_none_iff_exists'.1 this
      have := searchLoop_end _ _ _ _ _ _ _ _ hs (by norm_num) hall1
      rw [hts, List.length_map]
      simpa using this

/-- C10 at a concrete input: with the single lanes value `4` and jobs in
`[1, 4]` the constructor tries `1`, `2` and `4` jobs per block at `4` lanes. -/
theorem single_lane_value_explores_jobs_witness :
    (KernelRunner.mk 4 4 1 4).maxLanesPerBlock = (KernelRunner.mk 4 4 1 4).minLanesPerBlock ∧
    (KernelRunner.mk 4 4 1 4).minJobsPerBlock < (KernelRunner.mk 4 4 1 4).maxJobsPerBlock ∧
    isPowerOfTwo (KernelRunner.mk 4 4 1 4).maxJobsPerBlock = true ∧
    built? (ProcessingUnit.construct (scriptedDevice (fun k => 20 - k) 100) 40 plainParams
        0 1 (KernelRunner.mk 4 4 1 4) emptyWorld) = some tunedJobsOnly ∧
    (tunedJobsOnly.jobTrials ≠ [] ∧
      (ProcessingUnit.construct (scriptedDevice (fun k => 20 - k) 100) 40 plainParams
        0 1 (KernelRunner.mk 4 4 1 4) emptyWorld).map (fun c => c.world.runs)
        = some ([] ++ tunedJobsOnly.jobTrials.map Trial.geometry) ∧
      (∀ tr ∈ tunedJobsOnly.jobTrials, tr.lanesPerBlock = 4 ∧ tr.jobsPerBlock ≤ 4) ∧
      (∀ i tr, tunedJobsOnly.jobTrials[i]? = some tr → tr.jobsPerBlock = 2 ^ i % 2 ^ 32) ∧
      ((∀ tr ∈ tunedJobsOnly.jobTrials, tr.time ≠ none) →
        4 < 2 ^ tunedJobsOnly.jobTrials.length % 2 ^ 32)) :=
  ⟨rfl, by decide, by decide, by rfl,
   (single_lane_value_explores_jobs (scriptedDevice (fun k => 20 - k) 100) 40 plainParams
      0 1 (KernelRunner.mk 4 4 1 4) emptyWorld rfl (by decide) (by decide)).1
      tunedJobsOnly (by rfl)⟩

/-- C11. Tuning is disabled for a dimension whose maximum does not exceed its
minimum or is not a power of two.  For runner bounds that are `std::uint32_t`
values and every construction that returns a unit: in that case the search of
that dimension makes no trial, the selected value of that dimension is the
runner minimum it was initialised to, and no dispatch of the construction
varies that dimension: every trial of either search has it at the runner
minimum, and the trials are all the `runner.run` calls of the construction.
This holds for the lanes and for the jobs.  Past device binding and pre-fill,
and when no search can wrap, the constructor does return a unit with 32 units
of fuel. -/
theorem disabled_dimension_keeps_minimum (d : Device) (fuel : Nat) (params : Argon2Params)
    (deviceIndex : Int) (batchSize : Nat) (r : KernelRunner) (w : World) (hwf : r.WF) :
    (∀ t, built? (ProcessingUnit.construct d fuel params deviceIndex batchSize r w) = some t →
      ((r.maxLanesPerBlock ≤ r.minLanesPerBlock ∨ ¬ ∃ k, r.maxLanesPerBlock = 2 ^ k) →
        t.laneTrials = [] ∧ t.unit.bestLanesPerBlock = r.minLanesPerBlock ∧
        ∀ tr ∈ t.laneTrials ++ t.jobTrials, tr.lanesPerBlock = r.minLanesPerBlock) ∧
      ((r.maxJobsPerBlock ≤ r.minJobsPerBlock ∨ ¬ ∃ k, r.maxJobsPerBlock = 2 ^ k) →
        t.jobTrials = [] ∧ t.unit.bestJobsPerBlock = r.minJobsPerBlock ∧
        ∀ tr ∈ t.laneTrials ++ t.jobTrials, tr.jobsPerBlock = r.minJobsPerBlock) ∧
      (ProcessingUnit.construct d fuel params deviceIndex batchSize r w).map
          (fun c => c.world.runs)
        = some (w.runs ++ (t.laneTrials ++ t.jobTrials).map Trial.geometry)) ∧
    (reachesTuning d params deviceIndex batchSize r w → searchesBelowWrap r → 32 ≤ fuel →
      ∃ t, built? (ProcessingUnit.construct d fuel params deviceIndex batchSize r w)
        = some t) := by
  refine ⟨?_, fun hreach hbelow hfuel =>
    construct_returns d fuel params deviceIndex batchSize r w hreach hbelow hfuel⟩
  intro t h
  obtain ⟨_, w1, w2, w3, _, hlane, hjob⟩ := construct_cases h
  obtain ⟨_, hmaxL, _, hmaxJ⟩ := hwf
  have hoff : ∀ lo hi : Nat, hi < 2 ^ 32 → (hi ≤ lo ∨ ¬ ∃ k, hi = 2 ^ k) →
      ¬ (lo < hi ∧ isPowerOfTwo hi = true) := by
    intro lo hi hhi hdis hg
    rcases hdis with hle | hnp
    · omega
    · rcases (isPowerOfTwo_true_iff hhi).1 hg.2 with h0 | hk
      · omega
      · exact hnp hk
  refine ⟨fun hdis => ?_, fun hdis => ?_, construct_runs h⟩
  · have hno := hoff _ _ hmaxL hdis
    rcases hlane with ⟨_, hts, hb, _⟩ | ⟨hg, _⟩
    · refine ⟨hts, hb, ?_⟩
      intro tr htr
      rw [hts, List.nil_append] at htr
      rcases hjob with ⟨_, hjts, _, _⟩ | ⟨_, ts, _, hjts⟩
      · rw [hjts] at htr; simp at htr
      · rw [hjts] at htr
        obtain ⟨p, _, rfl⟩ := List.mem_map.1 htr
        exact hb
    · exact absurd hg hno
  · have hno := hoff _ _ hmaxJ hdis
    rcases hjob with ⟨_, hjts, hb, _⟩ | ⟨hg, _⟩
    · refine ⟨hjts, hb, ?_⟩
      intro tr htr
      rw [hjts, List.append_nil] at htr
      rcases hlane with ⟨_, hts, _, _⟩ | ⟨_, ts, _, hts⟩
      · rw [hts] at htr; simp at htr
      · rw [hts] at htr
        obtain ⟨p, _, rfl⟩ := List.mem_map.1 htr
        rfl
    · exact absurd ⟨hg.2.1, hg.2.2⟩ hno

/-- C11 at concrete inputs: with the single lanes value `4` (a maximum that
does not exceed the minimum) the constructor makes no lane trial, keeps `4`
lanes per block and runs every job trial at `4` lanes per block; with jobs in
`[1, 3000000000]` (a maximum that is not a power of two) it makes no job
trial and keeps `1` job per block. -/
theorem disabled_dimension_keeps_minimum_witness :
    (KernelRunner.mk 4 4 1 4).WF ∧
    built? (ProcessingUnit.construct (scriptedDevice (fun k => 20 - k) 100) 40 plainParams
        0 1 (KernelRunner.mk 4 4 1 4) emptyWorld) = some tunedJobsOnly ∧
    (tunedJobsOnly.laneTrials = [] ∧ tunedJobsOnly.unit.bestLanesPerBlock = 4 ∧
      ∀ tr ∈ tunedJobsOnly.laneTrials ++ tunedJobsOnly.jobTrials, tr.lanesPerBlock = 4) ∧
    (KernelRunner.mk 1 1 1 3000000000).WF ∧
    built? (ProcessingUnit.construct (scriptedDevice (fun k => 20 - k) 100) 40 plainParams
        0 1 (KernelRunner.mk 1 1 1 3000000000) emptyWorld) = some tunedHugeJobs ∧
    (tunedHugeJobs.jobTrials = [] ∧ tunedHugeJobs.unit.bestJobsPerBlock = 1 ∧
      ∀ tr ∈ tunedHugeJobs.laneTrials ++ tunedHugeJobs.jobTrials, tr.jobsPerBlock = 1) := by
  have hnp : ¬ ∃ k, (3000000000 : Nat) = 2 ^ k := by
    rintro ⟨k, hk⟩
    have hk32 : k < 32 := by
      by_contra hge
      have : 2 ^ 32 ≤ 2 ^ k := Nat.pow_le_pow_right (by norm_num) (by omega)
      omega
    interval_cases k <;> simp at hk
  exact ⟨by decide, by rfl,
    ((disabled_dimension_keeps_minimum (scriptedDevice (fun k => 20 - k) 100) 40 plainParams
      0 1 (KernelRunner.mk 4 4 1 4) emptyWorld (by decide)).1 tunedJobsOnly (by rfl)).1
      (Or.inl (by decide)),
    by decide, by rfl,
    ((disabled_dimension_keeps_minimum (scriptedDevice (fun k => 20 - k) 100) 40 plainParams
      0 1 (KernelRunner.mk 1 1 1 3000000000) emptyWorld (by decide)).1 tunedHugeJobs
      (by rfl)).2.1 (Or.inr hnp)⟩

/-- C12, the code at failing inputs.  A variable that is set to the empty
string passes the test `*end == '\0'` of `env_int`, which therefore returns
the value `0` that `strtol` reports and not the default `-1`; a number too
large for an `int` is returned truncated by `(int)x`, so `4294967297` is read
as `1`.  Under `A2_FORCE=1` the unit with lanes in `[1, 8]` tuned to `2`
dispatches `2` lanes when `A2_LPB` is empty, and the maximum `8` when it is
unset; the unit with lanes in `[1, 16]` tuned to `16` dispatches `1` lane
under `A2_LPB=4294967297`, and `16` when the variable is unset. -/
theorem empty_and_oversized_overrides_are_parsed :
    env_int (envWith "A2_LPB" "") "A2_LPB" (-1) = 0 ∧
    env_int (envWith "A2_LPB" "4294967297") "A2_LPB" (-1) = 1 ∧
    dispatched emptyWorld (tunedLaneFailure.unit.beginProcessing
        (scriptedDevice (fun _ => 5) 100) (envForcedWith "A2_LPB" "") emptyWorld).2
      = [(2, 2)] ∧
    dispatched emptyWorld (tunedLaneFailure.unit.beginProcessing
        (scriptedDevice (fun _ => 5) 100)
        (unsetVar (envForcedWith "A2_LPB" "") "A2_LPB") emptyWorld).2
      = [(8, 2)] ∧
    dispatched emptyWorld (tunedSixteen.unit.beginProcessing
        (scriptedDevice (fun _ => 5) 100) (envWith "A2_LPB" "4294967297") emptyWorld).2
      = [(1, 1)] ∧
    dispatched emptyWorld (tunedSixteen.unit.beginProcessing
        (scriptedDevice (fun _ => 5) 100)
        (unsetVar (envWith "A2_LPB" "4294967297") "A2_LPB") emptyWorld).2
      = [(16, 1)] := by
  decide

/-- C13. A kernel-dispatch failure during normal operation is propagated and
never retried.  `beginProcessing` returns an error exactly when device binding
fails or, binding having succeeded, its `runner.run` call fails; it issues at
most one `runner.run` call; `endProcessing` returns an error exactly when
`runner.finish` fails, and issues no `runner.run` call. -/
theorem dispatch_failure_is_propagated_not_retried (d : Device) (env : Env)
    (u : ProcessingUnit) (w : World) :
    ((u.beginProcessing d env w).1 = Status.cudaError ↔
      (setCudaDevice d w u.deviceIndex).1 = Status.cudaError ∨
      ((setCudaDevice d w u.deviceIndex).1 = Status.ok ∧
        (KernelRunner.run d (setCudaDevice d w u.deviceIndex).2
          (u.resolveGeometry env).1 (u.resolveGeometry env).2).1 = Status.cudaError)) ∧
    (dispatched w (u.beginProcessing d env w).2).length ≤ 1 ∧
    ((ProcessingUnit.endProcessing d w).1 = Status.cudaError ↔
      (KernelRunner.finish d w).1 = none) ∧
    dispatched w (ProcessingUnit.endProcessing d w).2 = [] := by
  refine ⟨?_, ?_, ?_, ?_⟩
  · unfold ProcessingUnit.beginProcessing
    rcases hb : setCudaDevice d w u.deviceIndex with ⟨st, w1⟩
    cases st <;> simp
  · rw [beginProcessing_dispatched]
    split <;> simp
  · unfold ProcessingUnit.endProcessing
    rcases hf : KernelRunner.finish d w with ⟨o, w1⟩
    cases o <;> simp
  · unfold ProcessingUnit.endProcessing dispatched
    rcases hf : KernelRunner.finish d w with ⟨o, w1⟩
    have hw : w1.runs = w.runs := by
      have : (KernelRunner.finish d w).2.runs = w.runs := rfl
      rw [hf] at this
      exact this
    cases o <;> simp [hw]

/-- C14, the claim as stated fails.  The unit tuned to `(2, 2)` first
dispatches under `A2_LPB=1`, then under `A2_FORCE=1` with `A2_JPB=2`; both
calls leave the tuned pair in place.  A later call with no override and the
force toggle off, whose device binding fails, returns the error and
dispatches nothing, so it does not dispatch the tuned geometry. -/
theorem later_dispatch_needs_device_binding :
    (Session.beginAll (scriptedDevice (fun _ => 5) 4)
        [envWith "A2_LPB" "1", envForcedWith "A2_JPB" "2"]
        (Session.mk tunedBoth.unit emptyWorld)).world.runs = [(1, 2), (2, 2)] ∧
    (Session.beginAll (scriptedDevice (fun _ => 5) 4)
        [envWith "A2_LPB" "1", envForcedWith "A2_JPB" "2"]
        (Session.mk tunedBoth.unit emptyWorld)).unit.bestLanesPerBlock = 2 ∧
    (Session.beginAll (scriptedDevice (fun _ => 5) 4)
        [envWith "A2_LPB" "1", envForcedWith "A2_JPB" "2"]
        (Session.mk tunedBoth.unit emptyWorld)).unit.bestJobsPerBlock = 2 ∧
    envNone "A2_LPB" = none ∧ envNone "A2_JPB" = none ∧
    env_on envNone "A2_FORCE" false = false ∧
    (Session.beginProcessing (scriptedDevice (fun _ => 5) 4) envNone
      (Session.beginAll (scriptedDevice (fun _ => 5) 4)
        [envWith "A2_LPB" "1", envForcedWith "A2_JPB" "2"]
        (Session.mk tunedBoth.unit emptyWorld))).1 = Status.cudaError ∧
    dispatched
      (Session.beginAll (scriptedDevice (fun _ => 5) 4)
        [envWith "A2_LPB" "1", envForcedWith "A2_JPB" "2"]
        (Session.mk tunedBoth.unit emptyWorld)).world
      (Session.beginProcessing (scriptedDevice (fun _ => 5) 4) envNone
        (Session.beginAll (scriptedDevice (fun _ => 5) 4)
          [envWith "A2_LPB" "1", envForcedWith "A2_JPB" "2"]
          (Session.mk tunedBoth.unit emptyWorld))).2.world = [] := by
  decide

/-- C14, amended.  Override resolution is per-dispatch and leaves the tuned
defaults untouched: a `beginProcessing` call, under any environment and
whether it returns or raises, leaves the unit, and with it
`bestLanesPerBlock` and `bestJobsPerBlock`, as it found them; so does any
sequence of such calls; and a later call with no override set and the force
toggle off dispatches exactly the pair the unit held before the sequence when
its device binding succeeds, and nothing when its device binding fails. -/
theorem tuned_defaults_survive_dispatches (d : Device) (envs : List Env) (s : Session)
    (env : Env) (hl : env "A2_LPB" = none) (hj : env "A2_JPB" = none)
    (hf : env_on env "A2_FORCE" false = false) :
    (∀ e, (Session.beginProcessing d e s).2.unit = s.unit) ∧
    (Session.beginAll d envs s).unit = s.unit ∧
    (Session.beginAll d envs s).unit.bestLanesPerBlock = s.unit.bestLanesPerBlock ∧
    (Session.beginAll d envs s).unit.bestJobsPerBlock = s.unit.bestJobsPerBlock ∧
    dispatched (Session.beginAll d envs s).world
        (Session.beginProcessing d env (Session.beginAll d envs s)).2.world =
      if (setCudaDevice d (Session.beginAll d envs s).world s.unit.deviceIndex).1 = Status.ok
      then [(s.unit.bestLanesPerBlock, s.unit.bestJobsPerBlock)] else [] := by
  have hu := beginAll_unit d envs s
  refine ⟨fun _ => rfl, hu, by rw [hu], by rw [hu], ?_⟩
  have h1 : (s.unit.resolveGeometry env).1 = s.unit.bestLanesPerBlock := by
    rw [resolveGeometry_lanes, env_int_unset hl, hf]
    simp
  have h2 : (s.unit.resolveGeometry env).2 = s.unit.bestJobsPerBlock := by
    rw [resolveGeometry_jobs, env_int_unset hj, hf]
    simp
  have hg : s.unit.resolveGeometry env = (s.unit.bestLanesPerBlock, s.unit.bestJobsPerBlock) :=
    Prod.ext h1 h2
  have hd := beginProcessing_dispatched d env (Session.beginAll d envs s).unit
    (Session.beginAll d envs s).world
  rw [hu, hg] at hd
  rw [← hd]
  simp only [Session.beginProcessing, hu]

/-- C14 at a concrete input: the unit the constructor tuned to `(2, 2)` first
dispatches `(1, 2)` under `A2_LPB=1` and `(2, 2)` under `A2_FORCE=1` with
`A2_JPB=2`; it still holds `(2, 2)`, and a later call with an empty
environment on a device that binds dispatches `(2, 2)`. -/
theorem tuned_defaults_survive_dispatches_witness :
    envNone "A2_LPB" = none ∧ envNone "A2_JPB" = none ∧
    env_on envNone "A2_FORCE" false = false ∧
    built? (ProcessingUnit.construct (scriptedDevice (fun k => 20 - k) 100) 40 plainParams
        0 1 (KernelRunner.mk 1 2 1 2) emptyWorld) = some tunedBoth ∧
    (Session.beginAll (scriptedDevice (fun _ => 5) 100)
        [envWith "A2_LPB" "1", envForcedWith "A2_JPB" "2"]
        (Session.mk tunedBoth.unit emptyWorld)).world.runs = [(1, 2), (2, 2)] ∧
    (Session.beginAll (scriptedDevice (fun _ => 5) 100)
        [envWith "A2_LPB" "1", envForcedWith "A2_JPB" "2"]
        (Session.mk tunedBoth.unit emptyWorld)).unit.bestLanesPerBlock = 2 ∧
    (Session.beginAll (scriptedDevice (fun _ => 5) 100)
        [envWith "A2_LPB" "1", envForcedWith "A2_JPB" "2"]
        (Session.mk tunedBoth.unit emptyWorld)).unit.bestJobsPerBlock = 2 ∧
    dispatched
      (Session.beginAll (scriptedDevice (fun _ => 5) 100)
        [envWith "A2_LPB" "1", envForcedWith "A2_JPB" "2"]
        (Session.mk tunedBoth.unit emptyWorld)).world
      (Session.beginProcessing (scriptedDevice (fun _ => 5) 100) envNone
        (Session.beginAll (scriptedDevice (fun _ => 5) 100)
          [envWith "A2_LPB" "1", envForcedWith "A2_JPB" "2"]
          (Session.mk tunedBoth.unit emptyWorld))).2.world = [(2, 2)] :=
  ⟨rfl, rfl, by decide, by rfl, by decide,
   (tuned_defaults_survive_dispatches (scriptedDevice (fun _ => 5) 100)
     [envWith "A2_LPB" "1", envForcedWith "A2_JPB" "2"]
     (Session.mk tunedBoth.unit emptyWorld) envNone rfl rfl (by decide)).2.2.1,
   (tuned_defaults_survive_dispatches (scriptedDevice (fun _ => 5) 100)
     [envWith "A2_LPB" "1", envForcedWith "A2_JPB" "2"]
     (Session.mk tunedBoth.unit emptyWorld) envNone rfl rfl (by decide)).2.2.2.1,
   (tuned_defaults_survive_dispatches (scriptedDevice (fun _ => 5) 100)
     [envWith "A2_LPB" "1", envForcedWith "A2_JPB" "2"]
     (Session.mk tunedBoth.unit emptyWorld) envNone rfl rfl (by decide)).2.2.2.2.trans
     (by decide)⟩

/-- C15. Idempotent re-query.  In every state of the unit and of the runner's
memory, in particular after one completed dispatch, and for every index, in
particular every index in `[0, batchSize)`: `getHash` returns the digest
`finalize` derives from the output memory of the slot, it leaves the unit
(with its tuned geometry) and the world (with the runner's input and output
memory and the list of dispatches) as it found them, and a second `getHash`
for the same index, with no call in between, returns the same digest and
again changes nothing. -/
theorem getHash_is_idempotent (u : ProcessingUnit) (w : World) (index : Nat) :
    (u.getHash w index).1 = u.params.finalize (w.output index) ∧
    (u.getHash w index).2.1 = u ∧
    (u.getHash w index).2.1.bestLanesPerBlock = u.bestLanesPerBlock ∧
    (u.getHash w index).2.1.bestJobsPerBlock = u.bestJobsPerBlock ∧
    (u.getHash w index).2.2 = w ∧
    (u.getHash w index).2.2.input = w.input ∧
    (u.getHash w index).2.2.output = w.output ∧
    ((u.getHash w index).2.1.getHash (u.getHash w index).2.2 index).1
      = (u.getHash w index).1 ∧
    ((u.getHash w index).2.1.getHash (u.getHash w index).2.2 index).2
      = (u.getHash w index).2 :=
  ⟨rfl, rfl, rfl, rfl, rfl, rfl, rfl, rfl, rfl⟩

/-- C16, the code at a failing input.  With lanes bounds `[1, 2 ^ 31]`, a
power of two that a `std::uint32_t` holds, and a device on which no trial ever
fails, the lane-search loop does not terminate: the candidate wraps from
`2 ^ 31` to `0` and stays within the bound, so no amount of fuel lets the
constructor return.  On a device whose 35th trial fails the loop does end,
after 35 trials, more than the `log2 (2 ^ 31) + 1 = 32` of the claim. -/
theorem lane_search_does_not_end_at_two_pow_31 :
    (∀ fuel, ProcessingUnit.construct steadyDevice fuel plainParams 0 1
        (KernelRunner.mk 1 (2 ^ 31) 1 1) emptyWorld = none) ∧
    (built? (ProcessingUnit.construct (scriptedDevice (fun _ => 5) 70) 40 plainParams
        0 1 (KernelRunner.mk 1 (2 ^ 31) 1 1) emptyWorld)).map
      (fun t => decide (t.laneTrials.length = 35 ∧ 31 + 1 < t.laneTrials.length))
      = some true := by
  refine ⟨fun fuel => ?_, by rfl⟩
  have hs : ∀ b w, searchLoop steadyDevice (fun lpb => (lpb, 1)) (2 ^ 31) fuel 1 Time.infinity b w
      = none :=
    fun b w => searchLoop_steady_wraps _ fuel 1 Time.infinity b w (Or.inr ⟨0, by omega, rfl⟩)
  have hb : setCudaDevice steadyDevice emptyWorld 0 = (Status.ok, emptyWorld.tick) := rfl
  obtain ⟨w2, hp⟩ : ∃ w2, prefill steadyDevice
      (ProcessingUnit.initial plainParams 0 1 (KernelRunner.mk 1 (2 ^ 31) 1 1)) 1 0
      emptyWorld.tick = (Status.ok, w2) :=
    ⟨(prefill steadyDevice
        (ProcessingUnit.initial plainParams 0 1 (KernelRunner.mk 1 (2 ^ 31) 1 1)) 1 0
        emptyWorld.tick).2, by rfl⟩
  have hl : laneSearch steadyDevice fuel
      (ProcessingUnit.initial plainParams 0 1 (KernelRunner.mk 1 (2 ^ 31) 1 1)) w2 = none := by
    unfold laneSearch
    rw [if_pos (by decide)]
    simp only [ProcessingUnit.initial]
    rw [hs]
  unfold ProcessingUnit.construct
  simp only [hb, hp]
  unfold tune
  rw [hl]

/-- C17, the code at a failing input.  With lanes bounds `[1, 2 ^ 31]` and a
device whose first 34 trials complete, the lane trials are the whole list
`(1, 1), (2, 1), (4, 1), ..., (2 ^ 31, 1)` followed by three trials of the
geometry `(0, 1)`, the last of which fails: the trials go on past the end of
the list with a candidate that is not in it. -/
theorem lane_trials_leave_the_list_after_wrap :
    (built? (ProcessingUnit.construct (scriptedDevice (fun _ => 5) 70) 40 plainParams
        0 1 (KernelRunner.mk 1 (2 ^ 31) 1 1) emptyWorld)).map
      (fun t => (t.laneTrials.map Trial.geometry,
        (t.laneTrials.take 34).all (fun tr => tr.time != none),
        t.laneTrials.drop 34))
      = some ((doublingCandidates (2 ^ 31)).map (fun c => (c, 1)) ++ [(0, 1), (0, 1), (0, 1)],
          true, [Trial.mk 0 1 none]) := by
  rfl

/-- C18, the code at a failing input.  With lanes bounds `[1, 2 ^ 31]` the
candidate wraps from `2 ^ 31` to `0`; on a device where the trial of candidate
`0` is the fastest and the next trial fails, the constructor selects
`bestLanesPerBlock = 0`, which is neither the runner minimum `1` nor a power
of two. -/
theorem tuned_lanes_zero_after_wrap :
    (built? (ProcessingUnit.construct wrapDevice 40 plainParams
        0 1 (KernelRunner.mk 1 (2 ^ 31) 1 1) emptyWorld)).map
      (fun t => (t.unit.bestLanesPerBlock, t.unit.runner.minLanesPerBlock))
      = some (0, 1) ∧
    ∀ k, (0 : Nat) ≠ 2 ^ k := by
  refine ⟨by rfl, fun k => ?_⟩
  have : 0 < 2 ^ k := Nat.two_pow_pos k
  omega

/-- C19, the claim as stated fails.  With `A2_LPB=0`, force on or off, a
`beginProcessing` whose device binding fails returns the error and dispatches
nothing, so it does not dispatch the tuned default. -/
theorem zero_override_dispatches_nothing_without_binding :
    env_int (envWith "A2_LPB" "0") "A2_LPB" (-1) = 0 ∧
    env_int (envForcedWith "A2_LPB" "0") "A2_LPB" (-1) = 0 ∧
    env_on (envWith "A2_LPB" "0") "A2_FORCE" false = false ∧
    env_on (envForcedWith "A2_LPB" "0") "A2_FORCE" false = true ∧
    (tunedLaneFailure.unit.beginProcessing (scriptedDevice (fun _ => 5) 0)
      (envWith "A2_LPB" "0") emptyWorld).1 = Status.cudaError ∧
    dispatched emptyWorld (tunedLaneFailure.unit.beginProcessing
      (scriptedDevice (fun _ => 5) 0) (envWith "A2_LPB" "0") emptyWorld).2 = [] ∧
    dispatched emptyWorld (tunedLaneFailure.unit.beginProcessing
      (scriptedDevice (fun _ => 5) 0) (envForcedWith "A2_LPB" "0") emptyWorld).2 = [] := by
  decide

/-- C19, amended.  An override value of exactly `0` for a dimension is treated
neither as an explicit override nor as unset for force-maximum purposes: for
every bounds, every tuned state and every value of the force toggle and of
the other override, with that dimension's override equal to `0` the value
`beginProcessing` resolves for the dimension is the tuned default, and the
one `runner.run` call it issues when device binding succeeds carries it; when
device binding fails it issues no `runner.run` call. -/
theorem zero_override_dispatches_tuned_default (d : Device) (env : Env) (u : ProcessingUnit)
    (w : World) :
    (env_int env "A2_LPB" (-1) = 0 →
      (u.resolveGeometry env).1 = u.bestLanesPerBlock ∧
      dispatched w (u.beginProcessing d env w).2 =
        if (setCudaDevice d w u.deviceIndex).1 = Status.ok
        then [(u.bestLanesPerBlock, (u.resolveGeometry env).2)] else []) ∧
    (env_int env "A2_JPB" (-1) = 0 →
      (u.resolveGeometry env).2 = u.bestJobsPerBlock ∧
      dispatched w (u.beginProcessing d env w).2 =
        if (setCudaDevice d w u.deviceIndex).1 = Status.ok
        then [((u.resolveGeometry env).1, u.bestJobsPerBlock)] else []) := by
  constructor
  · intro h0
    have h1 : (u.resolveGeometry env).1 = u.bestLanesPerBlock := by
      rw [resolveGeometry_lanes, h0]
      simp
    refine ⟨h1, ?_⟩
    rw [beginProcessing_dispatched, ← h1]
  · intro h0
    have h2 : (u.resolveGeometry env).2 = u.bestJobsPerBlock := by
      rw [resolveGeometry_jobs, h0]
      simp
    refine ⟨h2, ?_⟩
    rw [beginProcessing_dispatched, ← h2]

/-- C19 at a concrete input: the unit with lanes in `[1, 8]` tuned to `2`
lanes, on a device that binds, dispatches `2` lanes under `A2_LPB=0` with
`A2_FORCE=1` (and the forced maximum `2` of the jobs), and `2` lanes under
`A2_LPB=0` alone. -/
theorem zero_override_dispatches_tuned_default_witness :
    env_int (envForcedWith "A2_LPB" "0") "A2_LPB" (-1) = 0 ∧
    env_on (envForcedWith "A2_LPB" "0") "A2_FORCE" false = true ∧
    dispatched emptyWorld (tunedLaneFailure.unit.beginProcessing
      (scriptedDevice (fun _ => 5) 100) (envForcedWith "A2_LPB" "0") emptyWorld).2
      = [(2, 2)] ∧
    env_int (envWith "A2_LPB" "0") "A2_LPB" (-1) = 0 ∧
    env_on (envWith "A2_LPB" "0") "A2_FORCE" false = false ∧
    dispatched emptyWorld (tunedLaneFailure.unit.beginProcessing
      (scriptedDevice (fun _ => 5) 100) (envWith "A2_LPB" "0") emptyWorld).2
      = [(2, 1)] :=
  ⟨by decide, by decide,
   (((zero_override_dispatches_tuned_default (scriptedDevice (fun _ => 5) 100)
      (envForcedWith "A2_LPB" "0") tunedLaneFailure.unit emptyWorld).1 (by decide)).2).trans
      (by decide),
   by decide, by decide,
   (((zero_override_dispatches_tuned_default (scriptedDevice (fun _ => 5) 100)
      (envWith "A2_LPB" "0") tunedLaneFailure.unit emptyWorld).1 (by decide)).2).trans
      (by decide)⟩

/-- C20. For every 32-bit unsigned `x`, `isPowerOfTwo(x)` returns true if and
only if `x = 0` or `x = 2 ^ k` for some `0 ≤ k ≤ 31`; the subtraction `x - 1`
wraps modulo `2 ^ 32` when `x = 0`. -/
theorem isPowerOfTwo_iff_zero_or_power (x : Nat) (hx : x < 2 ^ 32) :
    isPowerOfTwo x = true ↔ x = 0 ∨ ∃ k, k ≤ 31 ∧ x = 2 ^ k := by
  rw [isPowerOfTwo_true_iff hx]
  constructor
  · rintro (h | ⟨k, hk⟩)
    · exact Or.inl h
    · exact Or.inr ⟨k, pow_lt_two_pow_32 (hk ▸ hx), hk⟩
  · rintro (h | ⟨k, _, hk⟩)
    · exact Or.inl h
    · exact Or.inr ⟨k, hk⟩

/-- C20 at concrete inputs: `isPowerOfTwo` accepts `2 ^ 31` and `0`, and
rejects `12`, which is neither `0` nor a power of two. -/
theorem isPowerOfTwo_iff_zero_or_power_witness :
    (2 ^ 31 : Nat) < 2 ^ 32 ∧ isPowerOfTwo (2 ^ 31) = true ∧
    isPowerOfTwo 0 = true ∧
    ¬ ((12 : Nat) = 0 ∨ ∃ k, k ≤ 31 ∧ (12 : Nat) = 2 ^ k) :=
  ⟨by decide,
   (isPowerOfTwo_iff_zero_or_power (2 ^ 31) (by decide)).2 (Or.inr ⟨31, Nat.le_refl 31, rfl⟩),
   (isPowerOfTwo_iff_zero_or_power 0 (by decide)).2 (Or.inl rfl),
   fun h => absurd ((isPowerOfTwo_iff_zero_or_power 12 (by decide)).2 h) (by decide)⟩

end cuda
end argon2
